import Mathlib

/-! The revision controller.

A shallow embedding of
`vendor/github.com/openshift/library-go/pkg/operator/revisioncontroller/revision_controller.go`.

The controller runs against an API server.  The server is a `World`: the
configmaps and secrets of the target namespace, the operator resource (management
state, `latestAvailableRevision`, conditions) and the log of the calls made so far.
Every controller function takes a `World` and returns its Go results together with
the `World` it leaves behind.  Rejected calls are described by a `Faults` record.

Go `int32` values are `Int` with an explicit `wrapInt32` wherever Go would wrap.
Go maps are association lists read through `List.lookup`; a nil map and an empty
map are both `[]`, which is how `equality.Semantic.DeepEqual` treats them.
-/

namespace revisioncontroller

/-! ## Values -/

/-- Conversion of an integer to `int32` as Go performs it: two's complement wrap. -/
def wrapInt32 (x : Int) : Int := (x + 2147483648) % 4294967296 - 2147483648

/-- The values an `int32` can hold. -/
def isInt32 (x : Int) : Prop := -2147483648 ≤ x ∧ x ≤ 2147483647

instance (x : Int) : Decidable (isInt32 x) := by unfold isInt32; infer_instance

/-- Errors that travel through the controller. -/
inductive GoError where
  /-- The result of `apierrors.NewNotFound(resource, name)`. -/
  | notFound (resource : String) (name : String)
  /-- The `strconv.ErrSyntax` failure of `strconv.Atoi`. -/
  | atoiMalformed (text : String)
  /-- The `strconv.ErrRange` failure of `strconv.Atoi`. -/
  | atoiRange (text : String)
  /-- The value `factory.SyntheticRequeueError`. -/
  | syntheticRequeue
  /-- Any other error of an API call. -/
  | api (msg : String)
  deriving DecidableEq, Repr

/-- The text of an error, Go `err.Error()`. -/
def GoError.Error : GoError → String
  | .notFound resource name => resource ++ " \"" ++ name ++ "\" not found"
  | .atoiMalformed text => "strconv.Atoi: parsing \"" ++ text ++ "\": invalid syntax"
  | .atoiRange text => "strconv.Atoi: parsing \"" ++ text ++ "\": value out of range"
  | .syntheticRequeue => "synthetic requeue request"
  | .api msg => msg

deriving instance DecidableEq for Except

/-- Modelled from the spec: `apierrors.IsNotFound` is not among the sources; it holds of the
NotFound outcome of a call and of no other (`nil` when the call succeeded). -/
def IsNotFound {α : Type} : Except GoError α → Bool
  | .error (.notFound _ _) => true
  | _ => false

/-- The type `RevisionResource`: a tracked configmap or secret. -/
structure RevisionResource where
  Name : String
  Optional : Bool
  deriving DecidableEq, Repr

/-- A `corev1.ConfigMap` of the target namespace: name, data and the names of its owners. -/
structure ConfigMap where
  Name : String
  Data : List (String × String)
  OwnerReferences : List String
  deriving DecidableEq, Repr

/-- A `corev1.Secret` of the target namespace; a `[]byte` value is a list of byte values. -/
structure Secret where
  Name : String
  Data : List (String × List Nat)
  OwnerReferences : List String
  deriving DecidableEq, Repr

/-- An `operatorv1.OperatorCondition`. -/
structure OperatorCondition where
  condType : String
  Status : String
  Reason : String
  Message : String
  deriving DecidableEq, Repr

/-- The struct `RevisionController`: the tracked configmaps and secrets. The target namespace
is the namespace the `World` describes. -/
structure RevisionController where
  configMaps : List RevisionResource
  secrets : List RevisionResource
  deriving Repr

/-- An `operatorv1.ManagementState`: its name and whether the controller should act in it. -/
structure ManagementState where
  name : String
  controllerActs : Bool
  deriving DecidableEq, Repr

/-- The calls the controller makes on its collaborators, in the order it makes them. -/
inductive Call where
  | getLatestRevisionState
  | getConfigMap (name : String)
  | getSecret (name : String)
  | listConfigMaps
  | syncConfigMap (sourceName targetName : String)
  | syncSecret (sourceName targetName : String)
  | applyConfigMap (required : ConfigMap)
  | applySecret (required : Secret)
  | updateLatestRevisionOperatorStatus (latestAvailableRevision : Int)
      (conditions : List OperatorCondition)
  | updateStatus (conditions : List OperatorCondition)
  | eventf (reason messageFmt : String) (args : List String)
  | warningf (reason messageFmt : String) (args : List String)
  deriving DecidableEq, Repr

/-- The API server as the controller sees it. -/
structure World where
  managementState : ManagementState
  latestAvailableRevision : Int
  resourceVersion : String
  conditions : List OperatorCondition
  configMaps : List ConfigMap
  secrets : List Secret
  log : List Call
  deriving DecidableEq, Repr

/-- The calls that are rejected, each with the error it returns. -/
structure Faults where
  getLatestRevisionState : Option GoError
  listConfigMaps : Option GoError
  writeConfigMap : String → Option GoError
  writeSecret : String → Option GoError
  updateLatestRevisionOperatorStatus : Option GoError
  updateStatus : Option GoError

/-- No call is rejected. -/
def Faults.none : Faults :=
  { getLatestRevisionState := Option.none, listConfigMaps := Option.none,
    writeConfigMap := fun _ => Option.none, writeSecret := fun _ => Option.none,
    updateLatestRevisionOperatorStatus := Option.none, updateStatus := Option.none }

/-- Appends a call to the log. -/
def World.record (c : Call) (w : World) : World := { w with log := w.log ++ [c] }

/-! ## Helpers of the Go runtime and libraries -/

/-- The verb `%d` of `fmt.Sprintf` on an integer. -/
def formatInt (i : Int) : String :=
  match i with
  | Int.ofNat n => String.mk (Nat.toDigits 10 n)
  | Int.negSucc n => String.mk ('-' :: Nat.toDigits 10 (n + 1))

/-- The function `strings.HasPrefix`. -/
def startsWith (s pre : String) : Bool := pre.data.isPrefixOf s.data

/-- The function `strings.Join`. -/
def join (elems : List String) (sep : String) : String := sep.intercalate elems

/-- The function `strconv.Atoi`: an optional sign and at least one decimal digit, the value
within the 64-bit `int`. -/
def atoi (s : String) : Except GoError Int :=
  let body : List Char :=
    match s.data with
    | '-' :: rest => rest
    | '+' :: rest => rest
    | cs => cs
  if body.isEmpty || !body.all Char.isDigit then .error (.atoiMalformed s)
  else
    let n : Nat := body.foldl (fun acc ch => 10 * acc + (ch.toNat - 48)) 0
    let v : Int := if s.data.head? = some '-' then -(n : Int) else (n : Int)
    if v < -9223372036854775808 || 9223372036854775807 < v then .error (.atoiRange s)
    else .ok v

/-- Modelled from the spec: `equality.Semantic.DeepEqual` is not among the sources; content
equality is deep structural equality over the data payload: both maps have the same keys with
the same values. -/
def DeepEqual {V : Type} [DecidableEq V] (a b : List (String × V)) : Bool :=
  a.all (fun kv => decide (b.lookup kv.1 = a.lookup kv.1)) &&
    b.all (fun kv => decide (a.lookup kv.1 = b.lookup kv.1))

/-- Modelled from the spec: `v1helpers.UpdateConditionFn` is not among the sources; a condition
update replaces the condition of the same type in the set of conditions, or adds it. -/
def setOperatorCondition (cond : OperatorCondition) :
    List OperatorCondition → List OperatorCondition
  | [] => [cond]
  | x :: xs =>
    if x.condType = cond.condType then cond :: xs else x :: setOperatorCondition cond xs

/-- Modelled from the spec: `management.IsOperatorManaged` is not among the sources. The spec
says only that a management mode indicates whether the controller should act, so a mode is
given by its name and that indication. -/
def IsOperatorManaged (state : ManagementState) : Bool := state.controllerActs

/-- Modelled from the spec: the constant `condition.RevisionControllerDegradedConditionType` is
not among the sources; the degraded condition is the condition `RevisionControllerDegraded`
that `createRevisionIfNeeded` sets. -/
def RevisionControllerDegradedConditionType : String := "RevisionControllerDegraded"

/-! ## The API server -/

/-- The first configmap of the given name. -/
def findConfigMap (name : String) (cms : List ConfigMap) : Option ConfigMap :=
  cms.find? (fun cm => decide (cm.Name = name))

/-- The first secret of the given name. -/
def findSecret (name : String) (ss : List Secret) : Option Secret :=
  ss.find? (fun s => decide (s.Name = name))

/-- Create-or-update of a configmap: replaces the configmap of the same name, or adds it. -/
def upsertConfigMap (required : ConfigMap) : List ConfigMap → List ConfigMap
  | [] => [required]
  | x :: xs => if x.Name = required.Name then required :: xs else x :: upsertConfigMap required xs

/-- Create-or-update of a secret: replaces the secret of the same name, or adds it. -/
def upsertSecret (required : Secret) : List Secret → List Secret
  | [] => [required]
  | x :: xs => if x.Name = required.Name then required :: xs else x :: upsertSecret required xs

/-- The namespace after the create-or-update of a configmap. -/
def World.putConfigMap (required : ConfigMap) (w : World) : World :=
  { w with configMaps := upsertConfigMap required w.configMaps }

/-- The namespace after the create-or-update of a secret. -/
def World.putSecret (required : Secret) (w : World) : World :=
  { w with secrets := upsertSecret required w.secrets }

/-- Modelled from the spec: the client call `ConfigMaps(ns).Get` is not among the sources;
`get(kind, name)` gives the content or NotFound. -/
def getConfigMap (name : String) (w : World) : Except GoError ConfigMap × World :=
  (match findConfigMap name w.configMaps with
    | some cm => .ok cm
    | none => .error (.notFound "configmaps" name),
    w.record (.getConfigMap name))

/-- Modelled from the spec: the client call `Secrets(ns).Get` is not among the sources;
`get(kind, name)` gives the content or NotFound. -/
def getSecret (name : String) (w : World) : Except GoError Secret × World :=
  (match findSecret name w.secrets with
    | some s => .ok s
    | none => .error (.notFound "secrets" name),
    w.record (.getSecret name))

/-- Modelled from the spec: the client call `ConfigMaps(ns).List` is not among the sources;
`list(kind)` gives every resource of the kind, unless the call is rejected. -/
def listConfigMaps (f : Faults) (w : World) : Except GoError (List ConfigMap) × World :=
  match f.listConfigMaps with
  | some err => (.error err, w.record .listConfigMaps)
  | none => (.ok w.configMaps, w.record .listConfigMaps)

/-- Modelled from the spec: `resourceapply.ApplyConfigMap` is not among the sources; it is the
create-or-update of the given configmap, and a rejected write changes nothing. -/
def ApplyConfigMap (f : Faults) (required : ConfigMap) (w : World) :
    Except GoError ConfigMap × World :=
  match f.writeConfigMap required.Name with
  | some err => (.error err, w.record (.applyConfigMap required))
  | none => (.ok required, (w.record (.applyConfigMap required)).putConfigMap required)

/-- Modelled from the spec: `resourceapply.ApplySecret` is not among the sources; it is the
create-or-update of the given secret, and a rejected write changes nothing. -/
def ApplySecret (f : Faults) (required : Secret) (w : World) : Except GoError Secret × World :=
  match f.writeSecret required.Name with
  | some err => (.error err, w.record (.applySecret required))
  | none => (.ok required, (w.record (.applySecret required)).putSecret required)

/-- Modelled from the spec: `resourceapply.SyncConfigMap` is not among the sources; it copies
the current source content into the target with the given owner, and skips (no object, no
error) when the source is absent. -/
def SyncConfigMap (f : Faults) (sourceName targetName : String) (ownerRefs : List String)
    (w : World) : Except GoError (Option ConfigMap) × World :=
  let w1 := w.record (.syncConfigMap sourceName targetName)
  match findConfigMap sourceName w1.configMaps with
  | none => (.ok none, w1)
  | some source =>
    match ApplyConfigMap f
        { Name := targetName, Data := source.Data, OwnerReferences := ownerRefs } w1 with
    | (.error err, w2) => (.error err, w2)
    | (.ok obj, w2) => (.ok (some obj), w2)

/-- Modelled from the spec: `resourceapply.SyncSecret` is not among the sources; it copies the
current source content into the target with the given owner, and skips (no object, no error)
when the source is absent. -/
def SyncSecret (f : Faults) (sourceName targetName : String) (ownerRefs : List String)
    (w : World) : Except GoError (Option Secret) × World :=
  let w1 := w.record (.syncSecret sourceName targetName)
  match findSecret sourceName w1.secrets with
  | none => (.ok none, w1)
  | some source =>
    match ApplySecret f
        { Name := targetName, Data := source.Data, OwnerReferences := ownerRefs } w1 with
    | (.error err, w2) => (.error err, w2)
    | (.ok obj, w2) => (.ok (some obj), w2)

/-- Modelled from the spec: the client method `GetLatestRevisionState` is not among the
sources; `read()` gives the spec, the latest revision and the concurrency token. -/
def GetLatestRevisionState (f : Faults) (w : World) :
    Except GoError (ManagementState × Int × String) × World :=
  match f.getLatestRevisionState with
  | some err => (.error err, w.record .getLatestRevisionState)
  | none =>
    (.ok (w.managementState, w.latestAvailableRevision, w.resourceVersion),
      w.record .getLatestRevisionState)

/-- Modelled from the spec: the client method `UpdateLatestRevisionOperatorStatus` is not
among the sources; `casUpdate(newRevision, conditionUpdates)` writes the revision and applies
the condition updates, reports whether the status changed, and a rejected update changes
nothing. -/
def UpdateLatestRevisionOperatorStatus (f : Faults) (latestAvailableRevision : Int)
    (updateFuncs : List OperatorCondition) (w : World) : (Bool × Option GoError) × World :=
  let w1 := w.record (.updateLatestRevisionOperatorStatus latestAvailableRevision updateFuncs)
  match f.updateLatestRevisionOperatorStatus with
  | some err => ((false, some err), w1)
  | none =>
    let conditions := updateFuncs.foldl (fun cs cond => setOperatorCondition cond cs) w.conditions
    ((decide (latestAvailableRevision ≠ w.latestAvailableRevision ∨ conditions ≠ w.conditions),
        none),
      { w1 with latestAvailableRevision := latestAvailableRevision, conditions := conditions })

/-- Modelled from the spec: `v1helpers.UpdateStatus` is not among the sources;
`casUpdate(conditionUpdates)` applies the condition updates, reports whether the status
changed, and a rejected update changes nothing. -/
def UpdateStatus (f : Faults) (updateFuncs : List OperatorCondition) (w : World) :
    (Bool × Option GoError) × World :=
  let w1 := w.record (.updateStatus updateFuncs)
  match f.updateStatus with
  | some err => ((false, some err), w1)
  | none =>
    let conditions := updateFuncs.foldl (fun cs cond => setOperatorCondition cond cs) w.conditions
    ((decide (conditions ≠ w.conditions), none), { w1 with conditions := conditions })

/-- The recorder call `recorder.Eventf`: fire-and-forget. -/
def Eventf (reason messageFmt : String) (args : List String) (w : World) : World :=
  w.record (.eventf reason messageFmt args)

/-- The recorder call `recorder.Warningf`: fire-and-forget. -/
def Warningf (reason messageFmt : String) (args : List String) (w : World) : World :=
  w.record (.warningf reason messageFmt args)

/-! ## The controller -/

/-- The function `nameFor`: `fmt.Sprintf("%s-%d", name, revision)`. -/
def nameFor (name : String) (revision : Int) : String :=
  name ++ "-" ++ formatInt revision

/-- The loop of `isLatestRevisionCurrent` over the tracked configmaps. An early
`return false, err.Error()` is `Except.error` with the text; otherwise the loop ends with
`configChanges`. -/
def isLatestRevisionCurrent.configMapLoop (revision : Int) :
    List RevisionResource → List String → World → Except String (List String) × World
  | [], configChanges, w => (.ok configChanges, w)
  | cm :: rest, configChanges, w =>
    match getConfigMap cm.Name w with
    | (required, w1) =>
      if IsNotFound required && !cm.Optional then
        (.error (match required with | .error err => err.Error | .ok _ => ""), w1)
      else
        match getConfigMap (nameFor cm.Name revision) w1 with
        | (existing, w2) =>
          if IsNotFound existing && !cm.Optional then
            (.error (match existing with | .error err => err.Error | .ok _ => ""), w2)
          else
            let requiredData := match required with | .ok r => r.Data | .error _ => []
            let existingData := match existing with | .ok e => e.Data | .error _ => []
            if !DeepEqual existingData requiredData then
              isLatestRevisionCurrent.configMapLoop revision rest
                (configChanges ++ ["configmap/" ++ cm.Name ++ " has changed"]) w2
            else
              isLatestRevisionCurrent.configMapLoop revision rest configChanges w2

/-- The loop of `isLatestRevisionCurrent` over the tracked secrets. An early
`return false, err.Error()` is `Except.error` with the text; otherwise the loop ends with
`secretChanges`. -/
def isLatestRevisionCurrent.secretLoop (revision : Int) :
    List RevisionResource → List String → World → Except String (List String) × World
  | [], secretChanges, w => (.ok secretChanges, w)
  | s :: rest, secretChanges, w =>
    match getSecret s.Name w with
    | (required, w1) =>
      if IsNotFound required && !s.Optional then
        (.error (match required with | .error err => err.Error | .ok _ => ""), w1)
      else
        match getSecret (nameFor s.Name revision) w1 with
        | (existing, w2) =>
          if IsNotFound existing && !s.Optional then
            (.error (match existing with | .error err => err.Error | .ok _ => ""), w2)
          else
            let requiredData := match required with | .ok r => r.Data | .error _ => []
            let existingData := match existing with | .ok e => e.Data | .error _ => []
            if !DeepEqual existingData requiredData then
              isLatestRevisionCurrent.secretLoop revision rest
                (secretChanges ++ ["secret/" ++ s.Name ++ " has changed"]) w2
            else
              isLatestRevisionCurrent.secretLoop revision rest secretChanges w2

/-- The method `isLatestRevisionCurrent`: whether the latest revision is up to date, and a
reason. -/
def isLatestRevisionCurrent (c : RevisionController) (revision : Int) (w : World) :
    (Bool × String) × World :=
  match isLatestRevisionCurrent.configMapLoop revision c.configMaps [] w with
  | (.error text, w1) => ((false, text), w1)
  | (.ok configChanges, w1) =>
    match isLatestRevisionCurrent.secretLoop revision c.secrets [] w1 with
    | (.error text, w2) => ((false, text), w2)
    | (.ok secretChanges, w2) =>
      if secretChanges.length > 0 || configChanges.length > 0 then
        ((false, join (secretChanges ++ configChanges) ","), w2)
      else
        ((true, ""), w2)

/-- The loop of `createNewRevision` over the tracked configmaps; it returns the error of the
early `return`, or `none` when the loop ends. -/
def createNewRevision.configMapLoop (f : Faults) (revision : Int) (ownerRefs : List String) :
    List RevisionResource → World → Option GoError × World
  | [], w => (none, w)
  | cm :: rest, w =>
    match SyncConfigMap f cm.Name (nameFor cm.Name revision) ownerRefs w with
    | (.error err, w1) => (some err, w1)
    | (.ok obj, w1) =>
      if obj.isNone && !cm.Optional then (some (.notFound "configmaps" cm.Name), w1)
      else createNewRevision.configMapLoop f revision ownerRefs rest w1

/-- The loop of `createNewRevision` over the tracked secrets; it returns the error of the
early `return`, or `none` when the loop ends. -/
def createNewRevision.secretLoop (f : Faults) (revision : Int) (ownerRefs : List String) :
    List RevisionResource → World → Option GoError × World
  | [], w => (none, w)
  | s :: rest, w =>
    match SyncSecret f s.Name (nameFor s.Name revision) ownerRefs w with
    | (.error err, w1) => (some err, w1)
    | (.ok obj, w1) =>
      if obj.isNone && !s.Optional then (some (.notFound "secrets" s.Name), w1)
      else createNewRevision.secretLoop f revision ownerRefs rest w1

/-- The status configmap that `createNewRevision` applies first. -/
def statusConfigMap (revision : Int) (reason : String) : ConfigMap :=
  { Name := nameFor "revision-status" revision,
    Data := [("revision", formatInt revision), ("reason", reason)],
    OwnerReferences := [] }

/-- The method `createNewRevision`: the status configmap, then a copy of every tracked
configmap and secret, owned by the status configmap. -/
def createNewRevision (c : RevisionController) (f : Faults) (revision : Int) (reason : String)
    (w : World) : Option GoError × World :=
  match ApplyConfigMap f (statusConfigMap revision reason) w with
  | (.error err, w1) => (some err, w1)
  | (.ok applied, w1) =>
    let ownerRefs := [applied.Name]
    match createNewRevision.configMapLoop f revision ownerRefs c.configMaps w1 with
    | (some err, w2) => (some err, w2)
    | (none, w2) => createNewRevision.secretLoop f revision ownerRefs c.secrets w2

/-- The loop of `getLatestAvailableRevision` over the listed configmaps, from the current
`latestRevision`. -/
def getLatestAvailableRevision.loop : List ConfigMap → Int → Except GoError Int
  | [], latestRevision => .ok latestRevision
  | configMap :: rest, latestRevision =>
    if !startsWith configMap.Name "revision-status-" then
      getLatestAvailableRevision.loop rest latestRevision
    else
      match configMap.Data.lookup "revision" with
      | some revision =>
        match atoi revision with
        | .error err => .error err
        | .ok revisionNumber =>
          if wrapInt32 revisionNumber > latestRevision then
            getLatestAvailableRevision.loop rest (wrapInt32 revisionNumber)
          else
            getLatestAvailableRevision.loop rest latestRevision
      | none => getLatestAvailableRevision.loop rest latestRevision

/-- The method `getLatestAvailableRevision`: the latest revision known from the revision
status configmaps. -/
def getLatestAvailableRevision (f : Faults) (w : World) : (Int × Option GoError) × World :=
  match listConfigMaps f w with
  | (.error err, w1) => ((0, some err), w1)
  | (.ok items, w1) =>
    match getLatestAvailableRevision.loop items 0 with
    | .error err => ((0, some err), w1)
    | .ok latestRevision => ((latestRevision, none), w1)

/-- The method `createRevisionIfNeeded`: whether to requeue, and the error of the status
update. -/
def createRevisionIfNeeded (c : RevisionController) (f : Faults) (latestAvailableRevision : Int)
    (_resourceVersion : String) (w : World) : (Bool × Option GoError) × World :=
  match isLatestRevisionCurrent c latestAvailableRevision w with
  | ((true, _), w1) => ((false, none), w1)
  | ((false, reason), w1) =>
    let nextRevision := wrapInt32 (latestAvailableRevision + 1)
    let w2 := Eventf "RevisionTriggered" "new revision %d triggered by %q"
      [formatInt nextRevision, reason] w1
    match createNewRevision c f nextRevision reason w2 with
    | (some err, w3) =>
      let cond : OperatorCondition :=
        { condType := "RevisionControllerDegraded", Status := "True",
          Reason := "ContentCreationError", Message := err.Error }
      match UpdateStatus f [cond] w3 with
      | ((_, some updateError), w4) =>
        ((true, some updateError),
          Warningf "RevisionCreateFailed" "Failed to create revision %d: %v"
            [formatInt nextRevision, err.Error] w4)
      | ((_, none), w4) => ((true, none), w4)
    | (none, w3) =>
      let cond : OperatorCondition :=
        { condType := "RevisionControllerDegraded", Status := "False", Reason := "",
          Message := "" }
      match UpdateLatestRevisionOperatorStatus f nextRevision [cond] w3 with
      | ((_, some updateError), w4) => ((true, some updateError), w4)
      | ((updated, none), w4) =>
        if updated then
          ((false, none),
            Eventf "RevisionCreate" "Revision %d created because %s"
              [formatInt latestAvailableRevision, reason] w4)
        else ((false, none), w4)

/-- The tail of `sync` from the call of `createRevisionIfNeeded` on: the creation and the
report of the degraded condition. -/
def sync.createAndReport (c : RevisionController) (f : Faults) (latestAvailableRevision : Int)
    (resourceVersion : String) (w : World) : Option GoError × World :=
  match createRevisionIfNeeded c f latestAvailableRevision resourceVersion w with
  | ((requeue, syncErr), w1) =>
    if requeue && syncErr.isNone then (some .syntheticRequeue, w1)
    else
      let cond : OperatorCondition :=
        match syncErr with
        | none =>
          { condType := RevisionControllerDegradedConditionType, Status := "False",
            Reason := "", Message := "" }
        | some err =>
          { condType := RevisionControllerDegradedConditionType, Status := "True",
            Reason := "Error", Message := err.Error }
      match UpdateStatus f [cond] w1 with
      | ((_, some updateError), w2) =>
        if syncErr.isNone then (some updateError, w2) else (syncErr, w2)
      | ((_, none), w2) => (syncErr, w2)

/-- The method `sync`: one reconciliation attempt; `none` is the `nil` error. -/
def sync (c : RevisionController) (f : Faults) (w : World) : Option GoError × World :=
  match GetLatestRevisionState f w with
  | (.error err, w1) => (some err, w1)
  | (.ok (operatorSpec, latestAvailableRevision, resourceVersion), w1) =>
    if !IsOperatorManaged operatorSpec then (none, w1)
    else if latestAvailableRevision = 0 then
      match getLatestAvailableRevision f w1 with
      | ((_, some err), w2) => (some err, w2)
      | ((latestRevision, none), w2) =>
        if latestRevision ≠ 0 then
          match UpdateLatestRevisionOperatorStatus f latestRevision [] w2 with
          | ((_, some err), w3) => (some err, w3)
          | ((_, none), w3) => (some .syntheticRequeue, w3)
        else sync.createAndReport c f latestAvailableRevision resourceVersion w2
    else sync.createAndReport c f latestAvailableRevision resourceVersion w1

/-! ## Statements of the specification -/

/-- The revision text of a status marker: the text under the data key `revision` of a
configmap whose name has the reserved prefix. -/
def markerRevisionText (cm : ConfigMap) : Option String :=
  if startsWith cm.Name "revision-status-" then cm.Data.lookup "revision" else none

/-- The revision integer of a status marker, when its revision text is one. -/
def markerRevision (cm : ConfigMap) : Option Int :=
  match markerRevisionText cm with
  | some text => (match atoi text with | .ok n => some n | .error _ => none)
  | none => none

/-- The revision integers that the status markers of a list of configmaps carry. -/
def markerRevisions (items : List ConfigMap) : List Int := items.filterMap markerRevision

/-- A well-formed decimal integer: an optional sign, then one decimal digit or more. -/
def wellFormedDecimal (text : String) : Bool :=
  match text.data with
  | '-' :: digits => !digits.isEmpty && digits.all Char.isDigit
  | '+' :: digits => !digits.isEmpty && digits.all Char.isDigit
  | digits => !digits.isEmpty && digits.all Char.isDigit

/-- The value `r` is the maximum of the list `l`. -/
def IsMaxOf (r : Int) (l : List Int) : Prop := r ∈ l ∧ ∀ n ∈ l, n ≤ r

/-- The data of the configmap of the given name, empty when the configmap is absent. -/
def configMapData (name : String) (w : World) : List (String × String) :=
  match findConfigMap name w.configMaps with
  | some cm => cm.Data
  | none => []

/-- The data of the secret of the given name, empty when the secret is absent. -/
def secretData (name : String) (w : World) : List (String × List Nat) :=
  match findSecret name w.secrets with
  | some s => s.Data
  | none => []

/-- The calls that create or update configmaps and secrets. -/
def Call.isStoreWrite : Call → Bool
  | .syncConfigMap _ _ => true
  | .syncSecret _ _ => true
  | .applyConfigMap _ => true
  | .applySecret _ => true
  | _ => false

/-- The calls that write the operator status. -/
def Call.isStatusWrite : Call → Bool
  | .updateLatestRevisionOperatorStatus _ _ => true
  | .updateStatus _ => true
  | _ => false

/-- The calls that read one configmap or one secret. -/
def Call.isGet : Call → Bool
  | .getConfigMap _ => true
  | .getSecret _ => true
  | _ => false

/-- The operator resource (management state, revision, token, conditions) is the same in both
worlds. -/
def World.sameOperator (w w1 : World) : Prop :=
  w1.managementState = w.managementState ∧
    w1.latestAvailableRevision = w.latestAvailableRevision ∧
    w1.resourceVersion = w.resourceVersion ∧ w1.conditions = w.conditions

/-- The condition with which the controller reports that it is not degraded. -/
def degradedFalse : OperatorCondition :=
  { condType := "RevisionControllerDegraded", Status := "False", Reason := "", Message := "" }

/-- The not-found error of the first non-optional tracked resource without a source, in the
order configmaps then secrets; `none` when every non-optional source is present. -/
def firstMissingSource (c : RevisionController) (w : World) : Option GoError :=
  match c.configMaps.find?
      (fun cm => !cm.Optional && (findConfigMap cm.Name w.configMaps).isNone) with
  | some cm => some (.notFound "configmaps" cm.Name)
  | none =>
    match c.secrets.find? (fun s => !s.Optional && (findSecret s.Name w.secrets).isNone) with
    | some s => some (.notFound "secrets" s.Name)
    | none => none

/-- No tracked resource of the list is named like the snapshot at the revision of a tracked
resource of the list. -/
def snapshotNamesApart (tracked : List RevisionResource) (revision : Int) : Prop :=
  ∀ a ∈ tracked, ∀ b ∈ tracked, a.Name ≠ nameFor b.Name revision

instance (tracked : List RevisionResource) (revision : Int) :
    Decidable (snapshotNamesApart tracked revision) := by
  unfold snapshotNamesApart; infer_instance

/-- No tracked configmap is named like the status marker of the revision. -/
def markerNameApart (c : RevisionController) (revision : Int) : Prop :=
  ∀ a ∈ c.configMaps, a.Name ≠ nameFor "revision-status" revision

instance (c : RevisionController) (revision : Int) : Decidable (markerNameApart c revision) := by
  unfold markerNameApart; infer_instance

/-- The controller of the example of the specification: one tracked, non-optional configmap
named `config`. -/
def configController : RevisionController :=
  { configMaps := [{ Name := "config", Optional := false }], secrets := [] }

/-- A controller with a non-optional configmap, an optional configmap and an optional secret. -/
def mixedController : RevisionController :=
  { configMaps := [{ Name := "config", Optional := false },
                   { Name := "extra", Optional := true }],
    secrets := [{ Name := "token", Optional := true }] }

/-- A controller that tracks `a` and then `a-1`, the name of the snapshot of `a` at
revision 1. -/
def overlapController : RevisionController :=
  { configMaps := [{ Name := "a", Optional := false }, { Name := "a-1", Optional := false }],
    secrets := [] }

/-- A controller that tracks `a-1`, the name of the snapshot of `a` at revision 1, and then
`a`. -/
def overlapFirstController : RevisionController :=
  { configMaps := [{ Name := "a-1", Optional := false }, { Name := "a", Optional := false }],
    secrets := [] }

/-- A managed operator at revision 0 over an empty namespace. -/
def emptyWorld : World :=
  { managementState := { name := "Managed", controllerActs := true },
    latestAvailableRevision := 0, resourceVersion := "1", conditions := [],
    configMaps := [], secrets := [], log := [] }

/-- The start of the example of the specification: source `config` with `k: v1`, revision 0,
no snapshot. -/
def exampleWorld : World :=
  { emptyWorld with
    configMaps := [{ Name := "config", Data := [("k", "v1")], OwnerReferences := [] }] }

/-- The example of the specification after its first synchronization: revision 1, with the
status marker and the snapshot `config-1`. -/
def settledWorld : World :=
  { emptyWorld with
    latestAvailableRevision := 1,
    conditions := [degradedFalse],
    configMaps :=
      [{ Name := "config", Data := [("k", "v1")], OwnerReferences := [] },
       { Name := "revision-status-1",
         Data := [("revision", "1"), ("reason", "configmaps \"config-0\" not found")],
         OwnerReferences := [] },
       { Name := "config-1", Data := [("k", "v1")],
         OwnerReferences := ["revision-status-1"] }] }

/-- A namespace in which only the configmap `a` exists. -/
def overlapSourceWorld : World :=
  { emptyWorld with
    configMaps := [{ Name := "a", Data := [("k", "va")], OwnerReferences := [] }] }

/-- A namespace in which the configmaps `a-1` and `a` exist with different data. -/
def overlapWorld : World :=
  { emptyWorld with
    configMaps := [{ Name := "a-1", Data := [("k", "old")], OwnerReferences := [] },
                   { Name := "a", Data := [("k", "va")], OwnerReferences := [] }] }

/-- Every write of a configmap or secret is rejected; every other call is accepted. -/
def rejectWrites : Faults :=
  { Faults.none with
    writeConfigMap := fun _ => some (.api "write rejected"),
    writeSecret := fun _ => some (.api "write rejected") }

/-- A namespace whose only status marker carries the revision text `-3`. -/
def negativeMarkerWorld : World :=
  { managementState := { name := "Managed", controllerActs := true },
    latestAvailableRevision := 0, resourceVersion := "1", conditions := [],
    configMaps := [{ Name := "revision-status-1", Data := [("revision", "-3")],
                     OwnerReferences := [] }],
    secrets := [], log := [] }

/-- A namespace whose only status marker carries the revision text `4294967297`, beyond the
`int32` range. -/
def wideMarkerWorld : World :=
  { managementState := { name := "Managed", controllerActs := true },
    latestAvailableRevision := 0, resourceVersion := "1", conditions := [],
    configMaps := [{ Name := "revision-status-1", Data := [("revision", "4294967297")],
                     OwnerReferences := [] }],
    secrets := [], log := [] }

/-- A namespace whose only configmap has the reserved prefix in its name, no revision in its
name and no `revision` key in its data. -/
def corruptNameWorld : World :=
  { managementState := { name := "Managed", controllerActs := true },
    latestAvailableRevision := 0, resourceVersion := "1", conditions := [],
    configMaps := [{ Name := "revision-status-abc", Data := [("reason", "manual")],
                     OwnerReferences := [] }],
    secrets := [], log := [] }

/-- A namespace with the status markers of revisions 1 and 3, a tracked configmap and its
snapshots, while the operator status holds revision 0. -/
def recoveryWorld : World :=
  { managementState := { name := "Managed", controllerActs := true },
    latestAvailableRevision := 0, resourceVersion := "7", conditions := [],
    configMaps :=
      [{ Name := "config", Data := [("k", "v3")], OwnerReferences := [] },
       { Name := "revision-status-1", Data := [("revision", "1"), ("reason", "first")],
         OwnerReferences := [] },
       { Name := "config-1", Data := [("k", "v1")], OwnerReferences := ["revision-status-1"] },
       { Name := "revision-status-3", Data := [("revision", "3"), ("reason", "third")],
         OwnerReferences := [] },
       { Name := "config-3", Data := [("k", "v3")], OwnerReferences := ["revision-status-3"] },
       { Name := "revision-status-2", Data := [("revision", "2"), ("reason", "second")],
         OwnerReferences := [] }],
    secrets := [], log := [] }

/-- A namespace with a malformed status marker between two valid ones. -/
def malformedMarkerWorld : World :=
  { managementState := { name := "Managed", controllerActs := true },
    latestAvailableRevision := 0, resourceVersion := "1", conditions := [],
    configMaps :=
      [{ Name := "revision-status-1", Data := [("revision", "1")], OwnerReferences := [] },
       { Name := "revision-status-2", Data := [("revision", "2x")], OwnerReferences := [] },
       { Name := "revision-status-3", Data := [("revision", "3")], OwnerReferences := [] }],
    secrets := [], log := [] }

/-- A namespace whose status marker carries a revision text beyond the 64-bit range. -/
def hugeMarkerWorld : World :=
  { managementState := { name := "Managed", controllerActs := true },
    latestAvailableRevision := 0, resourceVersion := "1", conditions := [],
    configMaps :=
      [{ Name := "revision-status-1", Data := [("revision", "99999999999999999999")],
         OwnerReferences := [] }],
    secrets := [], log := [] }

/-- The value that `strconv.Atoi` accumulates over the digits of its argument. -/
def decimalValue (digits : List Char) : Nat :=
  digits.foldl (fun acc ch => 10 * acc + (ch.toNat - 48)) 0

/-- The condition with which `createRevisionIfNeeded` reports a failed creation. -/
def contentCreationError (err : GoError) : OperatorCondition :=
  { condType := "RevisionControllerDegraded", Status := "True",
    Reason := "ContentCreationError", Message := err.Error }

/-- The condition with which `sync` reports the error of `createRevisionIfNeeded`. -/
def degradedError (err : GoError) : OperatorCondition :=
  { condType := RevisionControllerDegradedConditionType, Status := "True", Reason := "Error",
    Message := err.Error }

/-- The example of the specification with an operator that is not managed. -/
def unmanagedWorld : World :=
  { exampleWorld with managementState := { name := "Unmanaged", controllerActs := false } }

/-- The update of the latest revision is rejected with a conflict; every other call is
accepted. -/
def rejectRevisionUpdate : Faults :=
  { Faults.none with updateLatestRevisionOperatorStatus := some (.api "conflict") }

/-- The tracked configmaps whose snapshot at the revision differs from the source, each absent
side counting as empty data, in declared order. -/
def driftedConfigMaps (c : RevisionController) (revision : Int) (w : World) :
    List RevisionResource :=
  c.configMaps.filter
    (fun cm => !DeepEqual (configMapData (nameFor cm.Name revision) w) (configMapData cm.Name w))

/-- The tracked secrets whose snapshot at the revision differs from the source, each absent
side counting as empty data, in declared order. -/
def driftedSecrets (c : RevisionController) (revision : Int) (w : World) :
    List RevisionResource :=
  c.secrets.filter
    (fun s => !DeepEqual (secretData (nameFor s.Name revision) w) (secretData s.Name w))

/-- One entry per drifted resource: the secrets first, then the configmaps. -/
def driftEntries (c : RevisionController) (revision : Int) (w : World) : List String :=
  (driftedSecrets c revision w).map (fun s => "secret/" ++ s.Name ++ " has changed") ++
    (driftedConfigMaps c revision w).map (fun cm => "configmap/" ++ cm.Name ++ " has changed")

/-- Every non-optional tracked resource has its source and its snapshot at the revision. -/
def noRequiredMissing (c : RevisionController) (revision : Int) (w : World) : Prop :=
  (∀ cm ∈ c.configMaps, cm.Optional = false →
    (findConfigMap cm.Name w.configMaps).isSome = true ∧
      (findConfigMap (nameFor cm.Name revision) w.configMaps).isSome = true) ∧
  (∀ s ∈ c.secrets, s.Optional = false →
    (findSecret s.Name w.secrets).isSome = true ∧
      (findSecret (nameFor s.Name revision) w.secrets).isSome = true)

instance (c : RevisionController) (revision : Int) (w : World) :
    Decidable (noRequiredMissing c revision w) := by
  unfold noRequiredMissing; infer_instance

/-- A controller with two tracked configmaps and one tracked secret, all non-optional. -/
def driftController : RevisionController :=
  { configMaps := [{ Name := "config", Optional := false },
                   { Name := "extra", Optional := false }],
    secrets := [{ Name := "token", Optional := false }] }

/-- A namespace at revision 1 in which `extra` and `token` differ from their snapshots and
`config` does not. -/
def driftWorld : World :=
  { emptyWorld with
    latestAvailableRevision := 1,
    configMaps :=
      [{ Name := "config", Data := [("k", "v1")], OwnerReferences := [] },
       { Name := "extra", Data := [("k", "new")], OwnerReferences := [] },
       { Name := "config-1", Data := [("k", "v1")], OwnerReferences := ["revision-status-1"] },
       { Name := "extra-1", Data := [("k", "old")], OwnerReferences := ["revision-status-1"] }],
    secrets :=
      [{ Name := "token", Data := [("t", [1, 2])], OwnerReferences := [] },
       { Name := "token-1", Data := [("t", [1])], OwnerReferences := ["revision-status-1"] }] }

/-- A controller that tracks `a` and `a-`. -/
def hyphenController : RevisionController :=
  { configMaps := [{ Name := "a", Optional := false }, { Name := "a-", Optional := false }],
    secrets := [] }

/-- A namespace with the sources `a` and `a-` and the configmap `a--1`, which is the snapshot
of `a` at revision -1 by its name. -/
def hyphenWorld : World :=
  { emptyWorld with
    configMaps :=
      [{ Name := "a", Data := [("k", "va")], OwnerReferences := [] },
       { Name := "a-", Data := [("k", "vb")], OwnerReferences := [] },
       { Name := "a--1", Data := [("k", "kept")],
         OwnerReferences := ["revision-status--1"] }] }

/-- The example of the specification before its second synchronization: revision 1 with its
snapshot, and the source changed to `k: v2`. -/
def changedWorld : World :=
  { settledWorld with
    configMaps :=
      [{ Name := "config", Data := [("k", "v2")], OwnerReferences := [] },
       { Name := "revision-status-1",
         Data := [("revision", "1"), ("reason", "configmaps \"config-0\" not found")],
         OwnerReferences := [] },
       { Name := "config-1", Data := [("k", "v1")],
         OwnerReferences := ["revision-status-1"] }] }

/-- A namespace with the source `config` and a configmap `extra-1` left under the name of the
snapshot of `extra` at revision 1, while `extra` itself has no source. -/
def staleSnapshotWorld : World :=
  { emptyWorld with
    configMaps :=
      [{ Name := "config", Data := [("k", "v1")], OwnerReferences := [] },
       { Name := "extra-1", Data := [("k", "stale")], OwnerReferences := [] }] }

/-- Every configmap of the list with the reserved prefix carries a revision text that parses to
an `int32` not above `r`. -/
def markersAtMost (r : Int) (items : List ConfigMap) : Prop :=
  ∀ cm ∈ items, startsWith cm.Name "revision-status-" = true →
    ∃ text n, cm.Data.lookup "revision" = some text ∧ atoi text = .ok n ∧ isInt32 n ∧ n ≤ r

/-- A namespace with the source `config` and a status marker whose revision text is the
well-formed decimal `-4294967290`. -/
def wrappedMarkerWorld : World :=
  { emptyWorld with
    configMaps :=
      [{ Name := "config", Data := [("k", "v1")], OwnerReferences := [] },
       { Name := "revision-status-0", Data := [("revision", "-4294967290")],
         OwnerReferences := [] }] }

end revisioncontroller

/-! ## The test library

A shallow embedding of `CleanIDPConfigByName` of `test/library/idpdeployment.go`. The types
of `github.com/openshift/api/config/v1` and the client interface are declared outside the
sources; they are given here with the fields that the function reads, the rest of each object
as uninterpreted text. Go slices are lists: `s[:i]` is `take`, `s[i+1:]` is `drop`, and
`append`, which copies as `memmove` does when both slices share their array, is `++`. The
index is a `Nat`, since the length of a slice stays below the range of `int`. -/

namespace library

/-- The type `configv1.IdentityProvider`: its name, and the rest of the provider. -/
structure IdentityProvider where
  /-- The field `Name`. -/
  Name : String
  /-- The mapping method and the provider configuration, uninterpreted. -/
  IdentityProviderConfig : String
  deriving DecidableEq, Repr

/-- The type `configv1.OAuthSpec`: the identity providers, and the rest of the spec. -/
structure OAuthSpec where
  /-- The field `IdentityProviders`. -/
  IdentityProviders : List IdentityProvider
  /-- The token configuration and the templates, uninterpreted. -/
  TokenConfig : String
  deriving DecidableEq, Repr

/-- The type `configv1.OAuth`: the object metadata and the spec. -/
structure OAuth where
  /-- The name of the object. -/
  Name : String
  /-- The resource version of the object. -/
  ResourceVersion : String
  /-- The field `Spec`. -/
  Spec : OAuthSpec
  deriving DecidableEq, Repr

/-- The interface `configv1client.OAuthInterface`, with the two methods that the function
calls. `Get` gives the object of the name or an error text; `Update` gives an error text or
`none`, the object it returns being dropped by the caller. -/
structure OAuthInterface where
  /-- The method `Get`. -/
  Get : String → Except String OAuth
  /-- The method `Update`. -/
  Update : OAuth → Option String

/-- What a run of the helper leaves behind: the objects passed to `Update`, in order, and the
message of `t.Fatalf` when the run stopped the test. -/
structure Run where
  /-- The objects passed to `Update`. -/
  updates : List OAuth
  /-- The message of `t.Fatalf`, which ends the run. -/
  fatal : Option String
  deriving DecidableEq, Repr

/-- The loop of `CleanIDPConfigByName` over the identity providers, from the current
`idpIndex`: it stops at the first provider of the name. -/
def CleanIDPConfigByName.loop : List IdentityProvider → String → Nat → Nat
  | [], _, idpIndex => idpIndex
  | idp :: rest, idpName, idpIndex =>
    if idp.Name = idpName then idpIndex
    else CleanIDPConfigByName.loop rest idpName (idpIndex + 1)

/-- The function `CleanIDPConfigByName`. -/
def CleanIDPConfigByName (configClient : OAuthInterface) (idpName : String) : Run :=
  match configClient.Get "cluster" with
  | .error err =>
    { updates := [], fatal := some ("cleanup: failed to retrieve oauth/cluster: " ++ err) }
  | .ok config =>
    let idpIndex := CleanIDPConfigByName.loop config.Spec.IdentityProviders idpName 0
    if idpIndex = config.Spec.IdentityProviders.length then { updates := [], fatal := none }
    else
      let providers := config.Spec.IdentityProviders.take idpIndex
      let providers :=
        if config.Spec.IdentityProviders.length > idpIndex + 1 then
          providers ++ config.Spec.IdentityProviders.drop (idpIndex + 1)
        else providers
      let config : OAuth :=
        { config with Spec := { config.Spec with IdentityProviders := providers } }
      match configClient.Update config with
      | some err =>
        { updates := [config],
          fatal := some ("cleanup: failed to update oauth/cluster: " ++ err) }
      | none => { updates := [config], fatal := none }

/-- The list without its first provider of the given name, every other provider kept in its
place; the list itself when no provider has the name. -/
def removeFirstNamed (idpName : String) : List IdentityProvider → List IdentityProvider
  | [] => []
  | idp :: rest => if idp.Name = idpName then rest else idp :: removeFirstNamed idpName rest

/-- The object with its identity providers replaced. -/
def OAuth.withProviders (config : OAuth) (providers : List IdentityProvider) : OAuth :=
  { config with Spec := { config.Spec with IdentityProviders := providers } }

/-- Three identity providers, two of them named `htpasswd`. -/
def exampleProviders : List IdentityProvider :=
  [{ Name := "ldap", IdentityProviderConfig := "first" },
   { Name := "htpasswd", IdentityProviderConfig := "second" },
   { Name := "keycloak", IdentityProviderConfig := "third" },
   { Name := "htpasswd", IdentityProviderConfig := "fourth" }]

/-- The object `oauth/cluster` with the example providers. -/
def exampleOAuth : OAuth :=
  { Name := "cluster", ResourceVersion := "12",
    Spec := { IdentityProviders := exampleProviders, TokenConfig := "" } }

/-- A client that holds the example object and accepts every update. -/
def exampleClient : OAuthInterface :=
  { Get := fun name => if name = "cluster" then .ok exampleOAuth else .error "not found",
    Update := fun _ => none }

/-- A client whose object `oauth/cluster` has no identity provider. -/
def emptyClient : OAuthInterface :=
  { Get := fun _ => .ok (exampleOAuth.withProviders []), Update := fun _ => none }

end library

namespace revisioncontroller

/-- A controller that tracks the optional configmap `extra`, then the non-optional configmap
`config`, and the optional secret `token`. -/
def optionalFirstController : RevisionController :=
  { configMaps := [{ Name := "extra", Optional := true },
                   { Name := "config", Optional := false }],
    secrets := [{ Name := "token", Optional := true }] }

/-- A namespace in which `extra` differs from its snapshot `extra-1` and `config` has no
source. -/
def optionalDriftWorld : World :=
  { emptyWorld with
    latestAvailableRevision := 1,
    configMaps :=
      [{ Name := "extra", Data := [("k", "new")], OwnerReferences := [] },
       { Name := "extra-1", Data := [("k", "old")], OwnerReferences := ["revision-status-1"] }] }

/-- A namespace in which `config` equals its snapshot, `extra` differs from its snapshot, and
the secret `token` has no source and a snapshot with empty data. -/
def optionalWorld : World :=
  { emptyWorld with
    latestAvailableRevision := 1,
    configMaps :=
      [{ Name := "config", Data := [("k", "v1")], OwnerReferences := [] },
       { Name := "extra", Data := [("k", "new")], OwnerReferences := [] },
       { Name := "config-1", Data := [("k", "v1")], OwnerReferences := ["revision-status-1"] },
       { Name := "extra-1", Data := [("k", "old")], OwnerReferences := ["revision-status-1"] }],
    secrets := [{ Name := "token-1", Data := [], OwnerReferences := ["revision-status-1"] }] }

/-! # Proofs -/

/-! ## Recovery of the latest revision -/

theorem wrapInt32_of_isInt32 {x : Int} (h : isInt32 x) : wrapInt32 x = x := by
  unfold isInt32 at h
  unfold wrapInt32
  omega

theorem markerRevisions_cons (cm : ConfigMap) (rest : List ConfigMap) :
    markerRevisions (cm :: rest) = (markerRevision cm).toList ++ markerRevisions rest := by
  cases h : markerRevision cm <;> simp [markerRevisions, List.filterMap_cons, h]

/-- Over markers that all carry an `int32` revision, the loop ends without error at the largest
of the start value and the revisions. -/
theorem getLatestAvailableRevision_loop_spec (items : List ConfigMap)
    (h : ∀ cm ∈ items, startsWith cm.Name "revision-status-" = true →
      ∃ text n, cm.Data.lookup "revision" = some text ∧ atoi text = .ok n ∧ isInt32 n)
    (start : Int) :
    ∃ r, getLatestAvailableRevision.loop items start = .ok r ∧ start ≤ r ∧
      (∀ n ∈ markerRevisions items, n ≤ r) ∧ (r = start ∨ r ∈ markerRevisions items) := by
  induction items generalizing start with
  | nil => exact ⟨start, rfl, le_refl _, by simp [markerRevisions], Or.inl rfl⟩
  | cons cm rest ih =>
    have hrest : ∀ cm' ∈ rest, startsWith cm'.Name "revision-status-" = true →
        ∃ text n, cm'.Data.lookup "revision" = some text ∧ atoi text = .ok n ∧ isInt32 n :=
      fun cm' hm => h cm' (List.mem_cons_of_mem _ hm)
    by_cases hp : startsWith cm.Name "revision-status-" = true
    · obtain ⟨text, n, htext, hn, hrange⟩ := h cm (List.mem_cons_self _ _) hp
      have hrev : markerRevisions (cm :: rest) = n :: markerRevisions rest := by
        rw [markerRevisions_cons]
        simp [markerRevision, markerRevisionText, hp, htext, hn]
      by_cases hgt : n > start
      · obtain ⟨r, hr, hle, hall, hmem⟩ := ih hrest n
        refine ⟨r, ?_, by omega, ?_, ?_⟩
        · simp [getLatestAvailableRevision.loop, hp, htext, hn, wrapInt32_of_isInt32 hrange,
            hgt, hr]
        · intro m hm
          rw [hrev] at hm
          rcases List.mem_cons.mp hm with rfl | hm
          · exact hle
          · exact hall m hm
        · rw [hrev]
          rcases hmem with rfl | hmem
          · exact Or.inr (List.mem_cons_self _ _)
          · exact Or.inr (List.mem_cons_of_mem _ hmem)
      · obtain ⟨r, hr, hle, hall, hmem⟩ := ih hrest start
        refine ⟨r, ?_, hle, ?_, ?_⟩
        · simp [getLatestAvailableRevision.loop, hp, htext, hn, wrapInt32_of_isInt32 hrange,
            hgt, hr]
        · intro m hm
          rw [hrev] at hm
          rcases List.mem_cons.mp hm with rfl | hm
          · omega
          · exact hall m hm
        · rw [hrev]
          rcases hmem with rfl | hmem
          · exact Or.inl rfl
          · exact Or.inr (List.mem_cons_of_mem _ hmem)
    · obtain ⟨r, hr, hle, hall, hmem⟩ := ih hrest start
      have hrev : markerRevisions (cm :: rest) = markerRevisions rest := by
        rw [markerRevisions_cons]
        simp [markerRevision, markerRevisionText, hp]
      refine ⟨r, ?_, hle, ?_, ?_⟩
      · simp [getLatestAvailableRevision.loop, hp, hr]
      · rw [hrev]; exact hall
      · rw [hrev]; exact hmem

/-- A status marker whose revision text `strconv.Atoi` rejects makes the loop fail, wherever
the marker stands in the list. -/
theorem getLatestAvailableRevision_loop_error (items : List ConfigMap)
    (h : ∃ cm ∈ items, startsWith cm.Name "revision-status-" = true ∧
      ∃ text err, cm.Data.lookup "revision" = some text ∧ atoi text = .error err)
    (start : Int) :
    ∃ err, getLatestAvailableRevision.loop items start = .error err := by
  induction items generalizing start with
  | nil => obtain ⟨cm, hm, _⟩ := h; cases hm
  | cons cm rest ih =>
    obtain ⟨bad, hm, hp, text, err, htext, herr⟩ := h
    rcases List.mem_cons.mp hm with rfl | hm
    · exact ⟨err, by simp [getLatestAvailableRevision.loop, hp, htext, herr]⟩
    · have hrest := fun start => ih ⟨bad, hm, hp, text, err, htext, herr⟩ start
      unfold getLatestAvailableRevision.loop
      split
      · exact hrest start
      · split
        · split
          · exact ⟨_, rfl⟩
          · split
            · exact hrest _
            · exact hrest _
        · exact hrest start

/-- Text that is not a well-formed decimal integer is rejected by `strconv.Atoi`. -/
theorem atoi_error_of_not_wellFormed (text : String) (h : wellFormedDecimal text = false) :
    atoi text = .error (.atoiMalformed text) := by
  unfold wellFormedDecimal at h
  unfold atoi
  split at h <;> simp_all

/-- Configmaps without the reserved prefix never influence the loop. -/
theorem getLatestAvailableRevision_loop_filter (items : List ConfigMap) (start : Int) :
    getLatestAvailableRevision.loop items start =
      getLatestAvailableRevision.loop
        (items.filter (fun cm => startsWith cm.Name "revision-status-")) start := by
  induction items generalizing start with
  | nil => rfl
  | cons cm rest ih =>
    by_cases hp : startsWith cm.Name "revision-status-" = true
    · have hf : (cm :: rest).filter (fun cm => startsWith cm.Name "revision-status-") =
          cm :: rest.filter (fun cm => startsWith cm.Name "revision-status-") := by
        simp [List.filter_cons, hp]
      rw [hf]
      unfold getLatestAvailableRevision.loop
      simp only [hp, Bool.not_true, Bool.false_eq_true, if_false]
      split
      · split
        · rfl
        · split
          · exact ih _
          · exact ih _
      · exact ih _
    · have hf : (cm :: rest).filter (fun cm => startsWith cm.Name "revision-status-") =
          rest.filter (fun cm => startsWith cm.Name "revision-status-") := by
        simp [List.filter_cons, hp]
      rw [hf, ← ih]
      simp [getLatestAvailableRevision.loop, hp]

/-- C8, as stated, fails. When the only status marker carries the parsable revision integer
-3, `getLatestAvailableRevision` returns 0 without error, which is not the maximum of the
revision integers. When the only status marker carries 4294967297, it returns 1. -/
theorem getLatestAvailableRevision_negative_marker :
    (∀ cm ∈ negativeMarkerWorld.configMaps, startsWith cm.Name "revision-status-" = true →
      ∃ text n, cm.Data.lookup "revision" = some text ∧ atoi text = .ok n) ∧
    (getLatestAvailableRevision Faults.none negativeMarkerWorld).1 = (0, none) ∧
    markerRevisions negativeMarkerWorld.configMaps = [-3] ∧
    ¬ IsMaxOf 0 (markerRevisions negativeMarkerWorld.configMaps) ∧
    (getLatestAvailableRevision Faults.none wideMarkerWorld).1 = (1, none) ∧
    markerRevisions wideMarkerWorld.configMaps = [4294967297] := by
  refine ⟨?_, by decide, by decide, ?_, by decide, by decide⟩
  · intro cm hcm _
    simp only [negativeMarkerWorld, List.mem_singleton] at hcm
    subst hcm
    exact ⟨"-3", -3, by decide, by decide⟩
  · intro h
    have h3 : markerRevisions negativeMarkerWorld.configMaps = [-3] := by decide
    rw [h3] at h
    have := h.1
    simp at this

/-- C8, amended: when the list succeeds and every configmap with the reserved prefix carries a
revision text that parses to an `int32`, `getLatestAvailableRevision` returns without error the
largest of 0 and those revision integers; it returns 0 when no configmap has the prefix, and
the configmaps without the prefix do not influence the result. -/
theorem getLatestAvailableRevision_max (f : Faults) (w : World)
    (hlist : f.listConfigMaps = none)
    (h : ∀ cm ∈ w.configMaps, startsWith cm.Name "revision-status-" = true →
      ∃ text n, cm.Data.lookup "revision" = some text ∧ atoi text = .ok n ∧ isInt32 n) :
    ∃ r, (getLatestAvailableRevision f w).1 = (r, none) ∧ 0 ≤ r ∧
      (∀ n ∈ markerRevisions w.configMaps, n ≤ r) ∧
      (r = 0 ∨ r ∈ markerRevisions w.configMaps) ∧
      ((∀ cm ∈ w.configMaps, startsWith cm.Name "revision-status-" = false) → r = 0) ∧
      getLatestAvailableRevision.loop w.configMaps 0 =
        getLatestAvailableRevision.loop
          (w.configMaps.filter (fun cm => startsWith cm.Name "revision-status-")) 0 := by
  obtain ⟨r, hr, hle, hall, hmem⟩ := getLatestAvailableRevision_loop_spec w.configMaps h 0
  refine ⟨r, ?_, hle, hall, hmem, ?_, getLatestAvailableRevision_loop_filter _ _⟩
  · simp [getLatestAvailableRevision, listConfigMaps, hlist, hr]
  · intro hnone
    rcases hmem with h0 | hm
    · exact h0
    · exfalso
      unfold markerRevisions at hm
      obtain ⟨cm, hcm, hrev⟩ := List.mem_filterMap.mp hm
      simp [markerRevision, markerRevisionText, hnone cm hcm] at hrev

/-- C8, amended, at a namespace with the status markers of revisions 1, 3 and 2. -/
theorem getLatestAvailableRevision_max_witness :
    ∃ r, (getLatestAvailableRevision Faults.none recoveryWorld).1 = (r, none) ∧ 0 ≤ r ∧
      (∀ n ∈ markerRevisions recoveryWorld.configMaps, n ≤ r) ∧
      (r = 0 ∨ r ∈ markerRevisions recoveryWorld.configMaps) ∧
      ((∀ cm ∈ recoveryWorld.configMaps, startsWith cm.Name "revision-status-" = false) →
        r = 0) ∧
      getLatestAvailableRevision.loop recoveryWorld.configMaps 0 =
        getLatestAvailableRevision.loop
          (recoveryWorld.configMaps.filter (fun cm => startsWith cm.Name "revision-status-"))
          0 :=
  getLatestAvailableRevision_max Faults.none recoveryWorld rfl (by
    intro cm hcm hp
    simp only [recoveryWorld, List.mem_cons, List.mem_singleton, List.not_mem_nil,
      or_false] at hcm
    rcases hcm with rfl | rfl | rfl | rfl | rfl | rfl
    · exact absurd hp (by decide)
    · exact ⟨"1", 1, by decide, by decide, by decide⟩
    · exact absurd hp (by decide)
    · exact ⟨"3", 3, by decide, by decide, by decide⟩
    · exact absurd hp (by decide)
    · exact ⟨"2", 2, by decide, by decide, by decide⟩)

/-- C9: when the list contains a configmap with the reserved prefix whose revision text is not
a well-formed decimal integer, `getLatestAvailableRevision` returns revision 0 and an error,
wherever that configmap stands and whatever else the list holds (and whether or not the list
call itself succeeds). -/
theorem getLatestAvailableRevision_malformed_marker (f : Faults) (w : World)
    (h : ∃ cm ∈ w.configMaps, startsWith cm.Name "revision-status-" = true ∧
      ∃ text, cm.Data.lookup "revision" = some text ∧ wellFormedDecimal text = false) :
    ∃ err, (getLatestAvailableRevision f w).1 = (0, some err) := by
  obtain ⟨cm, hm, hp, text, htext, hbad⟩ := h
  obtain ⟨err, herr⟩ := getLatestAvailableRevision_loop_error w.configMaps
    ⟨cm, hm, hp, text, _, htext, atoi_error_of_not_wellFormed text hbad⟩ 0
  unfold getLatestAvailableRevision listConfigMaps
  cases hl : f.listConfigMaps with
  | some e => exact ⟨e, rfl⟩
  | none => exact ⟨err, by simp [herr]⟩

/-- C9 at a namespace with the malformed marker between two valid ones. -/
theorem getLatestAvailableRevision_malformed_marker_witness :
    ∃ err, (getLatestAvailableRevision Faults.none malformedMarkerWorld).1 = (0, some err) :=
  getLatestAvailableRevision_malformed_marker Faults.none malformedMarkerWorld
    ⟨{ Name := "revision-status-2", Data := [("revision", "2x")], OwnerReferences := [] },
      by decide, by decide, "2x", by decide, by decide⟩

/-- C10, as stated, fails: the configmap `revision-status-abc` has the reserved prefix and a
name that embeds no parsable revision, and `getLatestAvailableRevision` skips it: it returns
revision 0 and no error. -/
theorem getLatestAvailableRevision_corrupt_name_skipped :
    (∃ cm ∈ corruptNameWorld.configMaps, cm.Name = "revision-status-" ++ "abc" ∧
      startsWith cm.Name "revision-status-" = true ∧
      atoi "abc" = .error (.atoiMalformed "abc")) ∧
    (getLatestAvailableRevision Faults.none corruptNameWorld).1 = (0, none) := by
  refine ⟨⟨_, List.mem_singleton.mpr rfl, by decide, by decide, by decide⟩, by decide⟩

/-- C10, amended: the revision of a marker is read from its data key `revision`, never from its
name. When the list contains a configmap with the reserved prefix whose `revision` text
`strconv.Atoi` rejects, `getLatestAvailableRevision` fails with an error rather than skipping
it; a configmap without the `revision` key is skipped whatever its name. -/
theorem getLatestAvailableRevision_unparsable_revision_data (f : Faults) (w : World) :
    ((∃ cm ∈ w.configMaps, startsWith cm.Name "revision-status-" = true ∧
        ∃ text err, cm.Data.lookup "revision" = some text ∧ atoi text = .error err) →
      ∃ err, (getLatestAvailableRevision f w).1 = (0, some err)) ∧
    (∀ cm rest start, cm.Data.lookup "revision" = none →
      getLatestAvailableRevision.loop (cm :: rest) start =
        getLatestAvailableRevision.loop rest start) := by
  constructor
  · intro h
    obtain ⟨err, herr⟩ := getLatestAvailableRevision_loop_error w.configMaps h 0
    unfold getLatestAvailableRevision listConfigMaps
    cases hl : f.listConfigMaps with
    | some e => exact ⟨e, rfl⟩
    | none => exact ⟨err, by simp [herr]⟩
  · intro cm rest start hnone
    by_cases hp : startsWith cm.Name "revision-status-" = true <;>
      simp [getLatestAvailableRevision.loop, hp, hnone]

/-- C10, amended, at a marker with a revision text beyond the 64-bit range and at a marker
without the `revision` key. -/
theorem getLatestAvailableRevision_unparsable_revision_data_witness :
    (∃ err, (getLatestAvailableRevision Faults.none hugeMarkerWorld).1 = (0, some err)) ∧
    getLatestAvailableRevision.loop corruptNameWorld.configMaps 0 =
      getLatestAvailableRevision.loop [] 0 :=
  ⟨(getLatestAvailableRevision_unparsable_revision_data Faults.none hugeMarkerWorld).1
      ⟨_, List.mem_singleton.mpr rfl, by decide, "99999999999999999999",
        .atoiRange "99999999999999999999", by decide, by decide⟩,
    (getLatestAvailableRevision_unparsable_revision_data Faults.none hugeMarkerWorld).2
      _ _ _ (by decide)⟩

/-! ## Comparison of a tracked resource with its snapshot -/

theorem lookup_some_mem {V : Type} (l : List (String × V)) (k : String) (v : V)
    (h : l.lookup k = some v) : (k, v) ∈ l := by
  induction l with
  | nil => simp at h
  | cons kv rest ih =>
    obtain ⟨k0, v0⟩ := kv
    by_cases hk : k = k0
    · subst hk
      simp [List.lookup] at h
      subst h
      exact List.mem_cons_self _ _
    · have hb : (k == k0) = false := by simpa using hk
      simp [List.lookup, hb] at h
      exact List.mem_cons_of_mem _ (ih h)

/-- The comparison `DeepEqual` holds exactly when both maps give every key the same value. -/
theorem DeepEqual_iff {V : Type} [DecidableEq V] (a b : List (String × V)) :
    DeepEqual a b = true ↔ ∀ k, a.lookup k = b.lookup k := by
  constructor
  · intro h k
    simp only [DeepEqual, Bool.and_eq_true, List.all_eq_true, decide_eq_true_eq] at h
    obtain ⟨ha, hb⟩ := h
    cases hak : a.lookup k with
    | some v => exact (hak ▸ ha (k, v) (lookup_some_mem a k v hak)).symm
    | none =>
      cases hbk : b.lookup k with
      | some v => exact hak ▸ hbk ▸ hb (k, v) (lookup_some_mem b k v hbk)
      | none => rfl
  · intro h
    simp only [DeepEqual, Bool.and_eq_true, List.all_eq_true, decide_eq_true_eq]
    exact ⟨fun kv _ => (h kv.1).symm, fun kv _ => h kv.1⟩

/-- One turn of the configmap loop of `isLatestRevisionCurrent`, by the presence of the source
and of the snapshot. -/
theorem isLatestRevisionCurrent_configMapLoop_cons (revision : Int) (cm : RevisionResource)
    (rest : List RevisionResource) (changes : List String) (w : World) :
    isLatestRevisionCurrent.configMapLoop revision (cm :: rest) changes w =
      if (findConfigMap cm.Name w.configMaps).isNone && !cm.Optional then
        (.error (GoError.notFound "configmaps" cm.Name).Error, w.record (.getConfigMap cm.Name))
      else if (findConfigMap (nameFor cm.Name revision) w.configMaps).isNone && !cm.Optional then
        (.error (GoError.notFound "configmaps" (nameFor cm.Name revision)).Error,
          (w.record (.getConfigMap cm.Name)).record (.getConfigMap (nameFor cm.Name revision)))
      else
        isLatestRevisionCurrent.configMapLoop revision rest
          (if DeepEqual (configMapData (nameFor cm.Name revision) w) (configMapData cm.Name w)
            then changes
          else changes ++ ["configmap/" ++ cm.Name ++ " has changed"])
          ((w.record (.getConfigMap cm.Name)).record
            (.getConfigMap (nameFor cm.Name revision))) := by
  rcases h1 : findConfigMap cm.Name w.configMaps with _ | src <;>
    rcases h2 : findConfigMap (nameFor cm.Name revision) w.configMaps with _ | snap <;>
    rcases h3 : cm.Optional with _ | _ <;>
    simp [isLatestRevisionCurrent.configMapLoop, getConfigMap, configMapData, World.record,
      IsNotFound, h1, h2, h3] <;>
    split <;> simp_all

/-- One turn of the secret loop of `isLatestRevisionCurrent`, by the presence of the source and
of the snapshot. -/
theorem isLatestRevisionCurrent_secretLoop_cons (revision : Int) (s : RevisionResource)
    (rest : List RevisionResource) (changes : List String) (w : World) :
    isLatestRevisionCurrent.secretLoop revision (s :: rest) changes w =
      if (findSecret s.Name w.secrets).isNone && !s.Optional then
        (.error (GoError.notFound "secrets" s.Name).Error, w.record (.getSecret s.Name))
      else if (findSecret (nameFor s.Name revision) w.secrets).isNone && !s.Optional then
        (.error (GoError.notFound "secrets" (nameFor s.Name revision)).Error,
          (w.record (.getSecret s.Name)).record (.getSecret (nameFor s.Name revision)))
      else
        isLatestRevisionCurrent.secretLoop revision rest
          (if DeepEqual (secretData (nameFor s.Name revision) w) (secretData s.Name w)
            then changes
          else changes ++ ["secret/" ++ s.Name ++ " has changed"])
          ((w.record (.getSecret s.Name)).record (.getSecret (nameFor s.Name revision))) := by
  rcases h1 : findSecret s.Name w.secrets with _ | src <;>
    rcases h2 : findSecret (nameFor s.Name revision) w.secrets with _ | snap <;>
    rcases h3 : s.Optional with _ | _ <;>
    simp [isLatestRevisionCurrent.secretLoop, getSecret, secretData, World.record,
      IsNotFound, h1, h2, h3] <;>
    split <;> simp_all

/-- One turn of each loop of `isLatestRevisionCurrent` on an optional resource: the loop does
not return early on it and goes on to the remaining resources, with the resource added to the
changes exactly when `DeepEqual` finds the data of the snapshot (empty when absent) different
from the data of the source (empty when absent), that is, when some key has different values
in the two. -/
theorem isLatestRevisionCurrent_optional_turn (revision : Int) (name : String)
    (rest : List RevisionResource) (changes : List String) (w : World) :
    isLatestRevisionCurrent.configMapLoop revision
        ({ Name := name, Optional := true } :: rest) changes w =
      isLatestRevisionCurrent.configMapLoop revision rest
        (if DeepEqual (configMapData (nameFor name revision) w) (configMapData name w) then
          changes
        else changes ++ ["configmap/" ++ name ++ " has changed"])
        ((w.record (.getConfigMap name)).record (.getConfigMap (nameFor name revision))) ∧
    isLatestRevisionCurrent.secretLoop revision
        ({ Name := name, Optional := true } :: rest) changes w =
      isLatestRevisionCurrent.secretLoop revision rest
        (if DeepEqual (secretData (nameFor name revision) w) (secretData name w) then
          changes
        else changes ++ ["secret/" ++ name ++ " has changed"])
        ((w.record (.getSecret name)).record (.getSecret (nameFor name revision))) ∧
    (DeepEqual (configMapData (nameFor name revision) w) (configMapData name w) = true ↔
      ∀ k, (configMapData (nameFor name revision) w).lookup k =
        (configMapData name w).lookup k) ∧
    (DeepEqual (secretData (nameFor name revision) w) (secretData name w) = true ↔
      ∀ k, (secretData (nameFor name revision) w).lookup k = (secretData name w).lookup k) := by
  refine ⟨?_, ?_, DeepEqual_iff _ _, DeepEqual_iff _ _⟩
  · rw [isLatestRevisionCurrent_configMapLoop_cons]; simp
  · rw [isLatestRevisionCurrent_secretLoop_cons]; simp

/-! ## The namespace under create-or-update -/

@[simp] theorem record_configMaps (c : Call) (w : World) :
    (w.record c).configMaps = w.configMaps := rfl

@[simp] theorem record_secrets (c : Call) (w : World) : (w.record c).secrets = w.secrets := rfl

@[simp] theorem record_log (c : Call) (w : World) : (w.record c).log = w.log ++ [c] := rfl

@[simp] theorem record_latestAvailableRevision (c : Call) (w : World) :
    (w.record c).latestAvailableRevision = w.latestAvailableRevision := rfl

@[simp] theorem record_conditions (c : Call) (w : World) :
    (w.record c).conditions = w.conditions := rfl

@[simp] theorem record_managementState (c : Call) (w : World) :
    (w.record c).managementState = w.managementState := rfl

@[simp] theorem record_resourceVersion (c : Call) (w : World) :
    (w.record c).resourceVersion = w.resourceVersion := rfl

@[simp] theorem putConfigMap_configMaps (r : ConfigMap) (w : World) :
    (w.putConfigMap r).configMaps = upsertConfigMap r w.configMaps := rfl

@[simp] theorem putConfigMap_secrets (r : ConfigMap) (w : World) :
    (w.putConfigMap r).secrets = w.secrets := rfl

@[simp] theorem putConfigMap_log (r : ConfigMap) (w : World) :
    (w.putConfigMap r).log = w.log := rfl

@[simp] theorem putConfigMap_latestAvailableRevision (r : ConfigMap) (w : World) :
    (w.putConfigMap r).latestAvailableRevision = w.latestAvailableRevision := rfl

@[simp] theorem putConfigMap_conditions (r : ConfigMap) (w : World) :
    (w.putConfigMap r).conditions = w.conditions := rfl

@[simp] theorem putSecret_configMaps (r : Secret) (w : World) :
    (w.putSecret r).configMaps = w.configMaps := rfl

@[simp] theorem putSecret_secrets (r : Secret) (w : World) :
    (w.putSecret r).secrets = upsertSecret r w.secrets := rfl

@[simp] theorem putSecret_log (r : Secret) (w : World) : (w.putSecret r).log = w.log := rfl

@[simp] theorem putSecret_latestAvailableRevision (r : Secret) (w : World) :
    (w.putSecret r).latestAvailableRevision = w.latestAvailableRevision := rfl

@[simp] theorem putSecret_conditions (r : Secret) (w : World) :
    (w.putSecret r).conditions = w.conditions := rfl

/-- After the create-or-update of `r`, the name of `r` finds `r` and every other name finds
what it found before. -/
theorem findConfigMap_upsert (n : String) (r : ConfigMap) (l : List ConfigMap) :
    findConfigMap n (upsertConfigMap r l) =
      if r.Name = n then some r else findConfigMap n l := by
  induction l with
  | nil => by_cases h : r.Name = n <;> simp [upsertConfigMap, findConfigMap, h]
  | cons x xs ih =>
    unfold findConfigMap at ih ⊢
    by_cases hx : x.Name = r.Name
    · by_cases h : r.Name = n
      · simp [upsertConfigMap, hx, h]
      · have hxn : ¬ x.Name = n := fun e => h (hx ▸ e)
        simp [upsertConfigMap, hx, h, List.find?_cons, hxn]
    · by_cases hxn : x.Name = n
      · have h : ¬ r.Name = n := fun e => hx (hxn.trans e.symm)
        have h2 : ¬ n = r.Name := fun e => h e.symm
        simp [upsertConfigMap, hx, h, h2, List.find?_cons, hxn]
      · simp [upsertConfigMap, hx, List.find?_cons, hxn, ih]

/-- After the create-or-update of `r`, the name of `r` finds `r` and every other name finds
what it found before. -/
theorem findSecret_upsert (n : String) (r : Secret) (l : List Secret) :
    findSecret n (upsertSecret r l) = if r.Name = n then some r else findSecret n l := by
  induction l with
  | nil => by_cases h : r.Name = n <;> simp [upsertSecret, findSecret, h]
  | cons x xs ih =>
    unfold findSecret at ih ⊢
    by_cases hx : x.Name = r.Name
    · by_cases h : r.Name = n
      · simp [upsertSecret, hx, h]
      · have hxn : ¬ x.Name = n := fun e => h (hx ▸ e)
        simp [upsertSecret, hx, h, List.find?_cons, hxn]
    · by_cases hxn : x.Name = n
      · have h : ¬ r.Name = n := fun e => hx (hxn.trans e.symm)
        have h2 : ¬ n = r.Name := fun e => h e.symm
        simp [upsertSecret, hx, h, h2, List.find?_cons, hxn]
      · simp [upsertSecret, hx, List.find?_cons, hxn, ih]

theorem find?_congr_mem {α : Type} (l : List α) (p q : α → Bool)
    (h : ∀ x ∈ l, p x = q x) : l.find? p = l.find? q := by
  induction l with
  | nil => rfl
  | cons x xs ih =>
    rw [List.find?_cons, List.find?_cons, h x (List.mem_cons_self _ _),
      ih (fun y hy => h y (List.mem_cons_of_mem _ hy))]

/-- The function `nameFor` keeps apart the snapshots of different names at one revision. -/
theorem nameFor_left_inj (a b : String) (revision : Int)
    (h : nameFor a revision = nameFor b revision) : a = b := by
  unfold nameFor at h
  have hd := congrArg String.data h
  simp only [String.data_append] at hd
  rw [List.append_assoc, List.append_assoc] at hd
  exact String.ext ((List.append_left_inj _).mp hd)

/-- One turn of the configmap loop of `createNewRevision`. -/
theorem createNewRevision_configMapLoop_cons (f : Faults) (revision : Int)
    (ownerRefs : List String) (cm : RevisionResource) (rest : List RevisionResource)
    (w : World) :
    createNewRevision.configMapLoop f revision ownerRefs (cm :: rest) w =
      match findConfigMap cm.Name w.configMaps with
      | none =>
        if cm.Optional then
          createNewRevision.configMapLoop f revision ownerRefs rest
            (w.record (.syncConfigMap cm.Name (nameFor cm.Name revision)))
        else
          (some (.notFound "configmaps" cm.Name),
            w.record (.syncConfigMap cm.Name (nameFor cm.Name revision)))
      | some source =>
        match f.writeConfigMap (nameFor cm.Name revision) with
        | some err =>
          (some err,
            (w.record (.syncConfigMap cm.Name (nameFor cm.Name revision))).record
              (.applyConfigMap { Name := nameFor cm.Name revision, Data := source.Data,
                                 OwnerReferences := ownerRefs }))
        | none =>
          createNewRevision.configMapLoop f revision ownerRefs rest
            (((w.record (.syncConfigMap cm.Name (nameFor cm.Name revision))).record
              (.applyConfigMap { Name := nameFor cm.Name revision, Data := source.Data,
                                 OwnerReferences := ownerRefs })).putConfigMap
              { Name := nameFor cm.Name revision, Data := source.Data,
                OwnerReferences := ownerRefs }) := by
  rcases h1 : findConfigMap cm.Name w.configMaps with _ | source
  · rcases h3 : cm.Optional with _ | _ <;>
      simp [createNewRevision.configMapLoop, SyncConfigMap, h1, h3]
  · rcases h2 : f.writeConfigMap (nameFor cm.Name revision) with _ | err <;>
      simp [createNewRevision.configMapLoop, SyncConfigMap, ApplyConfigMap, h1, h2]

/-- One turn of the secret loop of `createNewRevision`. -/
theorem createNewRevision_secretLoop_cons (f : Faults) (revision : Int)
    (ownerRefs : List String) (s : RevisionResource) (rest : List RevisionResource)
    (w : World) :
    createNewRevision.secretLoop f revision ownerRefs (s :: rest) w =
      match findSecret s.Name w.secrets with
      | none =>
        if s.Optional then
          createNewRevision.secretLoop f revision ownerRefs rest
            (w.record (.syncSecret s.Name (nameFor s.Name revision)))
        else
          (some (.notFound "secrets" s.Name),
            w.record (.syncSecret s.Name (nameFor s.Name revision)))
      | some source =>
        match f.writeSecret (nameFor s.Name revision) with
        | some err =>
          (some err,
            (w.record (.syncSecret s.Name (nameFor s.Name revision))).record
              (.applySecret { Name := nameFor s.Name revision, Data := source.Data,
                              OwnerReferences := ownerRefs }))
        | none =>
          createNewRevision.secretLoop f revision ownerRefs rest
            (((w.record (.syncSecret s.Name (nameFor s.Name revision))).record
              (.applySecret { Name := nameFor s.Name revision, Data := source.Data,
                              OwnerReferences := ownerRefs })).putSecret
              { Name := nameFor s.Name revision, Data := source.Data,
                OwnerReferences := ownerRefs }) := by
  rcases h1 : findSecret s.Name w.secrets with _ | source
  · rcases h3 : s.Optional with _ | _ <;>
      simp [createNewRevision.secretLoop, SyncSecret, h1, h3]
  · rcases h2 : f.writeSecret (nameFor s.Name revision) with _ | err <;>
      simp [createNewRevision.secretLoop, SyncSecret, ApplySecret, h1, h2]

/-! ## Creation of a revision -/

theorem sameOperator_refl (w : World) : w.sameOperator w := ⟨rfl, rfl, rfl, rfl⟩

theorem sameOperator_trans {w w1 w2 : World} (h1 : w.sameOperator w1)
    (h2 : w1.sameOperator w2) : w.sameOperator w2 :=
  ⟨h2.1.trans h1.1, h2.2.1.trans h1.2.1, h2.2.2.1.trans h1.2.2.1, h2.2.2.2.trans h1.2.2.2⟩

/-- The configmap loop of `createNewRevision` leaves the secrets and the operator resource
alone, and only makes calls that write configmaps. -/
theorem createNewRevision_configMapLoop_frame (f : Faults) (revision : Int)
    (ownerRefs : List String) (tracked : List RevisionResource) (w : World) :
    (createNewRevision.configMapLoop f revision ownerRefs tracked w).2.secrets = w.secrets ∧
    w.sameOperator (createNewRevision.configMapLoop f revision ownerRefs tracked w).2 ∧
    ∃ l, (createNewRevision.configMapLoop f revision ownerRefs tracked w).2.log = w.log ++ l ∧
      ∀ x ∈ l, x.isStoreWrite = true := by
  induction tracked generalizing w with
  | nil => exact ⟨rfl, sameOperator_refl w, [], by simp [createNewRevision.configMapLoop], by simp⟩
  | cons cm rest ih =>
    rw [createNewRevision_configMapLoop_cons]
    rcases h1 : findConfigMap cm.Name w.configMaps with _ | source
    · rcases h3 : cm.Optional with _ | _
      · exact ⟨rfl, sameOperator_refl w, [_], rfl, by simp [Call.isStoreWrite]⟩
      · obtain ⟨hs, ho, l, hl, hw⟩ := ih (w.record (.syncConfigMap cm.Name (nameFor cm.Name revision)))
        refine ⟨by simpa using hs, ?_, _ :: l, by simpa using hl, ?_⟩
        · simpa [World.sameOperator] using ho
        · intro x hx
          rcases List.mem_cons.mp hx with rfl | hx
          · rfl
          · exact hw x hx
    · rcases h2 : f.writeConfigMap (nameFor cm.Name revision) with _ | err
      · obtain ⟨hs, ho, l, hl, hw⟩ := ih
          (((w.record (.syncConfigMap cm.Name (nameFor cm.Name revision))).record
              (.applyConfigMap { Name := nameFor cm.Name revision, Data := source.Data,
                                 OwnerReferences := ownerRefs })).putConfigMap
              { Name := nameFor cm.Name revision, Data := source.Data,
                OwnerReferences := ownerRefs })
        refine ⟨by simpa using hs, ?_, _ :: _ :: l, by simpa using hl, ?_⟩
        · simpa [World.sameOperator] using ho
        · intro x hx
          rcases List.mem_cons.mp hx with rfl | hx
          · rfl
          · rcases List.mem_cons.mp hx with rfl | hx
            · rfl
            · exact hw x hx
      · exact ⟨rfl, sameOperator_refl w,
          [.syncConfigMap cm.Name (nameFor cm.Name revision),
            .applyConfigMap { Name := nameFor cm.Name revision, Data := source.Data,
                              OwnerReferences := ownerRefs }],
          by simp, by simp [Call.isStoreWrite]⟩

/-- The secret loop of `createNewRevision` leaves the configmaps and the operator resource
alone, and only makes calls that write secrets. -/
theorem createNewRevision_secretLoop_frame (f : Faults) (revision : Int)
    (ownerRefs : List String) (tracked : List RevisionResource) (w : World) :
    (createNewRevision.secretLoop f revision ownerRefs tracked w).2.configMaps = w.configMaps ∧
    w.sameOperator (createNewRevision.secretLoop f revision ownerRefs tracked w).2 ∧
    ∃ l, (createNewRevision.secretLoop f revision ownerRefs tracked w).2.log = w.log ++ l ∧
      ∀ x ∈ l, x.isStoreWrite = true := by
  induction tracked generalizing w with
  | nil => exact ⟨rfl, sameOperator_refl w, [], by simp [createNewRevision.secretLoop], by simp⟩
  | cons s rest ih =>
    rw [createNewRevision_secretLoop_cons]
    rcases h1 : findSecret s.Name w.secrets with _ | source
    · rcases h3 : s.Optional with _ | _
      · exact ⟨rfl, sameOperator_refl w, [_], rfl, by simp [Call.isStoreWrite]⟩
      · obtain ⟨hs, ho, l, hl, hw⟩ := ih (w.record (.syncSecret s.Name (nameFor s.Name revision)))
        refine ⟨by simpa using hs, ?_, _ :: l, by simpa using hl, ?_⟩
        · simpa [World.sameOperator] using ho
        · intro x hx
          rcases List.mem_cons.mp hx with rfl | hx
          · rfl
          · exact hw x hx
    · rcases h2 : f.writeSecret (nameFor s.Name revision) with _ | err
      · obtain ⟨hs, ho, l, hl, hw⟩ := ih
          (((w.record (.syncSecret s.Name (nameFor s.Name revision))).record
              (.applySecret { Name := nameFor s.Name revision, Data := source.Data,
                              OwnerReferences := ownerRefs })).putSecret
              { Name := nameFor s.Name revision, Data := source.Data,
                OwnerReferences := ownerRefs })
        refine ⟨by simpa using hs, ?_, _ :: _ :: l, by simpa using hl, ?_⟩
        · simpa [World.sameOperator] using ho
        · intro x hx
          rcases List.mem_cons.mp hx with rfl | hx
          · rfl
          · rcases List.mem_cons.mp hx with rfl | hx
            · rfl
            · exact hw x hx
      · exact ⟨rfl, sameOperator_refl w,
          [.syncSecret s.Name (nameFor s.Name revision),
            .applySecret { Name := nameFor s.Name revision, Data := source.Data,
                           OwnerReferences := ownerRefs }],
          by simp, by simp [Call.isStoreWrite]⟩

/-- With every write accepted and every non-optional source present, the configmap loop of
`createNewRevision` ends without error. -/
theorem createNewRevision_configMapLoop_ok (f : Faults) (revision : Int)
    (ownerRefs : List String) (hw : ∀ n, f.writeConfigMap n = none)
    (tracked : List RevisionResource) (w : World)
    (hp : ∀ cm ∈ tracked, cm.Optional = false →
      (findConfigMap cm.Name w.configMaps).isSome = true) :
    (createNewRevision.configMapLoop f revision ownerRefs tracked w).1 = none := by
  induction tracked generalizing w with
  | nil => rfl
  | cons cm rest ih =>
    rw [createNewRevision_configMapLoop_cons]
    rcases h1 : findConfigMap cm.Name w.configMaps with _ | source
    · rcases h3 : cm.Optional with _ | _
      · have := hp cm (List.mem_cons_self _ _) h3
        simp [h1] at this
      · exact ih _ (fun x hx ho => by simpa using hp x (List.mem_cons_of_mem _ hx) ho)
    · simp only [hw]
      refine ih _ (fun x hx ho => ?_)
      have := hp x (List.mem_cons_of_mem _ hx) ho
      simp only [putConfigMap_configMaps, record_configMaps, findConfigMap_upsert]
      split
      · rfl
      · exact this

/-- With every write accepted and every non-optional source present, the secret loop of
`createNewRevision` ends without error. -/
theorem createNewRevision_secretLoop_ok (f : Faults) (revision : Int)
    (ownerRefs : List String) (hw : ∀ n, f.writeSecret n = none)
    (tracked : List RevisionResource) (w : World)
    (hp : ∀ s ∈ tracked, s.Optional = false → (findSecret s.Name w.secrets).isSome = true) :
    (createNewRevision.secretLoop f revision ownerRefs tracked w).1 = none := by
  induction tracked generalizing w with
  | nil => rfl
  | cons s rest ih =>
    rw [createNewRevision_secretLoop_cons]
    rcases h1 : findSecret s.Name w.secrets with _ | source
    · rcases h3 : s.Optional with _ | _
      · have := hp s (List.mem_cons_self _ _) h3
        simp [h1] at this
      · exact ih _ (fun x hx ho => by simpa using hp x (List.mem_cons_of_mem _ hx) ho)
    · simp only [hw]
      refine ih _ (fun x hx ho => ?_)
      have := hp x (List.mem_cons_of_mem _ hx) ho
      simp only [putSecret_secrets, record_secrets, findSecret_upsert]
      split
      · rfl
      · exact this

/-- With every write accepted and no tracked configmap named like a snapshot, the configmap
loop of `createNewRevision` returns the not-found error of the first non-optional configmap
without a source. -/
theorem createNewRevision_configMapLoop_firstMissing (f : Faults) (revision : Int)
    (ownerRefs : List String) (hw : ∀ n, f.writeConfigMap n = none)
    (tracked : List RevisionResource) (w : World)
    (hap : snapshotNamesApart tracked revision) :
    (createNewRevision.configMapLoop f revision ownerRefs tracked w).1 =
      (tracked.find?
        (fun cm => !cm.Optional && (findConfigMap cm.Name w.configMaps).isNone)).map
        (fun cm => GoError.notFound "configmaps" cm.Name) := by
  induction tracked generalizing w with
  | nil => rfl
  | cons cm rest ih =>
    have hrest : snapshotNamesApart rest revision :=
      fun a ha b hb => hap a (List.mem_cons_of_mem _ ha) b (List.mem_cons_of_mem _ hb)
    rw [createNewRevision_configMapLoop_cons, List.find?_cons]
    rcases h1 : findConfigMap cm.Name w.configMaps with _ | source
    · rcases h3 : cm.Optional with _ | _
      · simp
      · simpa using ih (w.record (.syncConfigMap cm.Name (nameFor cm.Name revision))) hrest
    · simp only [hw, Option.isNone_some, Bool.and_false]
      rw [ih _ hrest]
      congr 1
      apply find?_congr_mem
      intro x hx
      have hne : ¬ nameFor cm.Name revision = x.Name :=
        fun e => hap x (List.mem_cons_of_mem _ hx) cm (List.mem_cons_self _ _) e.symm
      simp [findConfigMap_upsert, hne]

/-- With every write accepted and no tracked secret named like a snapshot, the secret loop of
`createNewRevision` returns the not-found error of the first non-optional secret without a
source. -/
theorem createNewRevision_secretLoop_firstMissing (f : Faults) (revision : Int)
    (ownerRefs : List String) (hw : ∀ n, f.writeSecret n = none)
    (tracked : List RevisionResource) (w : World)
    (hap : snapshotNamesApart tracked revision) :
    (createNewRevision.secretLoop f revision ownerRefs tracked w).1 =
      (tracked.find? (fun s => !s.Optional && (findSecret s.Name w.secrets).isNone)).map
        (fun s => GoError.notFound "secrets" s.Name) := by
  induction tracked generalizing w with
  | nil => rfl
  | cons s rest ih =>
    have hrest : snapshotNamesApart rest revision :=
      fun a ha b hb => hap a (List.mem_cons_of_mem _ ha) b (List.mem_cons_of_mem _ hb)
    rw [createNewRevision_secretLoop_cons, List.find?_cons]
    rcases h1 : findSecret s.Name w.secrets with _ | source
    · rcases h3 : s.Optional with _ | _
      · simp
      · simpa using ih (w.record (.syncSecret s.Name (nameFor s.Name revision))) hrest
    · simp only [hw, Option.isNone_some, Bool.and_false]
      rw [ih _ hrest]
      congr 1
      apply find?_congr_mem
      intro x hx
      have hne : ¬ nameFor s.Name revision = x.Name :=
        fun e => hap x (List.mem_cons_of_mem _ hx) s (List.mem_cons_self _ _) e.symm
      simp [findSecret_upsert, hne]

/-- When the write of the status configmap is accepted, `createNewRevision` runs the two loops
on the namespace with the status configmap. -/
theorem createNewRevision_of_marker_ok (c : RevisionController) (f : Faults) (revision : Int)
    (reason : String) (w : World)
    (h : f.writeConfigMap (nameFor "revision-status" revision) = none) :
    createNewRevision c f revision reason w =
      match createNewRevision.configMapLoop f revision [nameFor "revision-status" revision]
          c.configMaps
          ((w.record (.applyConfigMap (statusConfigMap revision reason))).putConfigMap
            (statusConfigMap revision reason)) with
      | (some err, w2) => (some err, w2)
      | (none, w2) =>
        createNewRevision.secretLoop f revision [nameFor "revision-status" revision]
          c.secrets w2 := by
  have h2 : f.writeConfigMap (statusConfigMap revision reason).Name = none := h
  simp only [createNewRevision, ApplyConfigMap, h2]
  rfl

/-- With every write accepted and every non-optional source present, `createNewRevision`
returns no error. -/
theorem createNewRevision_ok (c : RevisionController) (f : Faults) (revision : Int)
    (reason : String) (w : World) (hcm : ∀ n, f.writeConfigMap n = none)
    (hs : ∀ n, f.writeSecret n = none)
    (hpc : ∀ cm ∈ c.configMaps, cm.Optional = false →
      (findConfigMap cm.Name w.configMaps).isSome = true)
    (hps : ∀ s ∈ c.secrets, s.Optional = false → (findSecret s.Name w.secrets).isSome = true) :
    (createNewRevision c f revision reason w).1 = none := by
  rw [createNewRevision_of_marker_ok c f revision reason w (hcm _)]
  have hloop := createNewRevision_configMapLoop_ok f revision
    [nameFor "revision-status" revision] hcm c.configMaps
    ((w.record (.applyConfigMap (statusConfigMap revision reason))).putConfigMap
      (statusConfigMap revision reason))
    (fun cm hm ho => by
      have := hpc cm hm ho
      simp only [putConfigMap_configMaps, record_configMaps, findConfigMap_upsert]
      split
      · rfl
      · exact this)
  have hframe := (createNewRevision_configMapLoop_frame f revision
    [nameFor "revision-status" revision] c.configMaps
    ((w.record (.applyConfigMap (statusConfigMap revision reason))).putConfigMap
      (statusConfigMap revision reason))).1
  rcases hr : createNewRevision.configMapLoop f revision
    [nameFor "revision-status" revision] c.configMaps
    ((w.record (.applyConfigMap (statusConfigMap revision reason))).putConfigMap
      (statusConfigMap revision reason)) with ⟨r, w2⟩
  rw [hr] at hloop hframe
  simp only at hloop hframe
  subst hloop
  simp only
  exact createNewRevision_secretLoop_ok f revision _ hs c.secrets w2
    (fun s hm ho => by rw [hframe]; simpa using hps s hm ho)

/-- With every write accepted and no tracked resource named like the status marker or a
snapshot of the revision, `createNewRevision` returns the not-found error of the first
non-optional tracked resource without a source. -/
theorem createNewRevision_firstMissing (c : RevisionController) (f : Faults) (revision : Int)
    (reason : String) (w : World) (hcm : ∀ n, f.writeConfigMap n = none)
    (hs : ∀ n, f.writeSecret n = none) (hmarker : markerNameApart c revision)
    (hac : snapshotNamesApart c.configMaps revision)
    (has : snapshotNamesApart c.secrets revision) :
    (createNewRevision c f revision reason w).1 = firstMissingSource c w := by
  rw [createNewRevision_of_marker_ok c f revision reason w (hcm _)]
  have hloop := createNewRevision_configMapLoop_firstMissing f revision
    [nameFor "revision-status" revision] hcm c.configMaps
    ((w.record (.applyConfigMap (statusConfigMap revision reason))).putConfigMap
      (statusConfigMap revision reason)) hac
  have hfind : c.configMaps.find? (fun cm => !cm.Optional &&
      (findConfigMap cm.Name
        ((w.record (.applyConfigMap (statusConfigMap revision reason))).putConfigMap
          (statusConfigMap revision reason)).configMaps).isNone) =
      c.configMaps.find? (fun cm => !cm.Optional &&
        (findConfigMap cm.Name w.configMaps).isNone) := by
    apply find?_congr_mem
    intro x hx
    have hne : ¬ (statusConfigMap revision reason).Name = x.Name :=
      fun e => hmarker x hx e.symm
    simp [findConfigMap_upsert, hne]
  rw [hfind] at hloop
  have hframe := (createNewRevision_configMapLoop_frame f revision
    [nameFor "revision-status" revision] c.configMaps
    ((w.record (.applyConfigMap (statusConfigMap revision reason))).putConfigMap
      (statusConfigMap revision reason))).1
  rcases hr : createNewRevision.configMapLoop f revision
    [nameFor "revision-status" revision] c.configMaps
    ((w.record (.applyConfigMap (statusConfigMap revision reason))).putConfigMap
      (statusConfigMap revision reason)) with ⟨r, w2⟩
  rw [hr] at hloop hframe
  simp only at hloop hframe
  unfold firstMissingSource
  rcases hf : c.configMaps.find? (fun cm => !cm.Optional &&
      (findConfigMap cm.Name w.configMaps).isNone) with _ | cm
  · rw [hf] at hloop
    simp only [Option.map_none'] at hloop
    subst hloop
    simp only
    rw [createNewRevision_secretLoop_firstMissing f revision _ hs c.secrets w2 has, hframe]
    simp only [putConfigMap_secrets, record_secrets]
    rcases hfs : c.secrets.find? (fun s => !s.Optional && (findSecret s.Name w.secrets).isNone)
      with _ | s <;> simp [hf, hfs]
  · rw [hf] at hloop
    simp only [Option.map_some'] at hloop
    subst hloop
    simp [hf]

/-- C6, as stated, fails. With the non-optional `config` without a source and the write of the
status configmap rejected, `createNewRevision` returns the error of the write, not a
not-found error. With `a` and `a-1` tracked and only `a` present, `a-1` has no source, and
`createNewRevision` at revision 1 returns no error: the snapshot of `a` is the source of
`a-1`. -/
theorem createNewRevision_missing_source_other_result :
    firstMissingSource configController emptyWorld = some (.notFound "configmaps" "config") ∧
    (createNewRevision configController rejectWrites 1 "r" emptyWorld).1 =
      some (.api "write rejected") ∧
    firstMissingSource overlapController overlapSourceWorld =
      some (.notFound "configmaps" "a-1") ∧
    (createNewRevision overlapController Faults.none 1 "r" overlapSourceWorld).1 = none := by
  refine ⟨by decide, by decide, by decide, by decide⟩

/-- C6, amended: when every write succeeds and no tracked resource is named like the status
marker or like a snapshot of the revision, `createNewRevision` returns the not-found error of
the first non-optional tracked resource without a source, in the order configmaps then
secrets. When every write succeeds and every non-optional source is present, it returns no
error, however many optional sources are absent. -/
theorem createNewRevision_missing_source (c : RevisionController) (f : Faults) (revision : Int)
    (reason : String) (w : World) (hcm : ∀ n, f.writeConfigMap n = none)
    (hs : ∀ n, f.writeSecret n = none) :
    (markerNameApart c revision → snapshotNamesApart c.configMaps revision →
      snapshotNamesApart c.secrets revision →
      (createNewRevision c f revision reason w).1 = firstMissingSource c w) ∧
    ((∀ cm ∈ c.configMaps, cm.Optional = false →
        (findConfigMap cm.Name w.configMaps).isSome = true) →
      (∀ s ∈ c.secrets, s.Optional = false → (findSecret s.Name w.secrets).isSome = true) →
      (createNewRevision c f revision reason w).1 = none) :=
  ⟨fun hmarker hac has =>
      createNewRevision_firstMissing c f revision reason w hcm hs hmarker hac has,
    fun hpc hps => createNewRevision_ok c f revision reason w hcm hs hpc hps⟩

/-- C6, amended, at a controller with optional resources, without and with the source of the
non-optional configmap. -/
theorem createNewRevision_missing_source_witness :
    (createNewRevision mixedController Faults.none 1 "r" emptyWorld).1 =
      firstMissingSource mixedController emptyWorld ∧
    (createNewRevision mixedController Faults.none 1 "r" exampleWorld).1 = none :=
  ⟨(createNewRevision_missing_source mixedController Faults.none 1 "r" emptyWorld
      (fun _ => rfl) (fun _ => rfl)).1 (by decide) (by decide) (by decide),
    (createNewRevision_missing_source mixedController Faults.none 1 "r" exampleWorld
      (fun _ => rfl) (fun _ => rfl)).2 (by decide) (by decide)⟩

/-! ## The comparison reads and nothing else -/

/-- The configmap loop of `isLatestRevisionCurrent` only adds reads to the log. -/
theorem isLatestRevisionCurrent_configMapLoop_frame (revision : Int)
    (tracked : List RevisionResource) (changes : List String) (w : World) :
    ∃ l, (isLatestRevisionCurrent.configMapLoop revision tracked changes w).2 =
        { w with log := w.log ++ l } ∧ ∀ x ∈ l, x.isGet = true := by
  induction tracked generalizing changes w with
  | nil => exact ⟨[], by simp [isLatestRevisionCurrent.configMapLoop], by simp⟩
  | cons cm rest ih =>
    rw [isLatestRevisionCurrent_configMapLoop_cons]
    split
    · exact ⟨[.getConfigMap cm.Name], rfl, by simp [Call.isGet]⟩
    · split
      · exact ⟨[.getConfigMap cm.Name, .getConfigMap (nameFor cm.Name revision)],
          by simp [World.record], by simp [Call.isGet]⟩
      · obtain ⟨l, hl, hget⟩ := ih
          (if DeepEqual (configMapData (nameFor cm.Name revision) w) (configMapData cm.Name w)
            then changes
          else changes ++ ["configmap/" ++ cm.Name ++ " has changed"])
          ((w.record (.getConfigMap cm.Name)).record
            (.getConfigMap (nameFor cm.Name revision)))
        refine ⟨.getConfigMap cm.Name :: .getConfigMap (nameFor cm.Name revision) :: l, ?_, ?_⟩
        · rw [hl]; simp [World.record]
        · intro x hx
          rcases List.mem_cons.mp hx with rfl | hx
          · rfl
          · rcases List.mem_cons.mp hx with rfl | hx
            · rfl
            · exact hget x hx

/-- The secret loop of `isLatestRevisionCurrent` only adds reads to the log. -/
theorem isLatestRevisionCurrent_secretLoop_frame (revision : Int)
    (tracked : List RevisionResource) (changes : List String) (w : World) :
    ∃ l, (isLatestRevisionCurrent.secretLoop revision tracked changes w).2 =
        { w with log := w.log ++ l } ∧ ∀ x ∈ l, x.isGet = true := by
  induction tracked generalizing changes w with
  | nil => exact ⟨[], by simp [isLatestRevisionCurrent.secretLoop], by simp⟩
  | cons s rest ih =>
    rw [isLatestRevisionCurrent_secretLoop_cons]
    split
    · exact ⟨[.getSecret s.Name], rfl, by simp [Call.isGet]⟩
    · split
      · exact ⟨[.getSecret s.Name, .getSecret (nameFor s.Name revision)],
          by simp [World.record], by simp [Call.isGet]⟩
      · obtain ⟨l, hl, hget⟩ := ih
          (if DeepEqual (secretData (nameFor s.Name revision) w) (secretData s.Name w)
            then changes
          else changes ++ ["secret/" ++ s.Name ++ " has changed"])
          ((w.record (.getSecret s.Name)).record (.getSecret (nameFor s.Name revision)))
        refine ⟨.getSecret s.Name :: .getSecret (nameFor s.Name revision) :: l, ?_, ?_⟩
        · rw [hl]; simp [World.record]
        · intro x hx
          rcases List.mem_cons.mp hx with rfl | hx
          · rfl
          · rcases List.mem_cons.mp hx with rfl | hx
            · rfl
            · exact hget x hx

/-- The result of the configmap loop of `isLatestRevisionCurrent` depends on the configmaps
only. -/
theorem isLatestRevisionCurrent_configMapLoop_congr (revision : Int)
    (tracked : List RevisionResource) (changes : List String) (w w1 : World)
    (h : w.configMaps = w1.configMaps) :
    (isLatestRevisionCurrent.configMapLoop revision tracked changes w).1 =
      (isLatestRevisionCurrent.configMapLoop revision tracked changes w1).1 := by
  induction tracked generalizing changes w w1 with
  | nil => rfl
  | cons cm rest ih =>
    rw [isLatestRevisionCurrent_configMapLoop_cons, isLatestRevisionCurrent_configMapLoop_cons]
    simp only [configMapData, h]
    split
    · rfl
    · split
      · rfl
      · exact ih _ _ _ (by simpa using h)

/-- The result of the secret loop of `isLatestRevisionCurrent` depends on the secrets only. -/
theorem isLatestRevisionCurrent_secretLoop_congr (revision : Int)
    (tracked : List RevisionResource) (changes : List String) (w w1 : World)
    (h : w.secrets = w1.secrets) :
    (isLatestRevisionCurrent.secretLoop revision tracked changes w).1 =
      (isLatestRevisionCurrent.secretLoop revision tracked changes w1).1 := by
  induction tracked generalizing changes w w1 with
  | nil => rfl
  | cons s rest ih =>
    rw [isLatestRevisionCurrent_secretLoop_cons, isLatestRevisionCurrent_secretLoop_cons]
    simp only [secretData, h]
    split
    · rfl
    · split
      · rfl
      · exact ih _ _ _ (by simpa using h)

/-- The method `isLatestRevisionCurrent` only adds reads to the log. -/
theorem isLatestRevisionCurrent_frame (c : RevisionController) (revision : Int) (w : World) :
    ∃ l, (isLatestRevisionCurrent c revision w).2 = { w with log := w.log ++ l } ∧
      ∀ x ∈ l, x.isGet = true := by
  obtain ⟨l1, h1, g1⟩ := isLatestRevisionCurrent_configMapLoop_frame revision c.configMaps [] w
  unfold isLatestRevisionCurrent
  rcases hr : isLatestRevisionCurrent.configMapLoop revision c.configMaps [] w with ⟨r, w1⟩
  rw [hr] at h1
  simp only at h1
  cases r with
  | error text => exact ⟨l1, h1, g1⟩
  | ok configChanges =>
    obtain ⟨l2, h2, g2⟩ :=
      isLatestRevisionCurrent_secretLoop_frame revision c.secrets [] w1
    simp only
    rcases hr2 : isLatestRevisionCurrent.secretLoop revision c.secrets [] w1 with ⟨r2, w2⟩
    rw [hr2] at h2
    simp only at h2
    have hw2 : w2 = { w with log := w.log ++ (l1 ++ l2) } := by
      rw [h2, h1]; simp
    have hg : ∀ x ∈ l1 ++ l2, x.isGet = true := by
      intro x hx
      rcases List.mem_append.mp hx with hx | hx
      · exact g1 x hx
      · exact g2 x hx
    cases r2 with
    | error text => exact ⟨l1 ++ l2, hw2, hg⟩
    | ok secretChanges =>
      simp only
      split
      · exact ⟨l1 ++ l2, hw2, hg⟩
      · exact ⟨l1 ++ l2, hw2, hg⟩

/-- The result of `isLatestRevisionCurrent` depends on the configmaps and secrets only. -/
theorem isLatestRevisionCurrent_congr (c : RevisionController) (revision : Int) (w w1 : World)
    (hc : w.configMaps = w1.configMaps) (hs : w.secrets = w1.secrets) :
    (isLatestRevisionCurrent c revision w).1 = (isLatestRevisionCurrent c revision w1).1 := by
  have e1 := isLatestRevisionCurrent_configMapLoop_congr revision c.configMaps [] w w1 hc
  obtain ⟨l1, f1, _⟩ := isLatestRevisionCurrent_configMapLoop_frame revision c.configMaps [] w
  obtain ⟨l2, f2, _⟩ := isLatestRevisionCurrent_configMapLoop_frame revision c.configMaps [] w1
  unfold isLatestRevisionCurrent
  rcases hr : isLatestRevisionCurrent.configMapLoop revision c.configMaps [] w with ⟨r, v⟩
  rcases hr1 : isLatestRevisionCurrent.configMapLoop revision c.configMaps [] w1 with ⟨r1, v1⟩
  rw [hr] at e1 f1
  rw [hr1] at e1 f2
  simp only at e1 f1 f2
  subst e1
  cases r with
  | error text => rfl
  | ok configChanges =>
    have e2 := isLatestRevisionCurrent_secretLoop_congr revision c.secrets [] v v1
      (by rw [f1, f2]; exact hs)
    simp only
    rcases hq : isLatestRevisionCurrent.secretLoop revision c.secrets [] v with ⟨q, u⟩
    rcases hq1 : isLatestRevisionCurrent.secretLoop revision c.secrets [] v1 with ⟨q1, u1⟩
    rw [hq] at e2
    rw [hq1] at e2
    simp only at e2
    subst e2
    cases q with
    | error text => rfl
    | ok secretChanges =>
      simp only
      split <;> rfl

/-! ## One reconciliation attempt -/

theorem getLatestAvailableRevision_world (f : Faults) (w : World) :
    (getLatestAvailableRevision f w).2 = w.record .listConfigMaps := by
  unfold getLatestAvailableRevision listConfigMaps
  cases f.listConfigMaps with
  | some err => rfl
  | none =>
    simp only
    cases getLatestAvailableRevision.loop w.configMaps 0 <;> rfl

theorem getLatestAvailableRevision_congr (f : Faults) (w w1 : World)
    (h : w.configMaps = w1.configMaps) :
    (getLatestAvailableRevision f w).1 = (getLatestAvailableRevision f w1).1 := by
  unfold getLatestAvailableRevision listConfigMaps
  cases f.listConfigMaps with
  | some err => rfl
  | none =>
    simp only [h]
    cases getLatestAvailableRevision.loop w1.configMaps 0 <;> rfl

/-- C7: self-heal. With revision 0 in the status of a managed operator and status markers that
all carry an `int32` revision, the highest being `K > 0`, one call of `sync` reads the state,
lists the configmaps and updates the status revision to `K`, and makes no other call: no
marker and no snapshot is created, for `K + 1` or otherwise. When the status write succeeds
`sync` returns the synthetic requeue error and the status holds `K`; when the write fails
`sync` returns the error of the write and the status still holds 0. -/
theorem sync_self_heal (c : RevisionController) (f : Faults) (w : World) (K : Int)
    (hread : f.getLatestRevisionState = none)
    (hmanaged : IsOperatorManaged w.managementState = true)
    (hzero : w.latestAvailableRevision = 0)
    (hlist : f.listConfigMaps = none)
    (hmarkers : ∀ cm ∈ w.configMaps, startsWith cm.Name "revision-status-" = true →
      ∃ text n, cm.Data.lookup "revision" = some text ∧ atoi text = .ok n ∧ isInt32 n)
    (hK : IsMaxOf K (markerRevisions w.configMaps)) (hpos : 0 < K) :
    (sync c f w).2.configMaps = w.configMaps ∧
    (sync c f w).2.secrets = w.secrets ∧
    (sync c f w).2.conditions = w.conditions ∧
    (sync c f w).2.log =
      w.log ++ [.getLatestRevisionState, .listConfigMaps,
        .updateLatestRevisionOperatorStatus K []] ∧
    (f.updateLatestRevisionOperatorStatus = none →
      (sync c f w).1 = some .syntheticRequeue ∧ (sync c f w).2.latestAvailableRevision = K) ∧
    (∀ err, f.updateLatestRevisionOperatorStatus = some err →
      (sync c f w).1 = some err ∧ (sync c f w).2.latestAvailableRevision = 0) := by
  obtain ⟨r, hr, _, hall, hmem⟩ := getLatestAvailableRevision_loop_spec w.configMaps hmarkers 0
  have hrK : r = K := by
    have h1 : K ≤ r := hall K hK.1
    rcases hmem with h0 | hm
    · omega
    · exact le_antisymm (hK.2 r hm) h1
  subst hrK
  have hne : ¬ r = 0 := by omega
  have hrec : getLatestAvailableRevision f (w.record .getLatestRevisionState) =
      ((r, none), (w.record .getLatestRevisionState).record .listConfigMaps) := by
    simp [getLatestAvailableRevision, listConfigMaps, hlist, hr]
  have hsync : sync c f w =
      match UpdateLatestRevisionOperatorStatus f r []
          ((w.record .getLatestRevisionState).record .listConfigMaps) with
      | ((_, some err), w3) => (some err, w3)
      | ((_, none), w3) => (some .syntheticRequeue, w3) := by
    simp [sync, GetLatestRevisionState, hread, hmanaged, hzero, hrec, hne]
  rw [hsync]
  cases hu : f.updateLatestRevisionOperatorStatus with
  | none => simp [UpdateLatestRevisionOperatorStatus, hu, World.record]
  | some err => simp [UpdateLatestRevisionOperatorStatus, hu, World.record, hzero]

/-- C7 at a namespace whose status markers reach revision 3. -/
theorem sync_self_heal_witness :
    (sync configController Faults.none recoveryWorld).2.configMaps = recoveryWorld.configMaps ∧
    (sync configController Faults.none recoveryWorld).2.log =
      recoveryWorld.log ++ [.getLatestRevisionState, .listConfigMaps,
        .updateLatestRevisionOperatorStatus 3 []] ∧
    (sync configController Faults.none recoveryWorld).1 = some .syntheticRequeue ∧
    (sync configController Faults.none recoveryWorld).2.latestAvailableRevision = 3 := by
  have h := sync_self_heal configController Faults.none recoveryWorld 3 rfl rfl rfl rfl
    (by
      intro cm hcm hp
      simp only [recoveryWorld, List.mem_cons, List.mem_singleton, List.not_mem_nil,
        or_false] at hcm
      rcases hcm with rfl | rfl | rfl | rfl | rfl | rfl
      · exact absurd hp (by decide)
      · exact ⟨"1", 1, by decide, by decide, by decide⟩
      · exact absurd hp (by decide)
      · exact ⟨"3", 3, by decide, by decide, by decide⟩
      · exact absurd hp (by decide)
      · exact ⟨"2", 2, by decide, by decide, by decide⟩)
    (by
      have h : markerRevisions recoveryWorld.configMaps = [1, 3, 2] := by decide
      rw [h]
      exact ⟨by decide, by decide⟩)
    (by decide)
  exact ⟨h.1, h.2.2.2.1, (h.2.2.2.2.1 rfl).1, (h.2.2.2.2.1 rfl).2⟩

/-- The method `createNewRevision` leaves the operator resource alone; it first applies the
status configmap and then only makes calls that write configmaps and secrets. -/
theorem createNewRevision_frame (c : RevisionController) (f : Faults) (revision : Int)
    (reason : String) (w : World) :
    w.sameOperator (createNewRevision c f revision reason w).2 ∧
    ∃ l, (createNewRevision c f revision reason w).2.log =
        w.log ++ (.applyConfigMap (statusConfigMap revision reason) :: l) ∧
      ∀ x ∈ l, x.isStoreWrite = true := by
  rcases hm : f.writeConfigMap (nameFor "revision-status" revision) with _ | err
  · rw [createNewRevision_of_marker_ok c f revision reason w hm]
    obtain ⟨_, ho1, l1, hl1, hw1⟩ := createNewRevision_configMapLoop_frame f revision
      [nameFor "revision-status" revision] c.configMaps
      ((w.record (.applyConfigMap (statusConfigMap revision reason))).putConfigMap
        (statusConfigMap revision reason))
    rcases hr : createNewRevision.configMapLoop f revision
      [nameFor "revision-status" revision] c.configMaps
      ((w.record (.applyConfigMap (statusConfigMap revision reason))).putConfigMap
        (statusConfigMap revision reason)) with ⟨r, w2⟩
    rw [hr] at ho1 hl1
    simp only [putConfigMap_log, record_log] at hl1
    have ho : w.sameOperator w2 := by simpa [World.sameOperator] using ho1
    cases r with
    | some err =>
      exact ⟨ho, l1, by simpa using hl1, hw1⟩
    | none =>
      obtain ⟨_, ho2, l2, hl2, hw2⟩ := createNewRevision_secretLoop_frame f revision
        [nameFor "revision-status" revision] c.secrets w2
      refine ⟨sameOperator_trans ho ho2, l1 ++ l2, ?_, ?_⟩
      · simp only [hl2, hl1]; simp
      · intro x hx
        rcases List.mem_append.mp hx with hx | hx
        · exact hw1 x hx
        · exact hw2 x hx
  · have h2 : f.writeConfigMap (statusConfigMap revision reason).Name = some err := hm
    have : createNewRevision c f revision reason w =
        (some err, w.record (.applyConfigMap (statusConfigMap revision reason))) := by
      simp [createNewRevision, ApplyConfigMap, h2]
    rw [this]
    exact ⟨sameOperator_refl w, [], by simp, by simp⟩

/-- The method `createRevisionIfNeeded` when the latest revision is not current: the event,
`createNewRevision` for the next revision, and the status update. -/
theorem createRevisionIfNeeded_of_not_current (c : RevisionController) (f : Faults)
    (latestAvailableRevision : Int) (resourceVersion : String) (w : World)
    (h : (isLatestRevisionCurrent c latestAvailableRevision w).1.1 = false) :
    createRevisionIfNeeded c f latestAvailableRevision resourceVersion w =
      match createNewRevision c f (wrapInt32 (latestAvailableRevision + 1))
          (isLatestRevisionCurrent c latestAvailableRevision w).1.2
          (Eventf "RevisionTriggered" "new revision %d triggered by %q"
            [formatInt (wrapInt32 (latestAvailableRevision + 1)),
              (isLatestRevisionCurrent c latestAvailableRevision w).1.2]
            (isLatestRevisionCurrent c latestAvailableRevision w).2) with
      | (some err, w3) =>
        match UpdateStatus f
            [{ condType := "RevisionControllerDegraded", Status := "True",
               Reason := "ContentCreationError", Message := err.Error }] w3 with
        | ((_, some updateError), w4) =>
          ((true, some updateError),
            Warningf "RevisionCreateFailed" "Failed to create revision %d: %v"
              [formatInt (wrapInt32 (latestAvailableRevision + 1)), err.Error] w4)
        | ((_, none), w4) => ((true, none), w4)
      | (none, w3) =>
        match UpdateLatestRevisionOperatorStatus f (wrapInt32 (latestAvailableRevision + 1))
            [degradedFalse] w3 with
        | ((_, some updateError), w4) => ((true, some updateError), w4)
        | ((updated, none), w4) =>
          if updated then
            ((false, none),
              Eventf "RevisionCreate" "Revision %d created because %s"
                [formatInt latestAvailableRevision,
                  (isLatestRevisionCurrent c latestAvailableRevision w).1.2] w4)
          else ((false, none), w4) := by
  unfold createRevisionIfNeeded
  rcases hr : isLatestRevisionCurrent c latestAvailableRevision w with ⟨⟨b, reason⟩, w1⟩
  rw [hr] at h
  simp only at h
  subst h
  rfl

/-- The method `createRevisionIfNeeded` when the latest revision is current: nothing but the
reads of the comparison. -/
theorem createRevisionIfNeeded_of_current (c : RevisionController) (f : Faults)
    (latestAvailableRevision : Int) (resourceVersion : String) (w : World)
    (h : (isLatestRevisionCurrent c latestAvailableRevision w).1.1 = true) :
    createRevisionIfNeeded c f latestAvailableRevision resourceVersion w =
      ((false, none), (isLatestRevisionCurrent c latestAvailableRevision w).2) := by
  unfold createRevisionIfNeeded
  rcases hr : isLatestRevisionCurrent c latestAvailableRevision w with ⟨⟨b, reason⟩, w1⟩
  rw [hr] at h
  simp only at h
  subst h
  rfl

theorem filter_isStatusWrite_of_isGet (l : List Call) (h : ∀ x ∈ l, x.isGet = true) :
    l.filter Call.isStatusWrite = [] := by
  rw [List.filter_eq_nil_iff]
  intro x hx
  have := h x hx
  cases x <;> simp_all [Call.isGet, Call.isStatusWrite]

theorem filter_isStatusWrite_of_isStoreWrite (l : List Call)
    (h : ∀ x ∈ l, x.isStoreWrite = true) : l.filter Call.isStatusWrite = [] := by
  rw [List.filter_eq_nil_iff]
  intro x hx
  have := h x hx
  cases x <;> simp_all [Call.isStoreWrite, Call.isStatusWrite]

theorem filter_isStoreWrite_of_isGet (l : List Call) (h : ∀ x ∈ l, x.isGet = true) :
    l.filter Call.isStoreWrite = [] := by
  rw [List.filter_eq_nil_iff]
  intro x hx
  have := h x hx
  cases x <;> simp_all [Call.isGet, Call.isStoreWrite]

/-- C1, as stated, fails: with the non-optional `config` tracked and no source for it,
`isLatestRevisionCurrent` reports that revision 0 is not current, every write and status
update succeeds, and `createRevisionIfNeeded` asks for a requeue and leaves the status at
revision 0. -/
theorem createRevisionIfNeeded_missing_source_no_advance :
    (isLatestRevisionCurrent configController 0 emptyWorld).1.1 = false ∧
    (createRevisionIfNeeded configController Faults.none 0 "1" emptyWorld).1 = (true, none) ∧
    (createRevisionIfNeeded configController Faults.none 0 "1"
      emptyWorld).2.latestAvailableRevision = 0 := by
  refine ⟨by decide, by decide, by decide⟩

/-- C1, amended: when `isLatestRevisionCurrent` reports that revision `N < 2^31-1` is not
current, every non-optional tracked resource has a source, and every write and the status
update succeed, `createRevisionIfNeeded` runs `createNewRevision` for exactly `N + 1`, which
returns no error, makes one status write, the update of `latestAvailableRevision` to `N + 1`
with the degraded condition set to False, and returns (requeue = false, no error). -/
theorem createRevisionIfNeeded_drift (c : RevisionController) (f : Faults) (N : Int)
    (resourceVersion : String) (w : World) (hN : isInt32 N) (hlt : N < 2147483647)
    (hdrift : (isLatestRevisionCurrent c N w).1.1 = false)
    (hcm : ∀ n, f.writeConfigMap n = none) (hs : ∀ n, f.writeSecret n = none)
    (hup : f.updateLatestRevisionOperatorStatus = none)
    (hpc : ∀ cm ∈ c.configMaps, cm.Optional = false →
      (findConfigMap cm.Name w.configMaps).isSome = true)
    (hps : ∀ s ∈ c.secrets, s.Optional = false → (findSecret s.Name w.secrets).isSome = true) :
    (createRevisionIfNeeded c f N resourceVersion w).1 = (false, none) ∧
    (createRevisionIfNeeded c f N resourceVersion w).2.latestAvailableRevision = N + 1 ∧
    (createRevisionIfNeeded c f N resourceVersion w).2.conditions =
      setOperatorCondition degradedFalse w.conditions ∧
    (createNewRevision c f (N + 1) (isLatestRevisionCurrent c N w).1.2
      (Eventf "RevisionTriggered" "new revision %d triggered by %q"
        [formatInt (N + 1), (isLatestRevisionCurrent c N w).1.2]
        (isLatestRevisionCurrent c N w).2)).1 = none ∧
    (createRevisionIfNeeded c f N resourceVersion w).2.configMaps =
      (createNewRevision c f (N + 1) (isLatestRevisionCurrent c N w).1.2
        (Eventf "RevisionTriggered" "new revision %d triggered by %q"
          [formatInt (N + 1), (isLatestRevisionCurrent c N w).1.2]
          (isLatestRevisionCurrent c N w).2)).2.configMaps ∧
    (createRevisionIfNeeded c f N resourceVersion w).2.secrets =
      (createNewRevision c f (N + 1) (isLatestRevisionCurrent c N w).1.2
        (Eventf "RevisionTriggered" "new revision %d triggered by %q"
          [formatInt (N + 1), (isLatestRevisionCurrent c N w).1.2]
          (isLatestRevisionCurrent c N w).2)).2.secrets ∧
    ∃ l, (createRevisionIfNeeded c f N resourceVersion w).2.log = w.log ++ l ∧
      l.filter Call.isStatusWrite =
        [.updateLatestRevisionOperatorStatus (N + 1) [degradedFalse]] := by
  have hnext : wrapInt32 (N + 1) = N + 1 := by
    apply wrapInt32_of_isInt32
    unfold isInt32 at hN ⊢
    omega
  obtain ⟨l1, hf1, hg1⟩ := isLatestRevisionCurrent_frame c N w
  rw [createRevisionIfNeeded_of_not_current c f N resourceVersion w hdrift, hnext]
  generalize (isLatestRevisionCurrent c N w).1.2 = reason
  generalize hw1 : (isLatestRevisionCurrent c N w).2 = w1 at hf1
  have hok := createNewRevision_ok c f (N + 1) reason
    (Eventf "RevisionTriggered" "new revision %d triggered by %q"
      [formatInt (N + 1), reason] w1) hcm hs
    (by subst hf1; exact hpc) (by subst hf1; exact hps)
  obtain ⟨hop, l3, hl3, hw3⟩ := createNewRevision_frame c f (N + 1) reason
    (Eventf "RevisionTriggered" "new revision %d triggered by %q"
      [formatInt (N + 1), reason] w1)
  rcases hr : createNewRevision c f (N + 1) reason
    (Eventf "RevisionTriggered" "new revision %d triggered by %q"
      [formatInt (N + 1), reason] w1) with ⟨r, w3⟩
  rw [hr] at hok hop hl3
  simp only at hok hl3
  subst hok
  obtain ⟨_, hrev, _, hcond⟩ := hop
  have hcond3 : w3.conditions = w.conditions := by
    rw [hcond]; subst hf1; rfl
  obtain ⟨pre, hlog3, hfilter⟩ : ∃ pre, w3.log = w.log ++ pre ∧
      pre.filter Call.isStatusWrite = [] := by
    refine ⟨l1 ++ [Call.eventf "RevisionTriggered" "new revision %d triggered by %q"
      [formatInt (N + 1), reason]] ++
      (Call.applyConfigMap (statusConfigMap (N + 1) reason) :: l3), ?_, ?_⟩
    · rw [hl3]; subst hf1; simp [Eventf]
    · simp [List.filter_append, filter_isStatusWrite_of_isGet l1 hg1,
        filter_isStatusWrite_of_isStoreWrite l3 hw3, List.filter_cons, Call.isStatusWrite]
  simp only [UpdateLatestRevisionOperatorStatus, hup]
  split
  · refine ⟨rfl, rfl, ?_, trivial, rfl, rfl,
      pre ++ [Call.updateLatestRevisionOperatorStatus (N + 1) [degradedFalse],
        Call.eventf "RevisionCreate" "Revision %d created because %s"
          [formatInt N, reason]], ?_, ?_⟩
    · simp [Eventf, hcond3]
    · simp [Eventf, hlog3]
    · simp [List.filter_append, hfilter, List.filter_cons, Call.isStatusWrite]
  · refine ⟨rfl, rfl, ?_, trivial, rfl, rfl,
      pre ++ [Call.updateLatestRevisionOperatorStatus (N + 1) [degradedFalse]], ?_, ?_⟩
    · simp [hcond3]
    · simp [hlog3]
    · simp [List.filter_append, hfilter, List.filter_cons, Call.isStatusWrite]

/-- C1, amended, at the example of the specification: revision 1 and the snapshot `config-1`
with `k: v1`. -/
theorem createRevisionIfNeeded_drift_witness :
    (createRevisionIfNeeded configController Faults.none 0 "1" exampleWorld).1 =
      (false, none) ∧
    (createRevisionIfNeeded configController Faults.none 0 "1"
      exampleWorld).2.latestAvailableRevision = 1 ∧
    findConfigMap "config-1"
        (createRevisionIfNeeded configController Faults.none 0 "1" exampleWorld).2.configMaps =
      some { Name := "config-1", Data := [("k", "v1")],
             OwnerReferences := ["revision-status-1"] } := by
  have h := createRevisionIfNeeded_drift configController Faults.none 0 "1" exampleWorld
    (by decide) (by decide) (by decide) (fun _ => rfl) (fun _ => rfl) rfl (by decide)
    (by decide)
  exact ⟨h.1, h.2.1, by decide⟩

/-! ## A missing required resource -/

/-- When a non-optional tracked configmap has no source or no snapshot, the configmap loop of
`isLatestRevisionCurrent` returns early with the text of a not-found error. -/
theorem isLatestRevisionCurrent_configMapLoop_missing (revision : Int)
    (tracked : List RevisionResource) (changes : List String) (w : World)
    (h : ∃ cm ∈ tracked, cm.Optional = false ∧
      (findConfigMap cm.Name w.configMaps = none ∨
        findConfigMap (nameFor cm.Name revision) w.configMaps = none)) :
    ∃ name, (isLatestRevisionCurrent.configMapLoop revision tracked changes w).1 =
      .error (GoError.notFound "configmaps" name).Error := by
  induction tracked generalizing changes w with
  | nil => obtain ⟨cm, hm, _⟩ := h; cases hm
  | cons cm rest ih =>
    rw [isLatestRevisionCurrent_configMapLoop_cons]
    split
    · exact ⟨_, rfl⟩
    · split
      · exact ⟨_, rfl⟩
      · rename_i h1 h2
        obtain ⟨bad, hm, hopt, hbad⟩ := h
        rcases List.mem_cons.mp hm with rfl | hm
        · exfalso
          rcases hbad with hb | hb
          · simp [hb, hopt] at h1
          · simp [hb, hopt] at h2
        · exact ih _ _ ⟨bad, hm, hopt, by simpa using hbad⟩

/-- When a non-optional tracked secret has no source or no snapshot, the secret loop of
`isLatestRevisionCurrent` returns early with the text of a not-found error. -/
theorem isLatestRevisionCurrent_secretLoop_missing (revision : Int)
    (tracked : List RevisionResource) (changes : List String) (w : World)
    (h : ∃ s ∈ tracked, s.Optional = false ∧
      (findSecret s.Name w.secrets = none ∨
        findSecret (nameFor s.Name revision) w.secrets = none)) :
    ∃ name, (isLatestRevisionCurrent.secretLoop revision tracked changes w).1 =
      .error (GoError.notFound "secrets" name).Error := by
  induction tracked generalizing changes w with
  | nil => obtain ⟨s, hm, _⟩ := h; cases hm
  | cons s rest ih =>
    rw [isLatestRevisionCurrent_secretLoop_cons]
    split
    · exact ⟨_, rfl⟩
    · split
      · exact ⟨_, rfl⟩
      · rename_i h1 h2
        obtain ⟨bad, hm, hopt, hbad⟩ := h
        rcases List.mem_cons.mp hm with rfl | hm
        · exfalso
          rcases hbad with hb | hb
          · simp [hb, hopt] at h1
          · simp [hb, hopt] at h2
        · exact ih _ _ ⟨bad, hm, hopt, by simpa using hbad⟩

/-- An early return of the configmap loop of `isLatestRevisionCurrent` carries the text of a
not-found error. -/
theorem isLatestRevisionCurrent_configMapLoop_error (revision : Int)
    (tracked : List RevisionResource) (changes : List String) (w : World) (text : String)
    (h : (isLatestRevisionCurrent.configMapLoop revision tracked changes w).1 = .error text) :
    ∃ name, text = (GoError.notFound "configmaps" name).Error := by
  induction tracked generalizing changes w with
  | nil => simp [isLatestRevisionCurrent.configMapLoop] at h
  | cons cm rest ih =>
    rw [isLatestRevisionCurrent_configMapLoop_cons] at h
    split at h
    · simp only [Except.error.injEq] at h
      exact ⟨_, h.symm⟩
    · split at h
      · simp only [Except.error.injEq] at h
        exact ⟨_, h.symm⟩
      · exact ih _ _ h

/-- An early return of the secret loop of `isLatestRevisionCurrent` carries the text of a
not-found error. -/
theorem isLatestRevisionCurrent_secretLoop_error (revision : Int)
    (tracked : List RevisionResource) (changes : List String) (w : World) (text : String)
    (h : (isLatestRevisionCurrent.secretLoop revision tracked changes w).1 = .error text) :
    ∃ name, text = (GoError.notFound "secrets" name).Error := by
  induction tracked generalizing changes w with
  | nil => simp [isLatestRevisionCurrent.secretLoop] at h
  | cons s rest ih =>
    rw [isLatestRevisionCurrent_secretLoop_cons] at h
    split at h
    · simp only [Except.error.injEq] at h
      exact ⟨_, h.symm⟩
    · split at h
      · simp only [Except.error.injEq] at h
        exact ⟨_, h.symm⟩
      · exact ih _ _ h

/-- When a non-optional tracked resource has no source or no snapshot at the revision,
`isLatestRevisionCurrent` returns false with the text of a not-found error as the reason. -/
theorem isLatestRevisionCurrent_missing (c : RevisionController) (revision : Int) (w : World)
    (h : (∃ cm ∈ c.configMaps, cm.Optional = false ∧
        (findConfigMap cm.Name w.configMaps = none ∨
          findConfigMap (nameFor cm.Name revision) w.configMaps = none)) ∨
      (∃ s ∈ c.secrets, s.Optional = false ∧
        (findSecret s.Name w.secrets = none ∨
          findSecret (nameFor s.Name revision) w.secrets = none))) :
    ∃ resource name, (isLatestRevisionCurrent c revision w).1 =
      (false, (GoError.notFound resource name).Error) := by
  unfold isLatestRevisionCurrent
  obtain ⟨l1, hf1, _⟩ := isLatestRevisionCurrent_configMapLoop_frame revision c.configMaps [] w
  rcases hr : isLatestRevisionCurrent.configMapLoop revision c.configMaps [] w with ⟨r, w1⟩
  rw [hr] at hf1
  simp only at hf1
  cases r with
  | error text =>
    obtain ⟨name, hn⟩ := isLatestRevisionCurrent_configMapLoop_error revision c.configMaps []
      w text (by rw [hr])
    exact ⟨"configmaps", name, by simp [hn]⟩
  | ok configChanges =>
    rcases h with hc | hs
    · obtain ⟨name, hn⟩ :=
        isLatestRevisionCurrent_configMapLoop_missing revision c.configMaps [] w hc
      rw [hr] at hn
      simp at hn
    · have hs1 : ∃ s ∈ c.secrets, s.Optional = false ∧
          (findSecret s.Name w1.secrets = none ∨
            findSecret (nameFor s.Name revision) w1.secrets = none) := by
        rw [hf1]; exact hs
      obtain ⟨name, hn⟩ :=
        isLatestRevisionCurrent_secretLoop_missing revision c.secrets [] w1 hs1
      simp only
      rcases hr2 : isLatestRevisionCurrent.secretLoop revision c.secrets [] w1 with ⟨r2, w2⟩
      rw [hr2] at hn
      simp only at hn
      subst hn
      exact ⟨"secrets", name, rfl⟩

/-- C4, as stated, fails. In the example of the specification the non-optional `config` has no
snapshot at revision 0: `sync` returns no error and goes on to create revision 1, the status
marker and the snapshot `config-1`, and advances the status to 1. With no source for `config`
either, `sync` still goes on to revision 1: it applies the status marker `revision-status-1`. -/
theorem sync_missing_required_creates_revision :
    findConfigMap (nameFor "config" 0) exampleWorld.configMaps = none ∧
    (sync configController Faults.none exampleWorld).1 = none ∧
    (sync configController Faults.none exampleWorld).2.latestAvailableRevision = 1 ∧
    (findConfigMap "revision-status-1"
      (sync configController Faults.none exampleWorld).2.configMaps).isSome = true ∧
    (findConfigMap "config-1"
      (sync configController Faults.none exampleWorld).2.configMaps).isSome = true ∧
    findConfigMap "config" emptyWorld.configMaps = none ∧
    (findConfigMap "revision-status-1"
      (sync configController Faults.none emptyWorld).2.configMaps).isSome = true := by
  refine ⟨by decide, by decide, by decide, by decide, by decide, by decide, by decide⟩

/-- C4, amended: when a non-optional tracked resource has no source, or no snapshot at
`latestAvailableRevision`, `isLatestRevisionCurrent` stops comparing and returns false with
the text of a not-found error as the reason, and `createRevisionIfNeeded` treats this like
drift: after the reads of the comparison its next calls are the event for revision
`latestAvailableRevision + 1` and the write of the status marker of that revision, with that
reason. -/
theorem createRevisionIfNeeded_missing_required (c : RevisionController) (f : Faults) (N : Int)
    (resourceVersion : String) (w : World)
    (h : (∃ cm ∈ c.configMaps, cm.Optional = false ∧
        (findConfigMap cm.Name w.configMaps = none ∨
          findConfigMap (nameFor cm.Name N) w.configMaps = none)) ∨
      (∃ s ∈ c.secrets, s.Optional = false ∧
        (findSecret s.Name w.secrets = none ∨
          findSecret (nameFor s.Name N) w.secrets = none))) :
    ∃ resource name, (isLatestRevisionCurrent c N w).1 =
        (false, (GoError.notFound resource name).Error) ∧
      ∃ reads rest, (∀ x ∈ reads, x.isGet = true) ∧
        (createRevisionIfNeeded c f N resourceVersion w).2.log =
          w.log ++ reads ++
            [Call.eventf "RevisionTriggered" "new revision %d triggered by %q"
              [formatInt (wrapInt32 (N + 1)), (GoError.notFound resource name).Error],
             Call.applyConfigMap
              (statusConfigMap (wrapInt32 (N + 1)) (GoError.notFound resource name).Error)] ++
            rest := by
  obtain ⟨resource, name, hres⟩ := isLatestRevisionCurrent_missing c N w h
  refine ⟨resource, name, hres, ?_⟩
  have hfalse : (isLatestRevisionCurrent c N w).1.1 = false := by rw [hres]
  have hreason : (isLatestRevisionCurrent c N w).1.2 = (GoError.notFound resource name).Error := by
    rw [hres]
  obtain ⟨l1, hf1, hg1⟩ := isLatestRevisionCurrent_frame c N w
  rw [createRevisionIfNeeded_of_not_current c f N resourceVersion w hfalse, hreason]
  generalize hw1 : (isLatestRevisionCurrent c N w).2 = w1 at hf1
  obtain ⟨_, l3, hl3, _⟩ := createNewRevision_frame c f (wrapInt32 (N + 1))
    (GoError.notFound resource name).Error
    (Eventf "RevisionTriggered" "new revision %d triggered by %q"
      [formatInt (wrapInt32 (N + 1)), (GoError.notFound resource name).Error] w1)
  rcases hr : createNewRevision c f (wrapInt32 (N + 1)) (GoError.notFound resource name).Error
    (Eventf "RevisionTriggered" "new revision %d triggered by %q"
      [formatInt (wrapInt32 (N + 1)), (GoError.notFound resource name).Error] w1)
    with ⟨r, w3⟩
  rw [hr] at hl3
  have hlog3 : w3.log = w.log ++ l1 ++
      [Call.eventf "RevisionTriggered" "new revision %d triggered by %q"
        [formatInt (wrapInt32 (N + 1)), (GoError.notFound resource name).Error],
       Call.applyConfigMap
        (statusConfigMap (wrapInt32 (N + 1)) (GoError.notFound resource name).Error)] ++
      l3 := by
    rw [hl3]; subst hf1; simp [Eventf]
  suffices htail : ∃ tail,
      (match ((r, w3) : Option GoError × World) with
        | (some err, w3) =>
          match UpdateStatus f
              [{ condType := "RevisionControllerDegraded", Status := "True",
                 Reason := "ContentCreationError", Message := err.Error }] w3 with
          | ((_, some updateError), w4) =>
            ((true, some updateError),
              Warningf "RevisionCreateFailed" "Failed to create revision %d: %v"
                [formatInt (wrapInt32 (N + 1)), err.Error] w4)
          | ((_, none), w4) => ((true, none), w4)
        | (none, w3) =>
          match UpdateLatestRevisionOperatorStatus f (wrapInt32 (N + 1))
              [degradedFalse] w3 with
          | ((_, some updateError), w4) => ((true, some updateError), w4)
          | ((updated, none), w4) =>
            if updated then
              ((false, none),
                Eventf "RevisionCreate" "Revision %d created because %s"
                  [formatInt N, (GoError.notFound resource name).Error] w4)
            else ((false, none), w4)).2.log = w3.log ++ tail by
    obtain ⟨tail, ht⟩ := htail
    exact ⟨l1, l3 ++ tail, hg1, by rw [ht, hlog3]; simp⟩
  cases r with
  | some err =>
    simp only [UpdateStatus]
    cases f.updateStatus with
    | some e => exact ⟨_, List.append_assoc _ _ _⟩
    | none => exact ⟨[_], rfl⟩
  | none =>
    simp only [UpdateLatestRevisionOperatorStatus]
    cases f.updateLatestRevisionOperatorStatus with
    | some e => exact ⟨[_], rfl⟩
    | none =>
      simp only
      split
      · exact ⟨_, List.append_assoc _ _ _⟩
      · exact ⟨[_], rfl⟩

/-- C4, amended, at the example of the specification, where the snapshot `config-0` is
absent. -/
theorem createRevisionIfNeeded_missing_required_witness :
    ∃ resource name, (isLatestRevisionCurrent configController 0 exampleWorld).1 =
        (false, (GoError.notFound resource name).Error) ∧
      ∃ reads rest, (∀ x ∈ reads, x.isGet = true) ∧
        (createRevisionIfNeeded configController Faults.none 0 "1" exampleWorld).2.log =
          exampleWorld.log ++ reads ++
            [Call.eventf "RevisionTriggered" "new revision %d triggered by %q"
              [formatInt (wrapInt32 (0 + 1)), (GoError.notFound resource name).Error],
             Call.applyConfigMap
              (statusConfigMap (wrapInt32 (0 + 1)) (GoError.notFound resource name).Error)] ++
            rest :=
  createRevisionIfNeeded_missing_required configController Faults.none 0 "1" exampleWorld
    (Or.inl ⟨{ Name := "config", Optional := false }, List.mem_singleton.mpr rfl, rfl,
      Or.inr (by decide)⟩)

/-! ## The snapshots of a created revision -/

/-- When no tracked configmap is named like a snapshot of the revision and the configmap loop of
`createNewRevision` ends without error: the configmaps under other names than the snapshots
are as before, every non-optional tracked configmap had a source, and every tracked configmap
with a source has its snapshot, with the data of the source. -/
theorem createNewRevision_configMapLoop_snapshots (f : Faults) (revision : Int)
    (ownerRefs : List String) (tracked : List RevisionResource) (w : World)
    (hap : snapshotNamesApart tracked revision)
    (hok : (createNewRevision.configMapLoop f revision ownerRefs tracked w).1 = none) :
    (∀ n, (∀ b ∈ tracked, n ≠ nameFor b.Name revision) →
      findConfigMap n
        (createNewRevision.configMapLoop f revision ownerRefs tracked w).2.configMaps =
        findConfigMap n w.configMaps) ∧
    (∀ b ∈ tracked, b.Optional = false →
      (findConfigMap b.Name w.configMaps).isSome = true) ∧
    (∀ b ∈ tracked, ∀ src, findConfigMap b.Name w.configMaps = some src →
      findConfigMap (nameFor b.Name revision)
        (createNewRevision.configMapLoop f revision ownerRefs tracked w).2.configMaps =
        some { Name := nameFor b.Name revision, Data := src.Data,
               OwnerReferences := ownerRefs }) := by
  induction tracked generalizing w with
  | nil =>
    refine ⟨fun _ _ => rfl, ?_, ?_⟩
    · intro b hb; cases hb
    · intro b hb; cases hb
  | cons cm rest ih =>
    have hrest : snapshotNamesApart rest revision :=
      fun a ha b hb => hap a (List.mem_cons_of_mem _ ha) b (List.mem_cons_of_mem _ hb)
    rw [createNewRevision_configMapLoop_cons] at hok ⊢
    rcases h1 : findConfigMap cm.Name w.configMaps with _ | source
    · rw [h1] at hok
      rcases h3 : cm.Optional with _ | _
      · simp [h3] at hok
      · simp only [h3, if_true] at hok ⊢
        obtain ⟨hA, hB, hC⟩ := ih _ hrest hok
        refine ⟨fun n hn => ?_, fun b hb ho => ?_, fun b hb src hsrc => ?_⟩
        · simpa using hA n (fun b hb => hn b (List.mem_cons_of_mem _ hb))
        · rcases List.mem_cons.mp hb with rfl | hb
          · rw [h3] at ho; cases ho
          · simpa using hB b hb ho
        · rcases List.mem_cons.mp hb with rfl | hb
          · rw [h1] at hsrc; cases hsrc
          · exact hC b hb src (by simpa using hsrc)
    · rw [h1] at hok
      rcases h2 : f.writeConfigMap (nameFor cm.Name revision) with _ | err
      · simp only [h2] at hok ⊢
        obtain ⟨hA, hB, hC⟩ := ih _ hrest hok
        have hkeep : ∀ b ∈ cm :: rest,
            findConfigMap b.Name
              (((w.record (.syncConfigMap cm.Name (nameFor cm.Name revision))).record
                (.applyConfigMap { Name := nameFor cm.Name revision, Data := source.Data,
                                   OwnerReferences := ownerRefs })).putConfigMap
                { Name := nameFor cm.Name revision, Data := source.Data,
                  OwnerReferences := ownerRefs }).configMaps =
              findConfigMap b.Name w.configMaps := by
          intro b hb
          have hne : ¬ nameFor cm.Name revision = b.Name :=
            fun e => hap b hb cm (List.mem_cons_self _ _) e.symm
          simp [findConfigMap_upsert, hne]
        refine ⟨fun n hn => ?_, fun b hb ho => ?_, fun b hb src hsrc => ?_⟩
        · rw [hA n (fun b hb => hn b (List.mem_cons_of_mem _ hb))]
          have hne : ¬ nameFor cm.Name revision = n :=
            fun e => hn cm (List.mem_cons_self _ _) e.symm
          simp [findConfigMap_upsert, hne]
        · rcases List.mem_cons.mp hb with rfl | hb'
          · simp [h1]
          · rw [← hkeep b hb]; exact hB b hb' ho
        · by_cases hin : ∃ b2 ∈ rest, nameFor b2.Name revision = nameFor b.Name revision
          · obtain ⟨b2, hb2, he⟩ := hin
            have hname : b2.Name = b.Name := nameFor_left_inj _ _ _ he
            have := hC b2 hb2 src (by
              rw [hkeep b2 (List.mem_cons_of_mem _ hb2), hname]; exact hsrc)
            rw [hname] at this
            exact this
          · have hb0 : b = cm := by
              rcases List.mem_cons.mp hb with rfl | hb'
              · rfl
              · exact absurd ⟨b, hb', rfl⟩ hin
            subst hb0
            rw [h1] at hsrc
            cases hsrc
            rw [hA (nameFor b.Name revision)
              (fun b2 hb2 e => hin ⟨b2, hb2, e.symm⟩)]
            simp [findConfigMap_upsert]
      · simp [h2] at hok

/-- When no tracked secret is named like a snapshot of the revision and the secret loop of
`createNewRevision` ends without error: the secrets under other names than the snapshots
are as before, every non-optional tracked secret had a source, and every tracked secret
with a source has its snapshot, with the data of the source. -/
theorem createNewRevision_secretLoop_snapshots (f : Faults) (revision : Int)
    (ownerRefs : List String) (tracked : List RevisionResource) (w : World)
    (hap : snapshotNamesApart tracked revision)
    (hok : (createNewRevision.secretLoop f revision ownerRefs tracked w).1 = none) :
    (∀ n, (∀ b ∈ tracked, n ≠ nameFor b.Name revision) →
      findSecret n
        (createNewRevision.secretLoop f revision ownerRefs tracked w).2.secrets =
        findSecret n w.secrets) ∧
    (∀ b ∈ tracked, b.Optional = false →
      (findSecret b.Name w.secrets).isSome = true) ∧
    (∀ b ∈ tracked, ∀ src, findSecret b.Name w.secrets = some src →
      findSecret (nameFor b.Name revision)
        (createNewRevision.secretLoop f revision ownerRefs tracked w).2.secrets =
        some { Name := nameFor b.Name revision, Data := src.Data,
               OwnerReferences := ownerRefs }) := by
  induction tracked generalizing w with
  | nil =>
    refine ⟨fun _ _ => rfl, ?_, ?_⟩
    · intro b hb; cases hb
    · intro b hb; cases hb
  | cons cm rest ih =>
    have hrest : snapshotNamesApart rest revision :=
      fun a ha b hb => hap a (List.mem_cons_of_mem _ ha) b (List.mem_cons_of_mem _ hb)
    rw [createNewRevision_secretLoop_cons] at hok ⊢
    rcases h1 : findSecret cm.Name w.secrets with _ | source
    · rw [h1] at hok
      rcases h3 : cm.Optional with _ | _
      · simp [h3] at hok
      · simp only [h3, if_true] at hok ⊢
        obtain ⟨hA, hB, hC⟩ := ih _ hrest hok
        refine ⟨fun n hn => ?_, fun b hb ho => ?_, fun b hb src hsrc => ?_⟩
        · simpa using hA n (fun b hb => hn b (List.mem_cons_of_mem _ hb))
        · rcases List.mem_cons.mp hb with rfl | hb
          · rw [h3] at ho; cases ho
          · simpa using hB b hb ho
        · rcases List.mem_cons.mp hb with rfl | hb
          · rw [h1] at hsrc; cases hsrc
          · exact hC b hb src (by simpa using hsrc)
    · rw [h1] at hok
      rcases h2 : f.writeSecret (nameFor cm.Name revision) with _ | err
      · simp only [h2] at hok ⊢
        obtain ⟨hA, hB, hC⟩ := ih _ hrest hok
        have hkeep : ∀ b ∈ cm :: rest,
            findSecret b.Name
              (((w.record (.syncSecret cm.Name (nameFor cm.Name revision))).record
                (.applySecret { Name := nameFor cm.Name revision, Data := source.Data,
                                   OwnerReferences := ownerRefs })).putSecret
                { Name := nameFor cm.Name revision, Data := source.Data,
                  OwnerReferences := ownerRefs }).secrets =
              findSecret b.Name w.secrets := by
          intro b hb
          have hne : ¬ nameFor cm.Name revision = b.Name :=
            fun e => hap b hb cm (List.mem_cons_self _ _) e.symm
          simp [findSecret_upsert, hne]
        refine ⟨fun n hn => ?_, fun b hb ho => ?_, fun b hb src hsrc => ?_⟩
        · rw [hA n (fun b hb => hn b (List.mem_cons_of_mem _ hb))]
          have hne : ¬ nameFor cm.Name revision = n :=
            fun e => hn cm (List.mem_cons_self _ _) e.symm
          simp [findSecret_upsert, hne]
        · rcases List.mem_cons.mp hb with rfl | hb'
          · simp [h1]
          · rw [← hkeep b hb]; exact hB b hb' ho
        · by_cases hin : ∃ b2 ∈ rest, nameFor b2.Name revision = nameFor b.Name revision
          · obtain ⟨b2, hb2, he⟩ := hin
            have hname : b2.Name = b.Name := nameFor_left_inj _ _ _ he
            have := hC b2 hb2 src (by
              rw [hkeep b2 (List.mem_cons_of_mem _ hb2), hname]; exact hsrc)
            rw [hname] at this
            exact this
          · have hb0 : b = cm := by
              rcases List.mem_cons.mp hb with rfl | hb'
              · rfl
              · exact absurd ⟨b, hb', rfl⟩ hin
            subst hb0
            rw [h1] at hsrc
            cases hsrc
            rw [hA (nameFor b.Name revision)
              (fun b2 hb2 e => hin ⟨b2, hb2, e.symm⟩)]
            simp [findSecret_upsert]
      · simp [h2] at hok

/-- When no tracked resource is named like a snapshot of the revision and `createNewRevision`
returns no error, every non-optional tracked configmap and secret has a source and a snapshot
at the revision with the data of the source, owned by the status marker. -/
theorem createNewRevision_snapshots (c : RevisionController) (f : Faults) (revision : Int)
    (reason : String) (w : World) (hac : snapshotNamesApart c.configMaps revision)
    (has : snapshotNamesApart c.secrets revision)
    (hok : (createNewRevision c f revision reason w).1 = none) :
    (∀ cm ∈ c.configMaps, cm.Optional = false →
      ∃ src, findConfigMap cm.Name (createNewRevision c f revision reason w).2.configMaps =
          some src ∧
        findConfigMap (nameFor cm.Name revision)
          (createNewRevision c f revision reason w).2.configMaps =
          some { Name := nameFor cm.Name revision, Data := src.Data,
                 OwnerReferences := [nameFor "revision-status" revision] }) ∧
    (∀ s ∈ c.secrets, s.Optional = false →
      ∃ src, findSecret s.Name (createNewRevision c f revision reason w).2.secrets =
          some src ∧
        findSecret (nameFor s.Name revision)
          (createNewRevision c f revision reason w).2.secrets =
          some { Name := nameFor s.Name revision, Data := src.Data,
                 OwnerReferences := [nameFor "revision-status" revision] }) := by
  rcases hm : f.writeConfigMap (nameFor "revision-status" revision) with _ | err
  · rw [createNewRevision_of_marker_ok c f revision reason w hm] at hok ⊢
    rcases hr : createNewRevision.configMapLoop f revision
      [nameFor "revision-status" revision] c.configMaps
      ((w.record (.applyConfigMap (statusConfigMap revision reason))).putConfigMap
        (statusConfigMap revision reason)) with ⟨r, w2⟩
    rw [hr] at hok
    cases r with
    | some err => simp at hok
    | none =>
      simp only at hok ⊢
      obtain ⟨hA, hB, hC⟩ := createNewRevision_configMapLoop_snapshots f revision
        [nameFor "revision-status" revision] c.configMaps _ hac (by rw [hr])
      rw [hr] at hA hC
      simp only at hA hC
      obtain ⟨hA2, hB2, hC2⟩ := createNewRevision_secretLoop_snapshots f revision
        [nameFor "revision-status" revision] c.secrets w2 has hok
      obtain ⟨hcms, _, _⟩ := createNewRevision_secretLoop_frame f revision
        [nameFor "revision-status" revision] c.secrets w2
      constructor
      · intro cm hcm hopt
        have hsome := hB cm hcm hopt
        obtain ⟨src, hsrc⟩ := Option.isSome_iff_exists.mp hsome
        refine ⟨src, ?_, ?_⟩
        · rw [hcms, hA cm.Name (fun b hb => hac cm hcm b hb)]
          exact hsrc
        · rw [hcms]
          exact hC cm hcm src hsrc
      · intro s hs hopt
        have hsome := hB2 s hs hopt
        obtain ⟨src, hsrc⟩ := Option.isSome_iff_exists.mp hsome
        refine ⟨src, ?_, ?_⟩
        · rw [hA2 s.Name (fun b hb => has s hs b hb)]
          exact hsrc
        · exact hC2 s hs src hsrc
  · have h2 : f.writeConfigMap (statusConfigMap revision reason).Name = some err := hm
    simp [createNewRevision, ApplyConfigMap, h2] at hok

/-- C3, as stated, fails. The controller tracks `a-1` and then `a`, both non-optional, and both
have a source. `createRevisionIfNeeded` at revision 0 writes `latestAvailableRevision = 1` to
the status, and at that moment the snapshot `a-1-1` of `a-1` holds the old data of `a-1`,
while the source `a-1` holds the data of `a`: the snapshot of `a` has overwritten it. -/
theorem createRevisionIfNeeded_overlapping_names :
    Call.updateLatestRevisionOperatorStatus 1 [degradedFalse] ∈
      (createRevisionIfNeeded overlapFirstController Faults.none 0 "1" overlapWorld).2.log ∧
    (createRevisionIfNeeded overlapFirstController Faults.none 0 "1"
      overlapWorld).2.latestAvailableRevision = 1 ∧
    configMapData "a-1"
      (createRevisionIfNeeded overlapFirstController Faults.none 0 "1" overlapWorld).2 =
      [("k", "va")] ∧
    configMapData (nameFor "a-1" 1)
      (createRevisionIfNeeded overlapFirstController Faults.none 0 "1" overlapWorld).2 =
      [("k", "old")] := by
  refine ⟨by decide, by decide, by decide, by decide⟩

/-- C3, amended: when no tracked resource is named like a snapshot of the next revision of a
tracked resource of its kind, whenever `createRevisionIfNeeded` calls the update of
`latestAvailableRevision` to `R`, `R` is the next revision, `createNewRevision` for `R` has
returned without error, and in the namespace it leaves every non-optional tracked configmap
and secret has a source and a snapshot named `nameFor(name, R)` whose data equals the data of
the source. -/
theorem createRevisionIfNeeded_status_after_snapshots (c : RevisionController) (f : Faults)
    (N : Int) (resourceVersion : String) (w : World) (R : Int)
    (conds : List OperatorCondition) (l : List Call)
    (hac : snapshotNamesApart c.configMaps (wrapInt32 (N + 1)))
    (has : snapshotNamesApart c.secrets (wrapInt32 (N + 1)))
    (hlog : (createRevisionIfNeeded c f N resourceVersion w).2.log = w.log ++ l)
    (hcall : Call.updateLatestRevisionOperatorStatus R conds ∈ l) :
    R = wrapInt32 (N + 1) ∧
    (createNewRevision c f (wrapInt32 (N + 1)) (isLatestRevisionCurrent c N w).1.2
      (Eventf "RevisionTriggered" "new revision %d triggered by %q"
        [formatInt (wrapInt32 (N + 1)), (isLatestRevisionCurrent c N w).1.2]
        (isLatestRevisionCurrent c N w).2)).1 = none ∧
    (∀ cm ∈ c.configMaps, cm.Optional = false →
      ∃ src snap,
        findConfigMap cm.Name (createRevisionIfNeeded c f N resourceVersion w).2.configMaps =
          some src ∧
        findConfigMap (nameFor cm.Name R)
          (createRevisionIfNeeded c f N resourceVersion w).2.configMaps = some snap ∧
        snap.Data = src.Data) ∧
    (∀ s ∈ c.secrets, s.Optional = false →
      ∃ src snap,
        findSecret s.Name (createRevisionIfNeeded c f N resourceVersion w).2.secrets =
          some src ∧
        findSecret (nameFor s.Name R)
          (createRevisionIfNeeded c f N resourceVersion w).2.secrets = some snap ∧
        snap.Data = src.Data) := by
  obtain ⟨l1, hf1, hg1⟩ := isLatestRevisionCurrent_frame c N w
  by_cases hcur : (isLatestRevisionCurrent c N w).1.1 = true
  · exfalso
    rw [createRevisionIfNeeded_of_current c f N resourceVersion w hcur] at hlog
    simp only [hf1] at hlog
    have := hg1 _ ((List.append_cancel_left hlog) ▸ hcall)
    simp [Call.isGet] at this
  · have hfalse : (isLatestRevisionCurrent c N w).1.1 = false := by simpa using hcur
    rw [createRevisionIfNeeded_of_not_current c f N resourceVersion w hfalse] at hlog ⊢
    generalize (isLatestRevisionCurrent c N w).1.2 = reason at hlog ⊢
    generalize hw1 : (isLatestRevisionCurrent c N w).2 = w1 at hf1 hlog ⊢
    obtain ⟨_, l3, hl3, hs3⟩ := createNewRevision_frame c f (wrapInt32 (N + 1)) reason
      (Eventf "RevisionTriggered" "new revision %d triggered by %q"
        [formatInt (wrapInt32 (N + 1)), reason] w1)
    have hsnap := createNewRevision_snapshots c f (wrapInt32 (N + 1)) reason
      (Eventf "RevisionTriggered" "new revision %d triggered by %q"
        [formatInt (wrapInt32 (N + 1)), reason] w1) hac has
    rcases hr : createNewRevision c f (wrapInt32 (N + 1)) reason
      (Eventf "RevisionTriggered" "new revision %d triggered by %q"
        [formatInt (wrapInt32 (N + 1)), reason] w1) with ⟨r, w3⟩
    rw [hr] at hl3 hsnap hlog
    obtain ⟨pre, hlog3, hpre⟩ : ∃ pre, w3.log = w.log ++ pre ∧
        ∀ x ∈ pre, x ≠ Call.updateLatestRevisionOperatorStatus R conds := by
      refine ⟨l1 ++
        [Call.eventf "RevisionTriggered" "new revision %d triggered by %q"
          [formatInt (wrapInt32 (N + 1)), reason]] ++
        (Call.applyConfigMap (statusConfigMap (wrapInt32 (N + 1)) reason) :: l3), ?_, ?_⟩
      · rw [hl3]; subst hf1; simp [Eventf]
      · intro x hx e
        subst e
        simp only [List.mem_append, List.mem_cons, List.mem_singleton, List.not_mem_nil,
          or_false] at hx
        rcases hx with (hx | hx) | hx | hx
        · have := hg1 _ hx
          simp [Call.isGet] at this
        · cases hx
        · cases hx
        · have := hs3 _ hx
          simp [Call.isStoreWrite] at this
    have key : ∀ tail, w.log ++ l = w3.log ++ tail →
        Call.updateLatestRevisionOperatorStatus R conds ∈ tail := by
      intro tail h
      rw [hlog3, List.append_assoc] at h
      have hl := List.append_cancel_left h
      rw [hl] at hcall
      rcases List.mem_append.mp hcall with hx | hx
      · exact absurd rfl (hpre _ hx)
      · exact hx
    cases r with
    | some err =>
      exfalso
      simp only [UpdateStatus] at hlog
      cases hu : f.updateStatus with
      | some e =>
        simp only [hu] at hlog
        have := key _ (by rw [← hlog]; exact List.append_assoc _ _ _)
        simp at this
      | none =>
        simp only [hu] at hlog
        have := key [_] (by rw [← hlog]; rfl)
        simp at this
    | none =>
      obtain ⟨hsc, hss⟩ := hsnap rfl
      simp only at hsc hss
      simp only [UpdateLatestRevisionOperatorStatus] at hlog ⊢
      cases hu : f.updateLatestRevisionOperatorStatus with
      | some e =>
        simp only [hu] at hlog ⊢
        have hmem := key [_] (by rw [← hlog]; rfl)
        simp only [List.mem_singleton, Call.updateLatestRevisionOperatorStatus.injEq] at hmem
        obtain ⟨hR, _⟩ := hmem
        subst hR
        refine ⟨rfl, trivial, ?_, ?_⟩
        · intro cm hcm hopt
          obtain ⟨src, h1, h2⟩ := hsc cm hcm hopt
          exact ⟨src, _, h1, h2, rfl⟩
        · intro s hs hopt
          obtain ⟨src, h1, h2⟩ := hss s hs hopt
          exact ⟨src, _, h1, h2, rfl⟩
      | none =>
        simp only [hu] at hlog ⊢
        split at hlog
        · rename_i hupd
          simp only [hupd, if_true] at hlog ⊢
          have hmem := key _ (by rw [← hlog]; exact List.append_assoc _ _ _)
          simp only [List.mem_append, List.mem_singleton,
            Call.updateLatestRevisionOperatorStatus.injEq] at hmem
          rcases hmem with ⟨hR, _⟩ | hx
          · subst hR
            refine ⟨rfl, trivial, ?_, ?_⟩
            · intro cm hcm hopt
              obtain ⟨src, h1, h2⟩ := hsc cm hcm hopt
              exact ⟨src, _, h1, h2, rfl⟩
            · intro s hs hopt
              obtain ⟨src, h1, h2⟩ := hss s hs hopt
              exact ⟨src, _, h1, h2, rfl⟩
          · cases hx
        · rename_i hupd
          simp only [hupd] at hlog ⊢
          have hmem := key [_] (by rw [← hlog]; rfl)
          simp only [List.mem_singleton, Call.updateLatestRevisionOperatorStatus.injEq] at hmem
          obtain ⟨hR, _⟩ := hmem
          subst hR
          refine ⟨rfl, trivial, ?_, ?_⟩
          · intro cm hcm hopt
            obtain ⟨src, h1, h2⟩ := hsc cm hcm hopt
            exact ⟨src, _, h1, h2, rfl⟩
          · intro s hs hopt
            obtain ⟨src, h1, h2⟩ := hss s hs hopt
            exact ⟨src, _, h1, h2, rfl⟩

/-- C3, amended, at the example of the specification. -/
theorem createRevisionIfNeeded_status_after_snapshots_witness :
    (1 : Int) = wrapInt32 (0 + 1) ∧
    (∀ cm ∈ configController.configMaps, cm.Optional = false →
      ∃ src snap,
        findConfigMap cm.Name
          (createRevisionIfNeeded configController Faults.none 0 "1"
            exampleWorld).2.configMaps = some src ∧
        findConfigMap (nameFor cm.Name 1)
          (createRevisionIfNeeded configController Faults.none 0 "1"
            exampleWorld).2.configMaps = some snap ∧
        snap.Data = src.Data) := by
  have h := createRevisionIfNeeded_status_after_snapshots configController Faults.none 0 "1"
    exampleWorld 1 [degradedFalse]
    (createRevisionIfNeeded configController Faults.none 0 "1" exampleWorld).2.log
    (by decide) (by decide) rfl (by decide)
  exact ⟨h.1, h.2.2.1⟩

/-! ## Synchronizing without drift -/

/-- The tail of `sync` when the latest revision is current: the reads of the comparison and
the report that the controller is not degraded. -/
theorem sync_createAndReport_of_current (c : RevisionController) (f : Faults)
    (latestAvailableRevision : Int) (resourceVersion : String) (w : World)
    (h : (isLatestRevisionCurrent c latestAvailableRevision w).1.1 = true) :
    sync.createAndReport c f latestAvailableRevision resourceVersion w =
      match UpdateStatus f [degradedFalse]
          (isLatestRevisionCurrent c latestAvailableRevision w).2 with
      | ((_, some updateError), w2) => (some updateError, w2)
      | ((_, none), w2) => (none, w2) := by
  unfold sync.createAndReport
  rw [createRevisionIfNeeded_of_current c f latestAvailableRevision resourceVersion w h]
  simp only [Bool.false_and, Bool.false_eq_true, if_false]
  cases f.updateStatus <;> rfl

/-- A call of `sync` on a managed operator whose latest revision is current, recovery finding
revision 0 when it runs: the result is the result of the condition update, the configmaps,
the secrets and the revision stay, no call writes a configmap or secret, and the one status
write is the update of the degraded condition to False. -/
theorem sync_current (c : RevisionController) (f : Faults) (w : World)
    (hread : f.getLatestRevisionState = none)
    (hmanaged : IsOperatorManaged w.managementState = true)
    (hcur : (isLatestRevisionCurrent c w.latestAvailableRevision w).1.1 = true)
    (hrec : w.latestAvailableRevision = 0 → (getLatestAvailableRevision f w).1 = (0, none)) :
    (sync c f w).1 = f.updateStatus ∧
    (sync c f w).2.configMaps = w.configMaps ∧
    (sync c f w).2.secrets = w.secrets ∧
    (sync c f w).2.latestAvailableRevision = w.latestAvailableRevision ∧
    (sync c f w).2.managementState = w.managementState ∧
    ∃ l, (sync c f w).2.log = w.log ++ l ∧ l.filter Call.isStoreWrite = [] ∧
      l.filter Call.isStatusWrite = [Call.updateStatus [degradedFalse]] := by
  have hstep : ∃ pre, (∀ x ∈ pre, x = Call.getLatestRevisionState ∨ x = Call.listConfigMaps) ∧
      sync c f w = sync.createAndReport c f w.latestAvailableRevision w.resourceVersion
        { w with log := w.log ++ pre } := by
    by_cases hz : w.latestAvailableRevision = 0
    · have h1 := getLatestAvailableRevision_congr f (w.record .getLatestRevisionState) w rfl
      rw [hrec hz] at h1
      have h2 := getLatestAvailableRevision_world f (w.record .getLatestRevisionState)
      refine ⟨[Call.getLatestRevisionState, Call.listConfigMaps], by simp, ?_⟩
      rcases hg : getLatestAvailableRevision f (w.record .getLatestRevisionState)
        with ⟨⟨rev, err⟩, w2⟩
      rw [hg] at h1 h2
      simp only [Prod.mk.injEq] at h1
      obtain ⟨hrev, herr⟩ := h1
      simp only at h2
      subst hrev herr h2
      have hs : sync c f w =
          match getLatestAvailableRevision f (w.record .getLatestRevisionState) with
          | ((_, some err), w2) => (some err, w2)
          | ((latestRevision, none), w2) =>
            if latestRevision ≠ 0 then
              match UpdateLatestRevisionOperatorStatus f latestRevision [] w2 with
              | ((_, some err), w3) => (some err, w3)
              | ((_, none), w3) => (some .syntheticRequeue, w3)
            else sync.createAndReport c f w.latestAvailableRevision w.resourceVersion w2 := by
        simp [sync, GetLatestRevisionState, hread, hmanaged, hz]
      rw [hs, hg]
      simp [World.record]
    · refine ⟨[Call.getLatestRevisionState], by simp, ?_⟩
      simp [sync, GetLatestRevisionState, hread, hmanaged, hz, World.record]
  obtain ⟨pre, hpre, hsync⟩ := hstep
  have hcur2 : (isLatestRevisionCurrent c w.latestAvailableRevision
      { w with log := w.log ++ pre }).1.1 = true := by
    have hc := isLatestRevisionCurrent_congr c w.latestAvailableRevision w
      { w with log := w.log ++ pre } rfl rfl
    rw [← hc]
    exact hcur
  obtain ⟨l1, hf1, hg1⟩ := isLatestRevisionCurrent_frame c w.latestAvailableRevision
    { w with log := w.log ++ pre }
  rw [hsync, sync_createAndReport_of_current c f _ _ _ hcur2, hf1]
  have hfilter1 : (pre ++ l1).filter Call.isStoreWrite = [] := by
    rw [List.filter_append, filter_isStoreWrite_of_isGet l1 hg1, List.append_nil,
      List.filter_eq_nil_iff]
    intro x hx
    rcases hpre x hx with rfl | rfl <;> simp [Call.isStoreWrite]
  have hfilter2 : (pre ++ l1).filter Call.isStatusWrite = [] := by
    rw [List.filter_append, filter_isStatusWrite_of_isGet l1 hg1, List.append_nil,
      List.filter_eq_nil_iff]
    intro x hx
    rcases hpre x hx with rfl | rfl <;> simp [Call.isStatusWrite]
  cases hu : f.updateStatus with
  | some e =>
    simp only [UpdateStatus, hu]
    refine ⟨by first | rfl | trivial, rfl, rfl, rfl, rfl,
      pre ++ l1 ++ [Call.updateStatus [degradedFalse]], ?_, ?_, ?_⟩
    · simp [World.record]
    · rw [List.filter_append, hfilter1]; simp [Call.isStoreWrite]
    · rw [List.filter_append, hfilter2]; simp [Call.isStatusWrite]
  | none =>
    simp only [UpdateStatus, hu]
    refine ⟨by first | rfl | trivial, rfl, rfl, rfl, rfl,
      pre ++ l1 ++ [Call.updateStatus [degradedFalse]], ?_, ?_, ?_⟩
    · simp [World.record]
    · rw [List.filter_append, hfilter1]; simp [Call.isStoreWrite]
    · rw [List.filter_append, hfilter2]; simp [Call.isStatusWrite]

/-- C2: idempotence without drift. On a managed operator whose latest revision is current
(recovery finding revision 0 when `latestAvailableRevision` is 0), `sync` makes no call that
writes a configmap or secret, does not call the update of the latest revision, and its only
status write is the update of the `RevisionControllerDegraded` condition to False, whose
result it returns; the configmaps, the secrets and `latestAvailableRevision` stay as they
were, also after a second `sync`. -/
theorem sync_idempotent_without_drift (c : RevisionController) (f f2 : Faults) (w : World)
    (hread : f.getLatestRevisionState = none) (hread2 : f2.getLatestRevisionState = none)
    (hmanaged : IsOperatorManaged w.managementState = true)
    (hcur : (isLatestRevisionCurrent c w.latestAvailableRevision w).1.1 = true)
    (hrec : w.latestAvailableRevision = 0 → (getLatestAvailableRevision f w).1 = (0, none))
    (hrec2 : w.latestAvailableRevision = 0 →
      (getLatestAvailableRevision f2 w).1 = (0, none)) :
    (sync c f w).1 = f.updateStatus ∧
    (sync c f w).2.configMaps = w.configMaps ∧
    (sync c f w).2.secrets = w.secrets ∧
    (sync c f w).2.latestAvailableRevision = w.latestAvailableRevision ∧
    (∃ l, (sync c f w).2.log = w.log ++ l ∧ l.filter Call.isStoreWrite = [] ∧
      l.filter Call.isStatusWrite = [Call.updateStatus [degradedFalse]]) ∧
    (sync c f2 (sync c f w).2).1 = f2.updateStatus ∧
    (sync c f2 (sync c f w).2).2.configMaps = w.configMaps ∧
    (sync c f2 (sync c f w).2).2.secrets = w.secrets ∧
    (sync c f2 (sync c f w).2).2.latestAvailableRevision = w.latestAvailableRevision ∧
    (∃ l, (sync c f2 (sync c f w).2).2.log = (sync c f w).2.log ++ l ∧
      l.filter Call.isStoreWrite = [] ∧
      l.filter Call.isStatusWrite = [Call.updateStatus [degradedFalse]]) := by
  obtain ⟨h1, hc, hs, hrev, hm, hl⟩ := sync_current c f w hread hmanaged hcur hrec
  have hcur' : (isLatestRevisionCurrent c (sync c f w).2.latestAvailableRevision
      (sync c f w).2).1.1 = true := by
    rw [hrev, isLatestRevisionCurrent_congr c w.latestAvailableRevision (sync c f w).2 w hc hs]
    exact hcur
  have hrec' : (sync c f w).2.latestAvailableRevision = 0 →
      (getLatestAvailableRevision f2 (sync c f w).2).1 = (0, none) := by
    intro hz
    rw [getLatestAvailableRevision_congr f2 (sync c f w).2 w hc]
    exact hrec2 (hrev ▸ hz)
  obtain ⟨h1', hc', hs', hrev', _, hl'⟩ :=
    sync_current c f2 (sync c f w).2 hread2 (by rw [hm]; exact hmanaged) hcur' hrec'
  exact ⟨h1, hc, hs, hrev, hl, h1', hc'.trans hc, hs'.trans hs, hrev'.trans hrev, hl'⟩

/-- C2 at the example of the specification after its first synchronization. -/
theorem sync_idempotent_without_drift_witness :
    (sync configController Faults.none settledWorld).1 = none ∧
    (sync configController Faults.none settledWorld).2.configMaps = settledWorld.configMaps ∧
    (sync configController Faults.none settledWorld).2.latestAvailableRevision = 1 ∧
    (sync configController Faults.none
      (sync configController Faults.none settledWorld).2).2.configMaps =
      settledWorld.configMaps ∧
    (sync configController Faults.none
      (sync configController Faults.none settledWorld).2).2.latestAvailableRevision = 1 := by
  have h := sync_idempotent_without_drift configController Faults.none Faults.none settledWorld
    rfl rfl rfl (by decide) (fun hz => absurd hz (by decide)) (fun hz => absurd hz (by decide))
  exact ⟨h.1, h.2.1, h.2.2.2.1, h.2.2.2.2.2.2.1, h.2.2.2.2.2.2.2.2.1⟩

/-! ## Decimal rendering -/

theorem digitChar_isDigit (k : Nat) (h : k < 10) :
    (Nat.digitChar k).isDigit = true ∧ (Nat.digitChar k).toNat - 48 = k := by
  interval_cases k <;> exact ⟨by decide, by decide⟩

theorem toDigitsCore_spec (fuel n : Nat) (h : n < fuel) (ds : List Char) :
    ∃ pre, Nat.toDigitsCore 10 fuel n ds = pre ++ ds ∧ pre ≠ [] ∧
      (∀ c ∈ pre, c.isDigit = true) ∧ decimalValue pre = n := by
  induction fuel generalizing n ds with
  | zero => omega
  | succ fuel ih =>
    unfold Nat.toDigitsCore
    obtain ⟨hd, hv⟩ := digitChar_isDigit (n % 10) (Nat.mod_lt _ (by decide))
    by_cases h0 : n / 10 = 0
    · simp only [h0, if_true]
      refine ⟨[Nat.digitChar (n % 10)], rfl, by simp, by simpa using hd, ?_⟩
      simp only [decimalValue, List.foldl_cons, List.foldl_nil, hv]
      omega
    · simp only [h0, if_false]
      obtain ⟨pre, hpre, hne, hdig, hval⟩ := ih (n / 10) (by omega) (Nat.digitChar (n % 10) :: ds)
      refine ⟨pre ++ [Nat.digitChar (n % 10)], by rw [hpre]; simp, by simp, ?_, ?_⟩
      · intro c hc
        rcases List.mem_append.mp hc with hc | hc
        · exact hdig c hc
        · simp only [List.mem_singleton] at hc; subst hc; exact hd
      · unfold decimalValue at hval ⊢
        rw [List.foldl_append, hval]
        simp only [List.foldl_cons, List.foldl_nil, hv]
        omega

theorem toDigits_spec (n : Nat) :
    Nat.toDigits 10 n ≠ [] ∧ (∀ c ∈ Nat.toDigits 10 n, c.isDigit = true) ∧
      decimalValue (Nat.toDigits 10 n) = n := by
  obtain ⟨pre, hpre, hne, hdig, hval⟩ := toDigitsCore_spec (n + 1) n (by omega) []
  unfold Nat.toDigits
  rw [hpre, List.append_nil]
  exact ⟨hne, hdig, hval⟩

theorem isDigit_ne_sign (c : Char) (h : c.isDigit = true) : c ≠ '-' ∧ c ≠ '+' := by
  constructor <;> (intro e; subst e; exact absurd h (by decide))

/-- On text made of decimal digits, `strconv.Atoi` computes the value of the digits. -/
theorem atoi_digits (ds : List Char) (hne : ds ≠ []) (hdig : ∀ c ∈ ds, c.isDigit = true)
    (hr : (decimalValue ds : Int) ≤ 9223372036854775807) :
    atoi (String.mk ds) = .ok (decimalValue ds : Int) := by
  obtain ⟨c, rest, rfl⟩ := List.exists_cons_of_ne_nil hne
  obtain ⟨hm, hp⟩ := isDigit_ne_sign c (hdig c (List.mem_cons_self _ _))
  have hall : (c :: rest).all Char.isDigit = true := List.all_eq_true.mpr hdig
  have hbody : (match (c :: rest : List Char) with
      | '-' :: r => r
      | '+' :: r => r
      | cs => cs) = c :: rest := by
    split
    · rename_i heq
      simp only [List.cons.injEq] at heq
      exact absurd heq.1 hm
    · rename_i heq
      simp only [List.cons.injEq] at heq
      exact absurd heq.1 hp
    · rfl
  have hhead : ¬ (c :: rest).head? = some '-' := by simpa using hm
  have hnn : ¬ ((decimalValue (c :: rest) : Int) < -9223372036854775808) := by omega
  have hnr : ¬ (9223372036854775807 < (decimalValue (c :: rest) : Int)) := by omega
  have hv : List.foldl (fun acc ch => 10 * acc + (ch.toNat - 48)) 0 (c :: rest) =
      decimalValue (c :: rest) := rfl
  unfold atoi
  simp only [hbody, hv, if_neg hhead]
  rw [if_neg (by simp [hall]), if_neg (by simp [hnn, hnr])]

/-- The function `strconv.Atoi` reads back what `%d` renders, for every 64-bit value. -/
theorem atoi_formatInt (i : Int) (h1 : -9223372036854775808 ≤ i)
    (h2 : i ≤ 9223372036854775807) : atoi (formatInt i) = .ok i := by
  cases i with
  | ofNat n =>
    obtain ⟨hne, hdig, hval⟩ := toDigits_spec n
    have := atoi_digits (Nat.toDigits 10 n) hne hdig (by rw [hval]; exact h2)
    rw [hval] at this
    exact this
  | negSucc n =>
    obtain ⟨hne, hdig, hval⟩ := toDigits_spec (n + 1)
    have hall : (Nat.toDigits 10 (n + 1)).all Char.isDigit = true := List.all_eq_true.mpr hdig
    have hemp : (Nat.toDigits 10 (n + 1)).isEmpty = false := by
      cases h : Nat.toDigits 10 (n + 1) with
      | nil => exact absurd h hne
      | cons _ _ => rfl
    have hbody : (match ('-' :: Nat.toDigits 10 (n + 1) : List Char) with
        | '-' :: r => r
        | '+' :: r => r
        | cs => cs) = Nat.toDigits 10 (n + 1) := rfl
    have hv : List.foldl (fun acc ch => 10 * acc + (ch.toNat - 48)) 0
        (Nat.toDigits 10 (n + 1)) = n + 1 := hval
    have hhead : ('-' :: Nat.toDigits 10 (n + 1)).head? = some '-' := rfl
    have hneg : Int.negSucc n = -(((n + 1 : Nat)) : Int) := rfl
    have hfmt : formatInt (Int.negSucc n) = String.mk ('-' :: Nat.toDigits 10 (n + 1)) := rfl
    rw [hfmt]
    rw [hneg] at h1
    unfold atoi
    simp only [hbody, hv, if_pos hhead]
    rw [if_neg (by simp [hall, hemp]), if_neg (by simp; omega)]
    rfl

theorem isPrefixOf_append_self (a b : List Char) : a.isPrefixOf (a ++ b) = true := by
  induction a with
  | nil => simp [List.isPrefixOf]
  | cons x xs ih => simp [List.isPrefixOf, ih]

theorem formatInt_eq_toString (i : Int) : formatInt i = toString i := by
  cases i <;> rfl

/-- C14: for every base name and revision, `nameFor` is the base name, one hyphen and the
`%d` rendering of the revision, so the result starts with the base name and the hyphen; the
rendering is the decimal one (it is what `toString` prints, and `strconv.Atoi` reads an
`int32` revision back from it). So `nameFor("config", 2)` is `config-2` and
`nameFor("revision-status", 1)` is `revision-status-1`. -/
theorem nameFor_format (base : String) (revision : Int) :
    nameFor base revision = base ++ "-" ++ formatInt revision ∧
    startsWith (nameFor base revision) (base ++ "-") = true ∧
    formatInt revision = toString revision ∧
    (isInt32 revision → atoi (formatInt revision) = .ok revision) ∧
    nameFor "config" 2 = "config-2" ∧
    nameFor "revision-status" 1 = "revision-status-1" := by
  refine ⟨rfl, ?_, formatInt_eq_toString revision, ?_, by decide, by decide⟩
  · unfold startsWith nameFor
    simp only [String.data_append]
    exact isPrefixOf_append_self _ _
  · intro h
    unfold isInt32 at h
    exact atoi_formatInt revision (by omega) (by omega)

/-- C14 at the base name `config` and the largest `int32` revision. -/
theorem nameFor_format_witness :
    nameFor "config" 2147483647 = "config" ++ "-" ++ formatInt 2147483647 ∧
    startsWith (nameFor "config" 2147483647) ("config" ++ "-") = true ∧
    atoi (formatInt 2147483647) = .ok 2147483647 :=
  ⟨(nameFor_format "config" 2147483647).1, (nameFor_format "config" 2147483647).2.1,
    (nameFor_format "config" 2147483647).2.2.2.1 (by decide)⟩

/-- Two lists that agree after a separator absent from both tails agree before and after it. -/
theorem append_separator_inj {α : Type} (a : α) (l1 l2 r1 r2 : List α) (h1 : a ∉ r1)
    (h2 : a ∉ r2) (h : l1 ++ a :: r1 = l2 ++ a :: r2) : l1 = l2 ∧ r1 = r2 := by
  induction l1 generalizing l2 with
  | nil =>
    cases l2 with
    | nil => simpa using h
    | cons y ys =>
      simp only [List.nil_append, List.cons_append, List.cons.injEq] at h
      exact absurd (by rw [h.2]; simp) h1
  | cons x xs ih =>
    cases l2 with
    | nil =>
      simp only [List.nil_append, List.cons_append, List.cons.injEq] at h
      exact absurd (by rw [← h.2]; simp) h2
    | cons y ys =>
      simp only [List.cons_append, List.cons.injEq] at h
      obtain ⟨e1, e2⟩ := ih ys h.2
      exact ⟨by rw [h.1, e1], e2⟩

/-- The rendering of a non-negative revision has no hyphen, and different non-negative
revisions have different renderings. -/
theorem formatInt_nonneg (r : Int) (h : 0 ≤ r) :
    '-' ∉ (formatInt r).data ∧ decimalValue (formatInt r).data = r.toNat := by
  cases r with
  | ofNat n =>
    obtain ⟨_, hdig, hval⟩ := toDigits_spec n
    refine ⟨fun hmem => ?_, hval⟩
    exact absurd (hdig _ hmem) (by decide)
  | negSucc n => exact absurd h (by simp)

/-- Equal names at non-negative revisions come from equal base names and equal revisions. -/
theorem nameFor_eq_nonneg (b1 b2 : String) (r1 r2 : Int) (h1 : 0 ≤ r1) (h2 : 0 ≤ r2)
    (h : nameFor b1 r1 = nameFor b2 r2) : b1 = b2 ∧ r1 = r2 := by
  obtain ⟨hn1, hv1⟩ := formatInt_nonneg r1 h1
  obtain ⟨hn2, hv2⟩ := formatInt_nonneg r2 h2
  unfold nameFor at h
  have hd := congrArg String.data h
  simp only [String.data_append] at hd
  simp only [List.append_assoc, List.singleton_append] at hd
  obtain ⟨e1, e2⟩ := append_separator_inj '-' _ _ _ _ hn1 hn2 hd
  refine ⟨String.ext e1, ?_⟩
  have : r1.toNat = r2.toNat := by rw [← hv1, ← hv2, e2]
  omega

/-- C19: `nameFor` is injective on non-negative revisions: equal names come from equal base
names and equal revisions. With a negative revision it is not: `nameFor("a", -1)` and
`nameFor("a-", 1)` are both `a--1`. -/
theorem nameFor_injective :
    (∀ b1 b2 : String, ∀ r1 r2 : Int, 0 ≤ r1 → 0 ≤ r2 →
      nameFor b1 r1 = nameFor b2 r2 → b1 = b2 ∧ r1 = r2) ∧
    nameFor "a" (-1) = nameFor "a-" 1 ∧ nameFor "a" (-1) = "a--1" :=
  ⟨fun b1 b2 r1 r2 h1 h2 h => nameFor_eq_nonneg b1 b2 r1 r2 h1 h2 h, by decide, by decide⟩

/-- C19 at the names `config-12` and `a-1-2`. -/
theorem nameFor_injective_witness :
    ("config" = "config" ∧ (12 : Int) = 12) ∧ nameFor "a" (-1) = nameFor "a-" 1 :=
  ⟨nameFor_injective.1 "config" "config" 12 12 (by decide) (by decide) rfl,
    nameFor_injective.2.1⟩

/-! ## The outcome of a creation depends on the namespace only -/

/-- The result of the configmap loop of `createNewRevision` and the configmaps it leaves depend
on the configmaps only. -/
theorem createNewRevision_configMapLoop_congr (f : Faults) (revision : Int)
    (ownerRefs : List String) (tracked : List RevisionResource) (w w1 : World)
    (h : w.configMaps = w1.configMaps) :
    (createNewRevision.configMapLoop f revision ownerRefs tracked w).1 =
      (createNewRevision.configMapLoop f revision ownerRefs tracked w1).1 ∧
    (createNewRevision.configMapLoop f revision ownerRefs tracked w).2.configMaps =
      (createNewRevision.configMapLoop f revision ownerRefs tracked w1).2.configMaps := by
  induction tracked generalizing w w1 with
  | nil => exact ⟨rfl, h⟩
  | cons cm rest ih =>
    rw [createNewRevision_configMapLoop_cons, createNewRevision_configMapLoop_cons, ← h]
    rcases h1 : findConfigMap cm.Name w.configMaps with _ | source
    · rcases h3 : cm.Optional with _ | _
      · exact ⟨rfl, h⟩
      · simp only [if_true]
        exact ih _ _ (by simpa using h)
    · rcases h2 : f.writeConfigMap (nameFor cm.Name revision) with _ | err
      · simp only
        exact ih _ _ (by simp [h])
      · exact ⟨rfl, h⟩

/-- The result of the secret loop of `createNewRevision` and the secrets it leaves depend on
the secrets only. -/
theorem createNewRevision_secretLoop_congr (f : Faults) (revision : Int)
    (ownerRefs : List String) (tracked : List RevisionResource) (w w1 : World)
    (h : w.secrets = w1.secrets) :
    (createNewRevision.secretLoop f revision ownerRefs tracked w).1 =
      (createNewRevision.secretLoop f revision ownerRefs tracked w1).1 ∧
    (createNewRevision.secretLoop f revision ownerRefs tracked w).2.secrets =
      (createNewRevision.secretLoop f revision ownerRefs tracked w1).2.secrets := by
  induction tracked generalizing w w1 with
  | nil => exact ⟨rfl, h⟩
  | cons s rest ih =>
    rw [createNewRevision_secretLoop_cons, createNewRevision_secretLoop_cons, ← h]
    rcases h1 : findSecret s.Name w.secrets with _ | source
    · rcases h3 : s.Optional with _ | _
      · exact ⟨rfl, h⟩
      · simp only [if_true]
        exact ih _ _ (by simpa using h)
    · rcases h2 : f.writeSecret (nameFor s.Name revision) with _ | err
      · simp only
        exact ih _ _ (by simp [h])
      · exact ⟨rfl, h⟩

/-- The result of `createNewRevision` and the configmaps and secrets it leaves depend on the
configmaps and secrets only. -/
theorem createNewRevision_congr (c : RevisionController) (f : Faults) (revision : Int)
    (reason : String) (w w1 : World) (hc : w.configMaps = w1.configMaps)
    (hs : w.secrets = w1.secrets) :
    (createNewRevision c f revision reason w).1 = (createNewRevision c f revision reason w1).1 ∧
    (createNewRevision c f revision reason w).2.configMaps =
      (createNewRevision c f revision reason w1).2.configMaps ∧
    (createNewRevision c f revision reason w).2.secrets =
      (createNewRevision c f revision reason w1).2.secrets := by
  rcases hm : f.writeConfigMap (nameFor "revision-status" revision) with _ | err
  · rw [createNewRevision_of_marker_ok c f revision reason w hm,
      createNewRevision_of_marker_ok c f revision reason w1 hm]
    obtain ⟨e1, e2⟩ := createNewRevision_configMapLoop_congr f revision
      [nameFor "revision-status" revision] c.configMaps
      ((w.record (.applyConfigMap (statusConfigMap revision reason))).putConfigMap
        (statusConfigMap revision reason))
      ((w1.record (.applyConfigMap (statusConfigMap revision reason))).putConfigMap
        (statusConfigMap revision reason)) (by simp [hc])
    have s1 := (createNewRevision_configMapLoop_frame f revision
      [nameFor "revision-status" revision] c.configMaps
      ((w.record (.applyConfigMap (statusConfigMap revision reason))).putConfigMap
        (statusConfigMap revision reason))).1
    have s2 := (createNewRevision_configMapLoop_frame f revision
      [nameFor "revision-status" revision] c.configMaps
      ((w1.record (.applyConfigMap (statusConfigMap revision reason))).putConfigMap
        (statusConfigMap revision reason))).1
    rcases hr : createNewRevision.configMapLoop f revision
      [nameFor "revision-status" revision] c.configMaps
      ((w.record (.applyConfigMap (statusConfigMap revision reason))).putConfigMap
        (statusConfigMap revision reason)) with ⟨r, v⟩
    rcases hr1 : createNewRevision.configMapLoop f revision
      [nameFor "revision-status" revision] c.configMaps
      ((w1.record (.applyConfigMap (statusConfigMap revision reason))).putConfigMap
        (statusConfigMap revision reason)) with ⟨r1, v1⟩
    rw [hr] at e1 e2 s1
    rw [hr1] at e1 e2 s2
    simp only [putConfigMap_secrets, record_secrets] at e1 e2 s1 s2
    subst e1
    have hsec : v.secrets = v1.secrets := by rw [s1, s2, hs]
    cases r with
    | some err => exact ⟨rfl, e2, hsec⟩
    | none =>
      simp only
      obtain ⟨e3, e4⟩ := createNewRevision_secretLoop_congr f revision
        [nameFor "revision-status" revision] c.secrets v v1 hsec
      have c1 := (createNewRevision_secretLoop_frame f revision
        [nameFor "revision-status" revision] c.secrets v).1
      have c2 := (createNewRevision_secretLoop_frame f revision
        [nameFor "revision-status" revision] c.secrets v1).1
      exact ⟨e3, by rw [c1, c2, e2], e4⟩
  · have h2 : f.writeConfigMap (statusConfigMap revision reason).Name = some err := hm
    simp [createNewRevision, ApplyConfigMap, h2, hc, hs]

/-- A call of `sync` on a managed operator, recovery finding revision 0 when it runs, is the
tail of `sync` after the reads of the state and of the list of configmaps. -/
theorem sync_managed (c : RevisionController) (f : Faults) (w : World)
    (hread : f.getLatestRevisionState = none)
    (hmanaged : IsOperatorManaged w.managementState = true)
    (hrec : w.latestAvailableRevision = 0 → (getLatestAvailableRevision f w).1 = (0, none)) :
    ∃ pre, (∀ x ∈ pre, x = Call.getLatestRevisionState ∨ x = Call.listConfigMaps) ∧
      sync c f w = sync.createAndReport c f w.latestAvailableRevision w.resourceVersion
        { w with log := w.log ++ pre } := by
  by_cases hz : w.latestAvailableRevision = 0
  · have h1 := getLatestAvailableRevision_congr f (w.record .getLatestRevisionState) w rfl
    rw [hrec hz] at h1
    have h2 := getLatestAvailableRevision_world f (w.record .getLatestRevisionState)
    refine ⟨[Call.getLatestRevisionState, Call.listConfigMaps], by simp, ?_⟩
    rcases hg : getLatestAvailableRevision f (w.record .getLatestRevisionState)
      with ⟨⟨rev, err⟩, w2⟩
    rw [hg] at h1 h2
    simp only [Prod.mk.injEq] at h1
    obtain ⟨hrev, herr⟩ := h1
    simp only at h2
    subst hrev herr h2
    have hs : sync c f w =
        match getLatestAvailableRevision f (w.record .getLatestRevisionState) with
        | ((_, some err), w2) => (some err, w2)
        | ((latestRevision, none), w2) =>
          if latestRevision ≠ 0 then
            match UpdateLatestRevisionOperatorStatus f latestRevision [] w2 with
            | ((_, some err), w3) => (some err, w3)
            | ((_, none), w3) => (some .syntheticRequeue, w3)
          else sync.createAndReport c f w.latestAvailableRevision w.resourceVersion w2 := by
      simp [sync, GetLatestRevisionState, hread, hmanaged, hz]
    rw [hs, hg]
    simp [World.record]
  · refine ⟨[Call.getLatestRevisionState], by simp, ?_⟩
    simp [sync, GetLatestRevisionState, hread, hmanaged, hz, World.record]

/-! ## An operator that is not managed -/

/-- C13: when the state read succeeds and the management state is not a managed one, `sync`
returns no error and its only call is the read of the state: it reads and writes no configmap
or secret, runs no recovery, creates no revision and writes nothing to the status. -/
theorem sync_not_managed (c : RevisionController) (f : Faults) (w : World)
    (hread : f.getLatestRevisionState = none)
    (hnot : IsOperatorManaged w.managementState = false) :
    (sync c f w).1 = none ∧
    (sync c f w).2.log = w.log ++ [Call.getLatestRevisionState] ∧
    (sync c f w).2.configMaps = w.configMaps ∧
    (sync c f w).2.secrets = w.secrets ∧
    (sync c f w).2.latestAvailableRevision = w.latestAvailableRevision ∧
    (sync c f w).2.conditions = w.conditions := by
  have h : sync c f w = (none, w.record .getLatestRevisionState) := by
    simp [sync, GetLatestRevisionState, hread, hnot]
  rw [h]
  exact ⟨rfl, rfl, rfl, rfl, rfl, rfl⟩

/-- C13 at the example of the specification with an unmanaged operator. -/
theorem sync_not_managed_witness :
    (sync configController Faults.none unmanagedWorld).1 = none ∧
    (sync configController Faults.none unmanagedWorld).2.log =
      unmanagedWorld.log ++ [Call.getLatestRevisionState] ∧
    (sync configController Faults.none unmanagedWorld).2.configMaps =
      unmanagedWorld.configMaps ∧
    (sync configController Faults.none unmanagedWorld).2.latestAvailableRevision = 0 := by
  have h := sync_not_managed configController Faults.none unmanagedWorld rfl rfl
  exact ⟨h.1, h.2.1, h.2.2.1, h.2.2.2.2.1⟩

/-! ## Failures of the creation and of the status update -/

/-- The tail of `sync` when `createRevisionIfNeeded` asks for a requeue without error. -/
theorem sync_createAndReport_requeue (c : RevisionController) (f : Faults) (N : Int)
    (resourceVersion : String) (w : World)
    (h : (createRevisionIfNeeded c f N resourceVersion w).1 = (true, none)) :
    sync.createAndReport c f N resourceVersion w =
      (some .syntheticRequeue, (createRevisionIfNeeded c f N resourceVersion w).2) := by
  unfold sync.createAndReport
  rcases hr : createRevisionIfNeeded c f N resourceVersion w with ⟨⟨requeue, syncErr⟩, w1⟩
  rw [hr] at h
  simp only [Prod.mk.injEq] at h
  obtain ⟨h1, h2⟩ := h
  subst h1 h2
  rfl

/-- The tail of `sync` when `createRevisionIfNeeded` returns an error: the report of the error
in the degraded condition. -/
theorem sync_createAndReport_error (c : RevisionController) (f : Faults) (N : Int)
    (resourceVersion : String) (w : World) (requeue : Bool) (err : GoError)
    (h : (createRevisionIfNeeded c f N resourceVersion w).1 = (requeue, some err)) :
    sync.createAndReport c f N resourceVersion w =
      (some err, (UpdateStatus f [degradedError err]
        (createRevisionIfNeeded c f N resourceVersion w).2).2) := by
  unfold sync.createAndReport
  rcases hr : createRevisionIfNeeded c f N resourceVersion w with ⟨⟨requeue1, syncErr⟩, w1⟩
  rw [hr] at h
  simp only [Prod.mk.injEq] at h
  obtain ⟨h1, h2⟩ := h
  subst h1 h2
  simp only [Option.isNone_some, Bool.and_false, Bool.false_eq_true, if_false, UpdateStatus]
  cases f.updateStatus <;> rfl

/-- When the latest revision is not current and `createNewRevision` fails on the namespace with
the error `err`: `createRevisionIfNeeded` leaves the revision of the status alone, and its one
status write is the update of the degraded condition to True with the reason
`ContentCreationError` and the text of `err`. -/
theorem createRevisionIfNeeded_failure (c : RevisionController) (f : Faults) (N : Int)
    (resourceVersion : String) (w : World) (err : GoError)
    (hdrift : (isLatestRevisionCurrent c N w).1.1 = false)
    (herr : (createNewRevision c f (wrapInt32 (N + 1))
      (isLatestRevisionCurrent c N w).1.2 w).1 = some err) :
    (createRevisionIfNeeded c f N resourceVersion w).2.latestAvailableRevision =
      w.latestAvailableRevision ∧
    (∃ l, (createRevisionIfNeeded c f N resourceVersion w).2.log = w.log ++ l ∧
      l.filter Call.isStatusWrite = [Call.updateStatus [contentCreationError err]]) ∧
    (f.updateStatus = none →
      (createRevisionIfNeeded c f N resourceVersion w).1 = (true, none) ∧
      (createRevisionIfNeeded c f N resourceVersion w).2.conditions =
        setOperatorCondition (contentCreationError err) w.conditions) ∧
    (∀ updateError, f.updateStatus = some updateError →
      (createRevisionIfNeeded c f N resourceVersion w).1 = (true, some updateError) ∧
      (createRevisionIfNeeded c f N resourceVersion w).2.conditions = w.conditions) := by
  obtain ⟨l1, hf1, hg1⟩ := isLatestRevisionCurrent_frame c N w
  rw [createRevisionIfNeeded_of_not_current c f N resourceVersion w hdrift]
  generalize (isLatestRevisionCurrent c N w).1.2 = reason at herr ⊢
  generalize hw1 : (isLatestRevisionCurrent c N w).2 = w1 at hf1
  have hcongr := (createNewRevision_congr c f (wrapInt32 (N + 1)) reason
    (Eventf "RevisionTriggered" "new revision %d triggered by %q"
      [formatInt (wrapInt32 (N + 1)), reason] w1) w
    (by subst hf1; rfl) (by subst hf1; rfl)).1
  rw [herr] at hcongr
  obtain ⟨hop, l3, hl3, hs3⟩ := createNewRevision_frame c f (wrapInt32 (N + 1)) reason
    (Eventf "RevisionTriggered" "new revision %d triggered by %q"
      [formatInt (wrapInt32 (N + 1)), reason] w1)
  rcases hr : createNewRevision c f (wrapInt32 (N + 1)) reason
    (Eventf "RevisionTriggered" "new revision %d triggered by %q"
      [formatInt (wrapInt32 (N + 1)), reason] w1) with ⟨r, w3⟩
  rw [hr] at hcongr hop hl3
  simp only at hcongr hl3
  subst hcongr
  obtain ⟨_, hrev, _, hcond⟩ := hop
  have hrev3 : w3.latestAvailableRevision = w.latestAvailableRevision := by
    rw [hrev]; subst hf1; rfl
  have hcond3 : w3.conditions = w.conditions := by
    rw [hcond]; subst hf1; rfl
  obtain ⟨pre, hlog3, hfilter⟩ : ∃ pre, w3.log = w.log ++ pre ∧
      pre.filter Call.isStatusWrite = [] := by
    refine ⟨l1 ++ [Call.eventf "RevisionTriggered" "new revision %d triggered by %q"
      [formatInt (wrapInt32 (N + 1)), reason]] ++
      (Call.applyConfigMap (statusConfigMap (wrapInt32 (N + 1)) reason) :: l3), ?_, ?_⟩
    · rw [hl3]; subst hf1; simp [Eventf]
    · simp [List.filter_append, filter_isStatusWrite_of_isGet l1 hg1,
        filter_isStatusWrite_of_isStoreWrite l3 hs3, List.filter_cons, Call.isStatusWrite]
  have hc : OperatorCondition.mk "RevisionControllerDegraded" "True" "ContentCreationError"
      err.Error = contentCreationError err := rfl
  simp only [hc, UpdateStatus]
  cases hu : f.updateStatus with
  | some ue =>
    refine ⟨hrev3, ⟨pre ++ [Call.updateStatus [contentCreationError err],
      Call.warningf "RevisionCreateFailed" "Failed to create revision %d: %v"
        [formatInt (wrapInt32 (N + 1)), err.Error]], ?_, ?_⟩, ?_, ?_⟩
    · simp [Warningf, hlog3]
    · simp [List.filter_append, hfilter, List.filter_cons, Call.isStatusWrite]
    · intro h; cases h
    · intro updateError h
      simp only [Option.some.injEq] at h
      subst h
      exact ⟨rfl, hcond3⟩
  | none =>
    refine ⟨hrev3, ⟨pre ++ [Call.updateStatus [contentCreationError err]], ?_, ?_⟩, ?_, ?_⟩
    · simp [hlog3]
    · simp [List.filter_append, hfilter, List.filter_cons, Call.isStatusWrite]
    · intro _
      exact ⟨rfl, by simp [hcond3]⟩
    · intro updateError h; cases h

/-- C11: creation failure. When the latest revision `N` is not current and
`createNewRevision(N+1)` returns the error `err`, `createRevisionIfNeeded` returns
requeue = true, never writes `latestAvailableRevision`, and its one status write sets the
`RevisionControllerDegraded` condition to True with the reason `ContentCreationError` and the
text of `err` as message. When that write succeeds the returned error is nil and `sync` (on a
managed operator at revision `N`) returns the synthetic requeue error; when it fails the error
of the condition write is returned. -/
theorem createRevisionIfNeeded_creation_failure (c : RevisionController) (f : Faults) (N : Int)
    (resourceVersion : String) (w : World) (err : GoError)
    (hdrift : (isLatestRevisionCurrent c N w).1.1 = false)
    (herr : (createNewRevision c f (wrapInt32 (N + 1))
      (isLatestRevisionCurrent c N w).1.2 w).1 = some err) :
    (createRevisionIfNeeded c f N resourceVersion w).1.1 = true ∧
    (createRevisionIfNeeded c f N resourceVersion w).2.latestAvailableRevision =
      w.latestAvailableRevision ∧
    (∃ l, (createRevisionIfNeeded c f N resourceVersion w).2.log = w.log ++ l ∧
      l.filter Call.isStatusWrite = [Call.updateStatus [contentCreationError err]]) ∧
    (f.updateStatus = none →
      (createRevisionIfNeeded c f N resourceVersion w).1 = (true, none) ∧
      (createRevisionIfNeeded c f N resourceVersion w).2.conditions =
        setOperatorCondition (contentCreationError err) w.conditions) ∧
    (∀ updateError, f.updateStatus = some updateError →
      (createRevisionIfNeeded c f N resourceVersion w).1 = (true, some updateError) ∧
      (createRevisionIfNeeded c f N resourceVersion w).2.conditions = w.conditions) ∧
    (f.getLatestRevisionState = none → IsOperatorManaged w.managementState = true →
      w.latestAvailableRevision = N →
      (N = 0 → (getLatestAvailableRevision f w).1 = (0, none)) → f.updateStatus = none →
      (sync c f w).1 = some .syntheticRequeue ∧
      (sync c f w).2.latestAvailableRevision = N ∧
      (sync c f w).2.conditions =
        setOperatorCondition (contentCreationError err) w.conditions) := by
  obtain ⟨h1, h2, h3, h4⟩ :=
    createRevisionIfNeeded_failure c f N resourceVersion w err hdrift herr
  refine ⟨?_, h1, h2, h3, h4, ?_⟩
  · cases hu : f.updateStatus with
    | none => rw [(h3 hu).1]
    | some ue => rw [(h4 ue hu).1]
  · intro hread hmanaged hN hrec hu
    subst hN
    obtain ⟨pre, _, hsync⟩ := sync_managed c f w hread hmanaged hrec
    have hcur := isLatestRevisionCurrent_congr c w.latestAvailableRevision
      { w with log := w.log ++ pre } w rfl rfl
    have hcre := (createNewRevision_congr c f (wrapInt32 (w.latestAvailableRevision + 1))
      (isLatestRevisionCurrent c w.latestAvailableRevision w).1.2
      { w with log := w.log ++ pre } w rfl rfl).1
    obtain ⟨g1, _, g3, _⟩ := createRevisionIfNeeded_failure c f w.latestAvailableRevision
      w.resourceVersion { w with log := w.log ++ pre } err (by rw [hcur]; exact hdrift)
      (by rw [hcur, hcre]; exact herr)
    obtain ⟨g31, g32⟩ := g3 hu
    rw [hsync, sync_createAndReport_requeue c f _ _ _ g31]
    exact ⟨rfl, g1, g32⟩

/-- C11 at the example of the specification with every write rejected. -/
theorem createRevisionIfNeeded_creation_failure_witness :
    (createRevisionIfNeeded configController rejectWrites 0 "1" exampleWorld).1 =
      (true, none) ∧
    (createRevisionIfNeeded configController rejectWrites 0 "1"
      exampleWorld).2.latestAvailableRevision = 0 ∧
    (createRevisionIfNeeded configController rejectWrites 0 "1" exampleWorld).2.conditions =
      [contentCreationError (.api "write rejected")] ∧
    (sync configController rejectWrites exampleWorld).1 = some .syntheticRequeue := by
  have h := createRevisionIfNeeded_creation_failure configController rejectWrites 0 "1"
    exampleWorld (.api "write rejected") (by decide) (by decide)
  exact ⟨(h.2.2.2.1 rfl).1, h.2.1, (h.2.2.2.1 rfl).2,
    (h.2.2.2.2.2 rfl rfl rfl (fun _ => by decide) rfl).1⟩

/-- When the latest revision is not current, `createNewRevision` succeeds on the namespace and
the update of the latest revision is rejected with `err`: `createRevisionIfNeeded` returns
requeue = true and `err`, leaves the status as it was, and its one status write is the
rejected update. -/
theorem createRevisionIfNeeded_rejected (c : RevisionController) (f : Faults) (N : Int)
    (resourceVersion : String) (w : World) (err : GoError)
    (hdrift : (isLatestRevisionCurrent c N w).1.1 = false)
    (hok : (createNewRevision c f (wrapInt32 (N + 1))
      (isLatestRevisionCurrent c N w).1.2 w).1 = none)
    (hrej : f.updateLatestRevisionOperatorStatus = some err) :
    (createRevisionIfNeeded c f N resourceVersion w).1 = (true, some err) ∧
    (createRevisionIfNeeded c f N resourceVersion w).2.latestAvailableRevision =
      w.latestAvailableRevision ∧
    (createRevisionIfNeeded c f N resourceVersion w).2.conditions = w.conditions ∧
    ∃ l, (createRevisionIfNeeded c f N resourceVersion w).2.log = w.log ++ l ∧
      l.filter Call.isStatusWrite =
        [Call.updateLatestRevisionOperatorStatus (wrapInt32 (N + 1)) [degradedFalse]] := by
  obtain ⟨l1, hf1, hg1⟩ := isLatestRevisionCurrent_frame c N w
  rw [createRevisionIfNeeded_of_not_current c f N resourceVersion w hdrift]
  generalize (isLatestRevisionCurrent c N w).1.2 = reason at hok ⊢
  generalize hw1 : (isLatestRevisionCurrent c N w).2 = w1 at hf1
  have hcongr := (createNewRevision_congr c f (wrapInt32 (N + 1)) reason
    (Eventf "RevisionTriggered" "new revision %d triggered by %q"
      [formatInt (wrapInt32 (N + 1)), reason] w1) w
    (by subst hf1; rfl) (by subst hf1; rfl)).1
  rw [hok] at hcongr
  obtain ⟨hop, l3, hl3, hs3⟩ := createNewRevision_frame c f (wrapInt32 (N + 1)) reason
    (Eventf "RevisionTriggered" "new revision %d triggered by %q"
      [formatInt (wrapInt32 (N + 1)), reason] w1)
  rcases hr : createNewRevision c f (wrapInt32 (N + 1)) reason
    (Eventf "RevisionTriggered" "new revision %d triggered by %q"
      [formatInt (wrapInt32 (N + 1)), reason] w1) with ⟨r, w3⟩
  rw [hr] at hcongr hop hl3
  simp only at hcongr hl3
  subst hcongr
  obtain ⟨_, hrev, _, hcond⟩ := hop
  have hrev3 : w3.latestAvailableRevision = w.latestAvailableRevision := by
    rw [hrev]; subst hf1; rfl
  have hcond3 : w3.conditions = w.conditions := by
    rw [hcond]; subst hf1; rfl
  obtain ⟨pre, hlog3, hfilter⟩ : ∃ pre, w3.log = w.log ++ pre ∧
      pre.filter Call.isStatusWrite = [] := by
    refine ⟨l1 ++ [Call.eventf "RevisionTriggered" "new revision %d triggered by %q"
      [formatInt (wrapInt32 (N + 1)), reason]] ++
      (Call.applyConfigMap (statusConfigMap (wrapInt32 (N + 1)) reason) :: l3), ?_, ?_⟩
    · rw [hl3]; subst hf1; simp [Eventf]
    · simp [List.filter_append, filter_isStatusWrite_of_isGet l1 hg1,
        filter_isStatusWrite_of_isStoreWrite l3 hs3, List.filter_cons, Call.isStatusWrite]
  simp only [UpdateLatestRevisionOperatorStatus, hrej]
  refine ⟨trivial, hrev3, hcond3,
    pre ++ [Call.updateLatestRevisionOperatorStatus (wrapInt32 (N + 1)) [degradedFalse]],
    ?_, ?_⟩
  · simp [hlog3]
  · simp [List.filter_append, hfilter, List.filter_cons, Call.isStatusWrite]

/-- C12, as stated, fails. In the example of the specification revision 1 is created
successfully and the status update that advances `latestAvailableRevision` is rejected with a
conflict: `sync` returns the conflict and sets the `RevisionControllerDegraded` condition to
True, with the reason `Error` and the text of the conflict. -/
theorem sync_conflict_sets_degraded :
    (createNewRevision configController rejectRevisionUpdate 1
      (isLatestRevisionCurrent configController 0 exampleWorld).1.2 exampleWorld).1 = none ∧
    rejectRevisionUpdate.updateLatestRevisionOperatorStatus = some (.api "conflict") ∧
    (sync configController rejectRevisionUpdate exampleWorld).1 = some (.api "conflict") ∧
    (sync configController rejectRevisionUpdate exampleWorld).2.conditions =
      [{ condType := "RevisionControllerDegraded", Status := "True", Reason := "Error",
         Message := "conflict" }] := by
  refine ⟨by decide, rfl, by decide, by decide⟩

/-- C12, amended: when a new revision was created successfully and the status update that
advances `latestAvailableRevision` is rejected with the error `err`, `sync` on a managed
operator leaves the revision of the status as it was and returns `err` to its caller, which
re-runs the attempt; its status writes are the rejected update and the update of the
`RevisionControllerDegraded` condition to True with the reason `Error` and the text of `err`,
which the status holds when that second write succeeds. -/
theorem sync_rejected_status_update (c : RevisionController) (f : Faults) (w : World)
    (err : GoError) (hread : f.getLatestRevisionState = none)
    (hmanaged : IsOperatorManaged w.managementState = true)
    (hrec : w.latestAvailableRevision = 0 → (getLatestAvailableRevision f w).1 = (0, none))
    (hdrift : (isLatestRevisionCurrent c w.latestAvailableRevision w).1.1 = false)
    (hok : (createNewRevision c f (wrapInt32 (w.latestAvailableRevision + 1))
      (isLatestRevisionCurrent c w.latestAvailableRevision w).1.2 w).1 = none)
    (hrej : f.updateLatestRevisionOperatorStatus = some err) :
    (sync c f w).1 = some err ∧
    (sync c f w).2.latestAvailableRevision = w.latestAvailableRevision ∧
    (∃ l, (sync c f w).2.log = w.log ++ l ∧
      l.filter Call.isStatusWrite =
        [Call.updateLatestRevisionOperatorStatus (wrapInt32 (w.latestAvailableRevision + 1))
            [degradedFalse],
          Call.updateStatus [degradedError err]]) ∧
    (f.updateStatus = none →
      (sync c f w).2.conditions = setOperatorCondition (degradedError err) w.conditions) := by
  obtain ⟨pre, hpre, hsync⟩ := sync_managed c f w hread hmanaged hrec
  have hcur := isLatestRevisionCurrent_congr c w.latestAvailableRevision
    { w with log := w.log ++ pre } w rfl rfl
  have hcre := (createNewRevision_congr c f (wrapInt32 (w.latestAvailableRevision + 1))
    (isLatestRevisionCurrent c w.latestAvailableRevision w).1.2
    { w with log := w.log ++ pre } w rfl rfl).1
  obtain ⟨g1, g2, g3, l, hl, hfl⟩ := createRevisionIfNeeded_rejected c f
    w.latestAvailableRevision w.resourceVersion { w with log := w.log ++ pre } err
    (by rw [hcur]; exact hdrift) (by rw [hcur, hcre]; exact hok) hrej
  have hfpre : pre.filter Call.isStatusWrite = [] := by
    rw [List.filter_eq_nil_iff]
    intro x hx
    rcases hpre x hx with rfl | rfl <;> simp [Call.isStatusWrite]
  rw [hsync, sync_createAndReport_error c f _ _ _ true err g1]
  simp only [UpdateStatus]
  cases hu : f.updateStatus with
  | some ue =>
    refine ⟨trivial, g2, ⟨pre ++ l ++ [Call.updateStatus [degradedError err]], ?_, ?_⟩, ?_⟩
    · simp [hl]
    · simp [List.filter_append, hfpre, hfl, List.filter_cons, Call.isStatusWrite]
    · intro h; cases h
  | none =>
    refine ⟨trivial, g2, ⟨pre ++ l ++ [Call.updateStatus [degradedError err]], ?_, ?_⟩, ?_⟩
    · simp [hl]
    · simp [List.filter_append, hfpre, hfl, List.filter_cons, Call.isStatusWrite]
    · intro _
      simp [g3]

/-- C12, amended, at the example of the specification with the update of the latest revision
rejected. -/
theorem sync_rejected_status_update_witness :
    (sync configController rejectRevisionUpdate exampleWorld).1 = some (.api "conflict") ∧
    (sync configController rejectRevisionUpdate exampleWorld).2.latestAvailableRevision = 0 ∧
    (sync configController rejectRevisionUpdate exampleWorld).2.conditions =
      setOperatorCondition (degradedError (.api "conflict")) exampleWorld.conditions := by
  have h := sync_rejected_status_update configController rejectRevisionUpdate exampleWorld
    (.api "conflict") rfl rfl (fun _ => by decide) (by decide) (by decide) rfl
  exact ⟨h.1, h.2.1, h.2.2.2 rfl⟩

/-! ## The reason of a drift -/

theorem intercalate_go_data (sep : String) (l : List String) (acc : String) :
    ∃ rest, (String.intercalate.go acc sep l).data = acc.data ++ rest := by
  induction l generalizing acc with
  | nil => exact ⟨[], by simp [String.intercalate.go]⟩
  | cons a as ih =>
    obtain ⟨rest, h⟩ := ih (acc ++ sep ++ a)
    exact ⟨sep.data ++ a.data ++ rest, by
      rw [String.intercalate.go, h]; simp [String.data_append]⟩

/-- The join of a list that starts with a non-empty text is not empty. -/
theorem join_ne_empty (x : String) (xs : List String) (sep : String) (h : x ≠ "") :
    join (x :: xs) sep ≠ "" := by
  intro e
  obtain ⟨rest, hr⟩ := intercalate_go_data sep xs x
  have hd := congrArg String.data e
  simp only [join, String.intercalate] at hd
  rw [hr] at hd
  have : x.data = [] := (List.append_eq_nil.mp hd).1
  exact h (String.ext this)

theorem notFound_text_ne_empty (resource name : String) :
    (GoError.notFound resource name).Error ≠ "" := by
  intro e
  have hd := congrArg String.data e
  simp [GoError.Error, String.data_append] at hd

theorem entry_ne_empty (kind name : String) (h : kind ≠ "") :
    kind ++ name ++ " has changed" ≠ "" := by
  intro e
  have hd := congrArg String.data e
  simp only [String.data_append] at hd
  have := (List.append_eq_nil.mp (List.append_eq_nil.mp hd).1).1
  exact h (String.ext this)

/-- With no required configmap missing, the configmap loop of `isLatestRevisionCurrent` ends
with one entry more for each drifted configmap, in declared order. -/
theorem isLatestRevisionCurrent_configMapLoop_entries (revision : Int)
    (tracked : List RevisionResource) (changes : List String) (w : World)
    (h : ∀ cm ∈ tracked, cm.Optional = false →
      (findConfigMap cm.Name w.configMaps).isSome = true ∧
        (findConfigMap (nameFor cm.Name revision) w.configMaps).isSome = true) :
    (isLatestRevisionCurrent.configMapLoop revision tracked changes w).1 =
      .ok (changes ++
        (tracked.filter (fun cm =>
          !DeepEqual (configMapData (nameFor cm.Name revision) w)
            (configMapData cm.Name w))).map
          (fun cm => "configmap/" ++ cm.Name ++ " has changed")) := by
  induction tracked generalizing changes w with
  | nil => simp [isLatestRevisionCurrent.configMapLoop]
  | cons cm rest ih =>
    have hrest := fun x hx => h x (List.mem_cons_of_mem _ hx)
    have hcm := h cm (List.mem_cons_self _ _)
    rw [isLatestRevisionCurrent_configMapLoop_cons]
    have c1 : ¬ ((findConfigMap cm.Name w.configMaps).isNone && !cm.Optional) = true := by
      rcases ho : cm.Optional with _ | _
      · obtain ⟨x, hx⟩ := Option.isSome_iff_exists.mp (hcm ho).1
        simp [hx]
      · simp
    have c2 : ¬ ((findConfigMap (nameFor cm.Name revision) w.configMaps).isNone &&
        !cm.Optional) = true := by
      rcases ho : cm.Optional with _ | _
      · obtain ⟨x, hx⟩ := Option.isSome_iff_exists.mp (hcm ho).2
        simp [hx]
      · simp
    rw [if_neg c1, if_neg c2, ih _ _ (by simpa using hrest)]
    have hdata : ∀ n, configMapData n ((w.record (.getConfigMap cm.Name)).record
        (.getConfigMap (nameFor cm.Name revision))) = configMapData n w := fun _ => rfl
    simp only [hdata]
    by_cases hd : DeepEqual (configMapData (nameFor cm.Name revision) w)
        (configMapData cm.Name w) = true
    · simp [List.filter_cons, hd]
    · simp [List.filter_cons, hd]

/-- With no required secret missing, the secret loop of `isLatestRevisionCurrent` ends with one
entry more for each drifted secret, in declared order. -/
theorem isLatestRevisionCurrent_secretLoop_entries (revision : Int)
    (tracked : List RevisionResource) (changes : List String) (w : World)
    (h : ∀ s ∈ tracked, s.Optional = false →
      (findSecret s.Name w.secrets).isSome = true ∧
        (findSecret (nameFor s.Name revision) w.secrets).isSome = true) :
    (isLatestRevisionCurrent.secretLoop revision tracked changes w).1 =
      .ok (changes ++
        (tracked.filter (fun s =>
          !DeepEqual (secretData (nameFor s.Name revision) w) (secretData s.Name w))).map
          (fun s => "secret/" ++ s.Name ++ " has changed")) := by
  induction tracked generalizing changes w with
  | nil => simp [isLatestRevisionCurrent.secretLoop]
  | cons s rest ih =>
    have hrest := fun x hx => h x (List.mem_cons_of_mem _ hx)
    have hs := h s (List.mem_cons_self _ _)
    rw [isLatestRevisionCurrent_secretLoop_cons]
    have c1 : ¬ ((findSecret s.Name w.secrets).isNone && !s.Optional) = true := by
      rcases ho : s.Optional with _ | _
      · obtain ⟨x, hx⟩ := Option.isSome_iff_exists.mp (hs ho).1
        simp [hx]
      · simp
    have c2 : ¬ ((findSecret (nameFor s.Name revision) w.secrets).isNone &&
        !s.Optional) = true := by
      rcases ho : s.Optional with _ | _
      · obtain ⟨x, hx⟩ := Option.isSome_iff_exists.mp (hs ho).2
        simp [hx]
      · simp
    rw [if_neg c1, if_neg c2, ih _ _ (by simpa using hrest)]
    have hdata : ∀ n, secretData n ((w.record (.getSecret s.Name)).record
        (.getSecret (nameFor s.Name revision))) = secretData n w := fun _ => rfl
    simp only [hdata]
    by_cases hd : DeepEqual (secretData (nameFor s.Name revision) w)
        (secretData s.Name w) = true
    · simp [List.filter_cons, hd]
    · simp [List.filter_cons, hd]

/-- The changes with which the configmap loop of `isLatestRevisionCurrent` ends are not empty
texts, when it starts from changes that are not. -/
theorem isLatestRevisionCurrent_configMapLoop_ne_empty (revision : Int)
    (tracked : List RevisionResource) (changes : List String) (w : World)
    (result : List String)
    (h : (isLatestRevisionCurrent.configMapLoop revision tracked changes w).1 = .ok result)
    (hacc : ∀ x ∈ changes, x ≠ "") : ∀ x ∈ result, x ≠ "" := by
  induction tracked generalizing changes w with
  | nil =>
    simp only [isLatestRevisionCurrent.configMapLoop, Except.ok.injEq] at h
    subst h
    exact hacc
  | cons cm rest ih =>
    rw [isLatestRevisionCurrent_configMapLoop_cons] at h
    split at h
    · cases h
    · split at h
      · cases h
      · refine ih _ _ h ?_
        split
        · exact hacc
        · intro x hx
          rcases List.mem_append.mp hx with hx | hx
          · exact hacc x hx
          · simp only [List.mem_singleton] at hx
            subst hx
            exact entry_ne_empty "configmap/" cm.Name (by decide)

/-- The changes with which the secret loop of `isLatestRevisionCurrent` ends are not empty
texts, when it starts from changes that are not. -/
theorem isLatestRevisionCurrent_secretLoop_ne_empty (revision : Int)
    (tracked : List RevisionResource) (changes : List String) (w : World)
    (result : List String)
    (h : (isLatestRevisionCurrent.secretLoop revision tracked changes w).1 = .ok result)
    (hacc : ∀ x ∈ changes, x ≠ "") : ∀ x ∈ result, x ≠ "" := by
  induction tracked generalizing changes w with
  | nil =>
    simp only [isLatestRevisionCurrent.secretLoop, Except.ok.injEq] at h
    subst h
    exact hacc
  | cons s rest ih =>
    rw [isLatestRevisionCurrent_secretLoop_cons] at h
    split at h
    · cases h
    · split at h
      · cases h
      · refine ih _ _ h ?_
        split
        · exact hacc
        · intro x hx
          rcases List.mem_append.mp hx with hx | hx
          · exact hacc x hx
          · simp only [List.mem_singleton] at hx
            subst hx
            exact entry_ne_empty "secret/" s.Name (by decide)

/-- The method `isLatestRevisionCurrent` returns true exactly when it returns the empty
reason. -/
theorem isLatestRevisionCurrent_true_iff (c : RevisionController) (revision : Int)
    (w : World) :
    (isLatestRevisionCurrent c revision w).1.1 = true ↔
      (isLatestRevisionCurrent c revision w).1.2 = "" := by
  unfold isLatestRevisionCurrent
  rcases hr : isLatestRevisionCurrent.configMapLoop revision c.configMaps [] w with ⟨r, w1⟩
  cases r with
  | error text =>
    obtain ⟨name, hn⟩ := isLatestRevisionCurrent_configMapLoop_error revision c.configMaps []
      w text (by rw [hr])
    simp only [Bool.false_eq_true, false_iff]
    rw [hn]
    exact notFound_text_ne_empty _ _
  | ok configChanges =>
    have hc := isLatestRevisionCurrent_configMapLoop_ne_empty revision c.configMaps [] w
      configChanges (by rw [hr]) (by simp)
    simp only
    rcases hr2 : isLatestRevisionCurrent.secretLoop revision c.secrets [] w1 with ⟨r2, w2⟩
    cases r2 with
    | error text =>
      obtain ⟨name, hn⟩ := isLatestRevisionCurrent_secretLoop_error revision c.secrets []
        w1 text (by rw [hr2])
      simp only [Bool.false_eq_true, false_iff]
      rw [hn]
      exact notFound_text_ne_empty _ _
    | ok secretChanges =>
      have hs := isLatestRevisionCurrent_secretLoop_ne_empty revision c.secrets [] w1
        secretChanges (by rw [hr2]) (by simp)
      simp only
      split
      · rename_i hlen
        simp only [Bool.false_eq_true, false_iff]
        cases hl : secretChanges ++ configChanges with
        | nil =>
          obtain ⟨e1, e2⟩ := List.append_eq_nil.mp hl
          subst e1 e2
          simp at hlen
        | cons x xs =>
          refine join_ne_empty x xs "," ?_
          have hx : x ∈ secretChanges ++ configChanges := by rw [hl]; exact List.mem_cons_self _ _
          rcases List.mem_append.mp hx with hx | hx
          · exact hs x hx
          · exact hc x hx
      · simp

/-- C17: when no required resource is missing and at least one tracked resource differs from
its snapshot, `isLatestRevisionCurrent` returns false and its reason is the comma-join of one
entry per drifted resource and nothing else: `secret/<name> has changed` for each drifted
secret in declared order, then `configmap/<name> has changed` for each drifted configmap in
declared order. In every state `isLatestRevisionCurrent` returns true exactly when it returns
the empty reason. -/
theorem isLatestRevisionCurrent_reason (c : RevisionController) (revision : Int) (w : World) :
    (noRequiredMissing c revision w → driftEntries c revision w ≠ [] →
      (isLatestRevisionCurrent c revision w).1 =
        (false, join (driftEntries c revision w) ",")) ∧
    ((isLatestRevisionCurrent c revision w).1.1 = true ↔
      (isLatestRevisionCurrent c revision w).1.2 = "") := by
  refine ⟨?_, isLatestRevisionCurrent_true_iff c revision w⟩
  intro hreq hdrift
  have e1 := isLatestRevisionCurrent_configMapLoop_entries revision c.configMaps [] w hreq.1
  obtain ⟨l1, hf1, _⟩ := isLatestRevisionCurrent_configMapLoop_frame revision c.configMaps [] w
  unfold isLatestRevisionCurrent
  rcases hr : isLatestRevisionCurrent.configMapLoop revision c.configMaps [] w with ⟨r, w1⟩
  rw [hr] at e1 hf1
  simp only [List.nil_append] at e1 hf1
  subst e1
  have e2 := isLatestRevisionCurrent_secretLoop_entries revision c.secrets [] w1
    (by rw [hf1]; exact hreq.2)
  simp only
  rcases hr2 : isLatestRevisionCurrent.secretLoop revision c.secrets [] w1 with ⟨r2, w2⟩
  rw [hr2] at e2
  simp only [List.nil_append] at e2
  subst e2
  have hdata : ∀ n, secretData n w1 = secretData n w := by
    intro n; rw [hf1]; rfl
  simp only [hdata]
  have hentries : (c.secrets.filter (fun s =>
        !DeepEqual (secretData (nameFor s.Name revision) w) (secretData s.Name w))).map
        (fun s => "secret/" ++ s.Name ++ " has changed") ++
      (c.configMaps.filter (fun cm =>
        !DeepEqual (configMapData (nameFor cm.Name revision) w)
          (configMapData cm.Name w))).map
        (fun cm => "configmap/" ++ cm.Name ++ " has changed") =
      driftEntries c revision w := rfl
  rw [hentries]
  split
  · rfl
  · rename_i hlen
    exfalso
    apply hdrift
    rw [← hentries]
    simp only [gt_iff_lt, Bool.or_eq_true, decide_eq_true_eq, not_or, not_lt,
      Nat.le_zero_eq, List.length_eq_zero] at hlen
    rw [hlen.1, hlen.2]
    rfl

/-- C17 at a namespace in which the tracked secret and one of two tracked configmaps differ
from their snapshots. -/
theorem isLatestRevisionCurrent_reason_witness :
    (isLatestRevisionCurrent driftController 1 driftWorld).1 =
      (false, "secret/token has changed,configmap/extra has changed") ∧
    ((isLatestRevisionCurrent driftController 1 driftWorld).1.1 = true ↔
      (isLatestRevisionCurrent driftController 1 driftWorld).1.2 = "") := by
  have h := isLatestRevisionCurrent_reason driftController 1 driftWorld
  refine ⟨?_, h.2⟩
  have h1 := h.1 (by decide) (by decide)
  have hj : join (driftEntries driftController 1 driftWorld) "," =
      "secret/token has changed,configmap/extra has changed" := by decide
  rw [hj] at h1
  exact h1

/-! ## What a creation leaves alone -/

/-- The configmap loop of `createNewRevision`, whatever its outcome, leaves every configmap
under another name than the snapshots of the revision as it was, and deletes none. -/
theorem createNewRevision_configMapLoop_others (f : Faults) (revision : Int)
    (ownerRefs : List String) (tracked : List RevisionResource) (w : World) :
    (∀ n, (∀ b ∈ tracked, n ≠ nameFor b.Name revision) →
      findConfigMap n
        (createNewRevision.configMapLoop f revision ownerRefs tracked w).2.configMaps =
        findConfigMap n w.configMaps) ∧
    (∀ n, (findConfigMap n w.configMaps).isSome = true →
      (findConfigMap n
        (createNewRevision.configMapLoop f revision ownerRefs tracked w).2.configMaps).isSome =
        true) := by
  induction tracked generalizing w with
  | nil => exact ⟨fun _ _ => rfl, fun _ h => h⟩
  | cons cm rest ih =>
    rw [createNewRevision_configMapLoop_cons]
    rcases h1 : findConfigMap cm.Name w.configMaps with _ | source
    · rcases h3 : cm.Optional with _ | _
      · exact ⟨fun _ _ => rfl, fun _ h => h⟩
      · obtain ⟨hA, hB⟩ := ih (w.record (.syncConfigMap cm.Name (nameFor cm.Name revision)))
        exact ⟨fun n hn => by simpa using hA n (fun b hb => hn b (List.mem_cons_of_mem _ hb)),
          fun n h => by simpa using hB n (by simpa using h)⟩
    · rcases h2 : f.writeConfigMap (nameFor cm.Name revision) with _ | err
      · obtain ⟨hA, hB⟩ := ih
          (((w.record (.syncConfigMap cm.Name (nameFor cm.Name revision))).record
              (.applyConfigMap { Name := nameFor cm.Name revision, Data := source.Data,
                                 OwnerReferences := ownerRefs })).putConfigMap
              { Name := nameFor cm.Name revision, Data := source.Data,
                OwnerReferences := ownerRefs })
        refine ⟨fun n hn => ?_, fun n h => ?_⟩
        · simp only
          rw [hA n (fun b hb => hn b (List.mem_cons_of_mem _ hb))]
          have hne : ¬ nameFor cm.Name revision = n :=
            fun e => hn cm (List.mem_cons_self _ _) e.symm
          simp [findConfigMap_upsert, hne]
        · simp only
          apply hB
          simp only [putConfigMap_configMaps, record_configMaps, findConfigMap_upsert]
          split
          · rfl
          · exact h
      · exact ⟨fun _ _ => rfl, fun _ h => h⟩

/-- The secret loop of `createNewRevision`, whatever its outcome, leaves every secret under
another name than the snapshots of the revision as it was, and deletes none. -/
theorem createNewRevision_secretLoop_others (f : Faults) (revision : Int)
    (ownerRefs : List String) (tracked : List RevisionResource) (w : World) :
    (∀ n, (∀ b ∈ tracked, n ≠ nameFor b.Name revision) →
      findSecret n (createNewRevision.secretLoop f revision ownerRefs tracked w).2.secrets =
        findSecret n w.secrets) ∧
    (∀ n, (findSecret n w.secrets).isSome = true →
      (findSecret n
        (createNewRevision.secretLoop f revision ownerRefs tracked w).2.secrets).isSome =
        true) := by
  induction tracked generalizing w with
  | nil => exact ⟨fun _ _ => rfl, fun _ h => h⟩
  | cons s rest ih =>
    rw [createNewRevision_secretLoop_cons]
    rcases h1 : findSecret s.Name w.secrets with _ | source
    · rcases h3 : s.Optional with _ | _
      · exact ⟨fun _ _ => rfl, fun _ h => h⟩
      · obtain ⟨hA, hB⟩ := ih (w.record (.syncSecret s.Name (nameFor s.Name revision)))
        exact ⟨fun n hn => by simpa using hA n (fun b hb => hn b (List.mem_cons_of_mem _ hb)),
          fun n h => by simpa using hB n (by simpa using h)⟩
    · rcases h2 : f.writeSecret (nameFor s.Name revision) with _ | err
      · obtain ⟨hA, hB⟩ := ih
          (((w.record (.syncSecret s.Name (nameFor s.Name revision))).record
              (.applySecret { Name := nameFor s.Name revision, Data := source.Data,
                              OwnerReferences := ownerRefs })).putSecret
              { Name := nameFor s.Name revision, Data := source.Data,
                OwnerReferences := ownerRefs })
        refine ⟨fun n hn => ?_, fun n h => ?_⟩
        · simp only
          rw [hA n (fun b hb => hn b (List.mem_cons_of_mem _ hb))]
          have hne : ¬ nameFor s.Name revision = n :=
            fun e => hn s (List.mem_cons_self _ _) e.symm
          simp [findSecret_upsert, hne]
        · simp only
          apply hB
          simp only [putSecret_secrets, record_secrets, findSecret_upsert]
          split
          · rfl
          · exact h
      · exact ⟨fun _ _ => rfl, fun _ h => h⟩

/-- The method `createNewRevision`, whatever its outcome, writes only under the names of the
status marker and of the snapshots of the revision, and deletes nothing. -/
theorem createNewRevision_others (c : RevisionController) (f : Faults) (revision : Int)
    (reason : String) (w : World) :
    (∀ n, n ≠ nameFor "revision-status" revision →
      (∀ b ∈ c.configMaps, n ≠ nameFor b.Name revision) →
      findConfigMap n (createNewRevision c f revision reason w).2.configMaps =
        findConfigMap n w.configMaps) ∧
    (∀ n, (∀ b ∈ c.secrets, n ≠ nameFor b.Name revision) →
      findSecret n (createNewRevision c f revision reason w).2.secrets =
        findSecret n w.secrets) ∧
    (∀ n, (findConfigMap n w.configMaps).isSome = true →
      (findConfigMap n (createNewRevision c f revision reason w).2.configMaps).isSome =
        true) ∧
    (∀ n, (findSecret n w.secrets).isSome = true →
      (findSecret n (createNewRevision c f revision reason w).2.secrets).isSome = true) := by
  rcases hm : f.writeConfigMap (nameFor "revision-status" revision) with _ | err
  · rw [createNewRevision_of_marker_ok c f revision reason w hm]
    obtain ⟨hA, hB⟩ := createNewRevision_configMapLoop_others f revision
      [nameFor "revision-status" revision] c.configMaps
      ((w.record (.applyConfigMap (statusConfigMap revision reason))).putConfigMap
        (statusConfigMap revision reason))
    obtain ⟨hsec, _, _⟩ := createNewRevision_configMapLoop_frame f revision
      [nameFor "revision-status" revision] c.configMaps
      ((w.record (.applyConfigMap (statusConfigMap revision reason))).putConfigMap
        (statusConfigMap revision reason))
    rcases hr : createNewRevision.configMapLoop f revision
      [nameFor "revision-status" revision] c.configMaps
      ((w.record (.applyConfigMap (statusConfigMap revision reason))).putConfigMap
        (statusConfigMap revision reason)) with ⟨r, w2⟩
    rw [hr] at hA hB hsec
    simp only [putConfigMap_configMaps, record_configMaps, putConfigMap_secrets,
      record_secrets] at hA hB hsec
    have hA' : ∀ n, n ≠ nameFor "revision-status" revision →
        (∀ b ∈ c.configMaps, n ≠ nameFor b.Name revision) →
        findConfigMap n w2.configMaps = findConfigMap n w.configMaps := by
      intro n hn hb
      rw [hA n hb, findConfigMap_upsert]
      have hne : ¬ (statusConfigMap revision reason).Name = n := fun e => hn e.symm
      simp [hne]
    have hB' : ∀ n, (findConfigMap n w.configMaps).isSome = true →
        (findConfigMap n w2.configMaps).isSome = true := by
      intro n h
      apply hB
      rw [findConfigMap_upsert]
      split
      · rfl
      · exact h
    cases r with
    | some err => exact ⟨hA', fun n _ => by rw [hsec], hB', fun n h => by rw [hsec]; exact h⟩
    | none =>
      simp only
      obtain ⟨hC, hD⟩ := createNewRevision_secretLoop_others f revision
        [nameFor "revision-status" revision] c.secrets w2
      obtain ⟨hcms, _, _⟩ := createNewRevision_secretLoop_frame f revision
        [nameFor "revision-status" revision] c.secrets w2
      refine ⟨fun n hn hb => by rw [hcms]; exact hA' n hn hb,
        fun n hb => by rw [hC n hb, hsec],
        fun n h => by rw [hcms]; exact hB' n h,
        fun n h => hD n (by rw [hsec]; exact h)⟩
  · have h2 : f.writeConfigMap (statusConfigMap revision reason).Name = some err := hm
    have : createNewRevision c f revision reason w =
        (some err, w.record (.applyConfigMap (statusConfigMap revision reason))) := by
      simp [createNewRevision, ApplyConfigMap, h2]
    rw [this]
    exact ⟨fun _ _ _ => rfl, fun _ _ => rfl, fun _ h => h, fun _ h => h⟩

/-- C16, as stated, fails for a negative revision. With `a` and `a-` tracked, the configmap
`a--1` is the snapshot of `a` at revision -1; `createNewRevision` for revision 1 writes the
snapshot of `a-` under that name, so a snapshot of another revision changes. -/
theorem createNewRevision_negative_revision_overwritten :
    (-1 : Int) ≠ 1 ∧
    findConfigMap (nameFor "a" (-1)) hyphenWorld.configMaps =
      some { Name := "a--1", Data := [("k", "kept")],
             OwnerReferences := ["revision-status--1"] } ∧
    findConfigMap (nameFor "a" (-1))
        (createNewRevision hyphenController Faults.none 1 "r" hyphenWorld).2.configMaps =
      some { Name := "a--1", Data := [("k", "vb")],
             OwnerReferences := ["revision-status-1"] } := by
  refine ⟨by decide, by decide, by decide⟩

/-- C16, amended: for every configuration and revision `r`, whatever its outcome,
`createNewRevision(r)` writes only under the name of the marker
`nameFor("revision-status", r)` and the names `nameFor(name, r)` of the snapshots of tracked
resources: every configmap and secret under another name is as before, and nothing is
deleted. So, for non-negative revisions `r` and `r' ≠ r`, every marker and snapshot of
revision `r'` is left as it was. -/
theorem createNewRevision_other_revisions (c : RevisionController) (f : Faults) (r : Int)
    (reason : String) (w : World) :
    (∀ n, n ≠ nameFor "revision-status" r → (∀ b ∈ c.configMaps, n ≠ nameFor b.Name r) →
      findConfigMap n (createNewRevision c f r reason w).2.configMaps =
        findConfigMap n w.configMaps) ∧
    (∀ n, (∀ b ∈ c.secrets, n ≠ nameFor b.Name r) →
      findSecret n (createNewRevision c f r reason w).2.secrets = findSecret n w.secrets) ∧
    (∀ n, (findConfigMap n w.configMaps).isSome = true →
      (findConfigMap n (createNewRevision c f r reason w).2.configMaps).isSome = true) ∧
    (∀ n, (findSecret n w.secrets).isSome = true →
      (findSecret n (createNewRevision c f r reason w).2.secrets).isSome = true) ∧
    (0 ≤ r → ∀ (other : Int) (base : String), 0 ≤ other → other ≠ r →
      findConfigMap (nameFor base other) (createNewRevision c f r reason w).2.configMaps =
        findConfigMap (nameFor base other) w.configMaps ∧
      findSecret (nameFor base other) (createNewRevision c f r reason w).2.secrets =
        findSecret (nameFor base other) w.secrets) := by
  obtain ⟨hA, hB, hC, hD⟩ := createNewRevision_others c f r reason w
  refine ⟨hA, hB, hC, hD, ?_⟩
  intro hr other base ho hne
  have hdiff : ∀ b : String, nameFor base other ≠ nameFor b r :=
    fun b e => hne (nameFor_eq_nonneg base b other r ho hr e).2
  exact ⟨hA _ (hdiff _) (fun b _ => hdiff b.Name), hB _ (fun b _ => hdiff b.Name)⟩

/-- C16, amended, at the example of the specification: creating revision 2 from the source
`k: v2` leaves `config-1` with `k: v1`. -/
theorem createNewRevision_other_revisions_witness :
    findConfigMap "config-1"
        (createNewRevision configController Faults.none 2 "r" changedWorld).2.configMaps =
      some { Name := "config-1", Data := [("k", "v1")],
             OwnerReferences := ["revision-status-1"] } ∧
    findConfigMap "config-2"
        (createNewRevision configController Faults.none 2 "r" changedWorld).2.configMaps =
      some { Name := "config-2", Data := [("k", "v2")],
             OwnerReferences := ["revision-status-2"] } := by
  have h := ((createNewRevision_other_revisions configController Faults.none 2 "r"
    changedWorld).2.2.2.2 (by decide) 1 "config" (by decide) (by decide)).1
  have hn : nameFor "config" 1 = "config-1" := by decide
  rw [hn] at h
  exact ⟨h.trans (by decide), by decide⟩

/-! ## Convergence after a creation -/

/-- A map is deeply equal to itself. -/
theorem DeepEqual_refl {V : Type} [DecidableEq V] (a : List (String × V)) :
    DeepEqual a a = true := (DeepEqual_iff a a).mpr (fun _ => rfl)

/-- When no required resource is missing and no tracked resource differs from its snapshot,
`isLatestRevisionCurrent` returns true with the empty reason. -/
theorem isLatestRevisionCurrent_no_drift (c : RevisionController) (revision : Int) (w : World)
    (hreq : noRequiredMissing c revision w) (hdrift : driftEntries c revision w = []) :
    (isLatestRevisionCurrent c revision w).1 = (true, "") := by
  have e1 := isLatestRevisionCurrent_configMapLoop_entries revision c.configMaps [] w hreq.1
  obtain ⟨l1, hf1, _⟩ := isLatestRevisionCurrent_configMapLoop_frame revision c.configMaps [] w
  unfold isLatestRevisionCurrent
  rcases hr : isLatestRevisionCurrent.configMapLoop revision c.configMaps [] w with ⟨r, w1⟩
  rw [hr] at e1 hf1
  simp only [List.nil_append] at e1 hf1
  subst e1
  have e2 := isLatestRevisionCurrent_secretLoop_entries revision c.secrets [] w1
    (by rw [hf1]; exact hreq.2)
  simp only
  rcases hr2 : isLatestRevisionCurrent.secretLoop revision c.secrets [] w1 with ⟨r2, w2⟩
  rw [hr2] at e2
  simp only [List.nil_append] at e2
  subst e2
  have hdata : ∀ n, secretData n w1 = secretData n w := by
    intro n; rw [hf1]; rfl
  simp only [hdata]
  obtain ⟨hs, hc⟩ := List.append_eq_nil.mp hdrift
  unfold driftedSecrets at hs
  unfold driftedConfigMaps at hc
  rw [hs, hc]
  rfl

/-- When no tracked resource is named like a snapshot or like the marker of the revision and
`createNewRevision` ends without error: the sources of the tracked resources are as before,
every non-optional tracked resource has a source, and every tracked resource with a source
has its snapshot, with the data of the source and the marker as owner. -/
theorem createNewRevision_sources (c : RevisionController) (f : Faults) (revision : Int)
    (reason : String) (w : World) (hac : snapshotNamesApart c.configMaps revision)
    (has : snapshotNamesApart c.secrets revision) (hm : markerNameApart c revision)
    (hok : (createNewRevision c f revision reason w).1 = none) :
    (∀ cm ∈ c.configMaps,
      findConfigMap cm.Name (createNewRevision c f revision reason w).2.configMaps =
        findConfigMap cm.Name w.configMaps) ∧
    (∀ s ∈ c.secrets,
      findSecret s.Name (createNewRevision c f revision reason w).2.secrets =
        findSecret s.Name w.secrets) ∧
    (∀ cm ∈ c.configMaps, cm.Optional = false →
      (findConfigMap cm.Name w.configMaps).isSome = true) ∧
    (∀ s ∈ c.secrets, s.Optional = false → (findSecret s.Name w.secrets).isSome = true) ∧
    (∀ cm ∈ c.configMaps, ∀ src, findConfigMap cm.Name w.configMaps = some src →
      findConfigMap (nameFor cm.Name revision)
          (createNewRevision c f revision reason w).2.configMaps =
        some { Name := nameFor cm.Name revision, Data := src.Data,
               OwnerReferences := [nameFor "revision-status" revision] }) ∧
    (∀ s ∈ c.secrets, ∀ src, findSecret s.Name w.secrets = some src →
      findSecret (nameFor s.Name revision) (createNewRevision c f revision reason w).2.secrets =
        some { Name := nameFor s.Name revision, Data := src.Data,
               OwnerReferences := [nameFor "revision-status" revision] }) := by
  rcases hmk : f.writeConfigMap (nameFor "revision-status" revision) with _ | err
  · rw [createNewRevision_of_marker_ok c f revision reason w hmk] at hok ⊢
    have hsrc : ∀ cm ∈ c.configMaps,
        findConfigMap cm.Name
          ((w.record (.applyConfigMap (statusConfigMap revision reason))).putConfigMap
            (statusConfigMap revision reason)).configMaps = findConfigMap cm.Name w.configMaps := by
      intro cm hcm
      rw [putConfigMap_configMaps, findConfigMap_upsert, record_configMaps]
      exact if_neg (fun e => hm cm hcm e.symm)
    rcases hr : createNewRevision.configMapLoop f revision
      [nameFor "revision-status" revision] c.configMaps
      ((w.record (.applyConfigMap (statusConfigMap revision reason))).putConfigMap
        (statusConfigMap revision reason)) with ⟨r, w2⟩
    rw [hr] at hok
    cases r with
    | some err => simp at hok
    | none =>
      simp only at hok ⊢
      obtain ⟨hA, hB, hC⟩ := createNewRevision_configMapLoop_snapshots f revision
        [nameFor "revision-status" revision] c.configMaps _ hac (by rw [hr])
      obtain ⟨hsec, _, _⟩ := createNewRevision_configMapLoop_frame f revision
        [nameFor "revision-status" revision] c.configMaps
        ((w.record (.applyConfigMap (statusConfigMap revision reason))).putConfigMap
          (statusConfigMap revision reason))
      rw [hr] at hA hC hsec
      simp only [putConfigMap_secrets, record_secrets] at hA hC hsec
      obtain ⟨hA2, hB2, hC2⟩ := createNewRevision_secretLoop_snapshots f revision
        [nameFor "revision-status" revision] c.secrets w2 has hok
      obtain ⟨hcms, _, _⟩ := createNewRevision_secretLoop_frame f revision
        [nameFor "revision-status" revision] c.secrets w2
      rw [hsec] at hA2 hB2 hC2
      refine ⟨?_, ?_, ?_, hB2, ?_, hC2⟩
      · intro cm hcm
        rw [hcms, hA cm.Name (fun b hb => hac cm hcm b hb)]
        exact hsrc cm hcm
      · intro s hs
        exact hA2 s.Name (fun b hb => has s hs b hb)
      · intro cm hcm hopt
        have := hB cm hcm hopt
        rwa [hsrc cm hcm] at this
      · intro cm hcm src hs
        rw [hcms]
        exact hC cm hcm src (by rw [hsrc cm hcm]; exact hs)
  · have h2 : f.writeConfigMap (statusConfigMap revision reason).Name = some err := hmk
    simp [createNewRevision, ApplyConfigMap, h2] at hok

/-- C18, as stated, fails on the modelled store. The optional configmap `extra` has no source
and the namespace holds a configmap under the name `extra-1` of its snapshot. No tracked name
is a snapshot or marker name, `createNewRevision(1)` succeeds and skips `extra`, and
`isLatestRevisionCurrent(1)` then compares the stale `extra-1` with the empty content of the
absent source: it returns false, and the next `createRevisionIfNeeded` creates revision 2. -/
theorem createNewRevision_stale_snapshot_not_current :
    snapshotNamesApart mixedController.configMaps 1 ∧
    snapshotNamesApart mixedController.secrets 1 ∧
    markerNameApart mixedController 1 ∧
    (createNewRevision mixedController Faults.none 1 "r" staleSnapshotWorld).1 = none ∧
    (isLatestRevisionCurrent mixedController 1
      (createNewRevision mixedController Faults.none 1 "r" staleSnapshotWorld).2).1 =
      (false, "configmap/extra has changed") ∧
    (createRevisionIfNeeded mixedController Faults.none 1 "1"
      (createNewRevision mixedController Faults.none 1 "r"
        staleSnapshotWorld).2).2.latestAvailableRevision = 2 := by
  refine ⟨by decide, by decide, by decide, by decide, by decide, by decide⟩

/-- C18, amended: when no tracked name equals the snapshot name `nameFor(b, r)` of a tracked
resource of its kind or the marker name `nameFor("revision-status", r)`,
`createNewRevision(r)` succeeds, and every tracked resource without a source is left without
content under its snapshot name at `r`, then in every later state with the same configmaps
and secrets `isLatestRevisionCurrent(r)` returns `(true, "")`, and `createRevisionIfNeeded`
at revision `r` returns `(false, nil)` after reading only: it creates nothing. -/
theorem createNewRevision_then_current (c : RevisionController) (f f2 : Faults) (r : Int)
    (reason resourceVersion : String) (w w2 : World)
    (hac : snapshotNamesApart c.configMaps r) (has : snapshotNamesApart c.secrets r)
    (hm : markerNameApart c r)
    (hok : (createNewRevision c f r reason w).1 = none)
    (hcm : ∀ cm ∈ c.configMaps,
      findConfigMap cm.Name (createNewRevision c f r reason w).2.configMaps = none →
      DeepEqual (configMapData (nameFor cm.Name r) (createNewRevision c f r reason w).2) [] =
        true)
    (hs : ∀ s ∈ c.secrets,
      findSecret s.Name (createNewRevision c f r reason w).2.secrets = none →
      DeepEqual (secretData (nameFor s.Name r) (createNewRevision c f r reason w).2) [] = true)
    (hc2 : w2.configMaps = (createNewRevision c f r reason w).2.configMaps)
    (hs2 : w2.secrets = (createNewRevision c f r reason w).2.secrets) :
    (isLatestRevisionCurrent c r w2).1 = (true, "") ∧
    ∃ l, createRevisionIfNeeded c f2 r resourceVersion w2 =
        ((false, none), { w2 with log := w2.log ++ l }) ∧
      ∀ x ∈ l, x.isGet = true := by
  obtain ⟨hA, hB, hC, hD, hE, hF⟩ := createNewRevision_sources c f r reason w hac has hm hok
  have hreq : noRequiredMissing c r (createNewRevision c f r reason w).2 := by
    constructor
    · intro cm hcmem hopt
      obtain ⟨src, hsrc⟩ := Option.isSome_iff_exists.mp (hC cm hcmem hopt)
      rw [hA cm hcmem, hE cm hcmem src hsrc, hsrc]
      exact ⟨rfl, rfl⟩
    · intro s hsmem hopt
      obtain ⟨src, hsrc⟩ := Option.isSome_iff_exists.mp (hD s hsmem hopt)
      rw [hB s hsmem, hF s hsmem src hsrc, hsrc]
      exact ⟨rfl, rfl⟩
  have hdrift : driftEntries c r (createNewRevision c f r reason w).2 = [] := by
    unfold driftEntries driftedConfigMaps driftedSecrets
    have h1 : c.secrets.filter (fun s =>
        !DeepEqual (secretData (nameFor s.Name r) (createNewRevision c f r reason w).2)
          (secretData s.Name (createNewRevision c f r reason w).2)) = [] := by
      rw [List.filter_eq_nil_iff]
      intro s hsmem
      rcases hsrc : findSecret s.Name w.secrets with _ | src
      · have hnone := (hB s hsmem).trans hsrc
        have hd : secretData s.Name (createNewRevision c f r reason w).2 = [] := by
          unfold secretData; rw [hnone]
        rw [hd, hs s hsmem hnone]
        simp
      · have hd : secretData s.Name (createNewRevision c f r reason w).2 = src.Data := by
          unfold secretData; rw [hB s hsmem, hsrc]
        have hd2 : secretData (nameFor s.Name r) (createNewRevision c f r reason w).2 =
            src.Data := by
          unfold secretData; rw [hF s hsmem src hsrc]
        rw [hd, hd2, DeepEqual_refl]
        simp
    have h2 : c.configMaps.filter (fun cm =>
        !DeepEqual (configMapData (nameFor cm.Name r) (createNewRevision c f r reason w).2)
          (configMapData cm.Name (createNewRevision c f r reason w).2)) = [] := by
      rw [List.filter_eq_nil_iff]
      intro cm hcmem
      rcases hsrc : findConfigMap cm.Name w.configMaps with _ | src
      · have hnone := (hA cm hcmem).trans hsrc
        have hd : configMapData cm.Name (createNewRevision c f r reason w).2 = [] := by
          unfold configMapData; rw [hnone]
        rw [hd, hcm cm hcmem hnone]
        simp
      · have hd : configMapData cm.Name (createNewRevision c f r reason w).2 = src.Data := by
          unfold configMapData; rw [hA cm hcmem, hsrc]
        have hd2 : configMapData (nameFor cm.Name r) (createNewRevision c f r reason w).2 =
            src.Data := by
          unfold configMapData; rw [hE cm hcmem src hsrc]
        rw [hd, hd2, DeepEqual_refl]
        simp
    rw [h1, h2]
    rfl
  have hcur : (isLatestRevisionCurrent c r w2).1 = (true, "") := by
    rw [isLatestRevisionCurrent_congr c r w2 _ hc2 hs2]
    exact isLatestRevisionCurrent_no_drift c r _ hreq hdrift
  refine ⟨hcur, ?_⟩
  obtain ⟨l, hl, hg⟩ := isLatestRevisionCurrent_frame c r w2
  refine ⟨l, ?_, hg⟩
  rw [createRevisionIfNeeded_of_current c f2 r resourceVersion w2 (by rw [hcur]), hl]

/-- C18, amended, at the example of the specification: after `createNewRevision(1)` over the
source `config`, revision 1 is current and `createRevisionIfNeeded` only reads. -/
theorem createNewRevision_then_current_witness :
    (isLatestRevisionCurrent configController 1
      (createNewRevision configController Faults.none 1 "r" exampleWorld).2).1 = (true, "") ∧
    ∃ l, createRevisionIfNeeded configController Faults.none 1 "1"
        (createNewRevision configController Faults.none 1 "r" exampleWorld).2 =
        ((false, none),
          { (createNewRevision configController Faults.none 1 "r" exampleWorld).2 with
            log := (createNewRevision configController Faults.none 1 "r" exampleWorld).2.log
              ++ l }) ∧
      ∀ x ∈ l, x.isGet = true :=
  createNewRevision_then_current configController Faults.none Faults.none 1 "r" "1"
    exampleWorld (createNewRevision configController Faults.none 1 "r" exampleWorld).2
    (by decide) (by decide) (by decide) (by decide) (by decide) (by decide) rfl rfl

/-! ## The marker of a created revision and the recovery -/

theorem mem_upsertConfigMap (x r : ConfigMap) (l : List ConfigMap)
    (h : x ∈ upsertConfigMap r l) : x = r ∨ x ∈ l := by
  induction l with
  | nil => simpa [upsertConfigMap] using h
  | cons y ys ih =>
    unfold upsertConfigMap at h
    split at h
    · rcases List.mem_cons.mp h with h | h
      · exact Or.inl h
      · exact Or.inr (List.mem_cons_of_mem _ h)
    · rcases List.mem_cons.mp h with h | h
      · exact Or.inr (h ▸ List.mem_cons_self _ _)
      · rcases ih h with h | h
        · exact Or.inl h
        · exact Or.inr (List.mem_cons_of_mem _ h)

theorem findConfigMap_some (n : String) (l : List ConfigMap) (x : ConfigMap)
    (h : findConfigMap n l = some x) : x ∈ l ∧ x.Name = n := by
  unfold findConfigMap at h
  exact ⟨List.mem_of_find?_eq_some h, by simpa using List.find?_some h⟩

/-- A snapshot name at a non-negative revision has the reserved prefix only when the base name
has it, or when the base name is `revision-status`. -/
theorem startsWith_nameFor (b : String) (r : Int) (hr : 0 ≤ r)
    (h : startsWith (nameFor b r) "revision-status-" = true) :
    startsWith b "revision-status-" = true ∨ b = "revision-status" := by
  obtain ⟨hn, _⟩ := formatInt_nonneg r hr
  unfold startsWith nameFor at h
  unfold startsWith
  simp only [String.data_append, List.isPrefixOf_iff_prefix] at h ⊢
  rw [List.append_assoc, List.singleton_append] at h
  rcases List.prefix_or_prefix_of_prefix h (List.prefix_append b.data _) with hp | hp
  · exact Or.inl hp
  · obtain ⟨t, ht⟩ := hp
    rw [← ht, List.prefix_append_right_inj] at h
    cases t with
    | nil =>
      left
      rw [List.append_nil] at ht
      rw [ht]
    | cons c t' =>
      right
      obtain ⟨s, hs⟩ := h
      have hc : c = '-' := by
        have := congrArg List.head? hs
        simpa using this
      subst hc
      have ht' : '-' ∉ t' := by
        intro hm
        apply hn
        have : t' ++ s = (formatInt r).data := by
          simpa using hs
        rw [← this]
        exact List.mem_append_left _ hm
      have ht2 : b.data ++ '-' :: t' = "revision-status".data ++ '-' :: [] := ht
      exact String.ext (append_separator_inj '-' _ _ _ _ ht' (by simp) ht2).1

/-- The create-or-update of a configmap that respects the bound keeps the markers bounded. -/
theorem markersAtMost_upsert (r : Int) (x : ConfigMap) (l : List ConfigMap)
    (hl : markersAtMost r l)
    (hx : startsWith x.Name "revision-status-" = true →
      ∃ text n, x.Data.lookup "revision" = some text ∧ atoi text = .ok n ∧ isInt32 n ∧ n ≤ r) :
    markersAtMost r (upsertConfigMap x l) := by
  intro cm hcm
  rcases mem_upsertConfigMap cm x l hcm with h | h
  · rw [h]; exact hx
  · exact hl cm h

/-- The configmap loop of `createNewRevision` at a non-negative revision keeps the markers
bounded when no tracked configmap is named `revision-status`: a snapshot with the reserved
prefix copies the data of a source with the reserved prefix. -/
theorem createNewRevision_configMapLoop_markersAtMost (f : Faults) (revision r : Int)
    (ownerRefs : List String) (tracked : List RevisionResource) (w : World)
    (hrev : 0 ≤ revision) (hnot : ∀ b ∈ tracked, b.Name ≠ "revision-status")
    (h : markersAtMost r w.configMaps) :
    markersAtMost r
      (createNewRevision.configMapLoop f revision ownerRefs tracked w).2.configMaps := by
  induction tracked generalizing w with
  | nil => exact h
  | cons cm rest ih =>
    have hrest := fun b hb => hnot b (List.mem_cons_of_mem _ hb)
    rw [createNewRevision_configMapLoop_cons]
    rcases h1 : findConfigMap cm.Name w.configMaps with _ | source
    · rcases h3 : cm.Optional with _ | _
      · exact h
      · exact ih _ hrest h
    · rcases h2 : f.writeConfigMap (nameFor cm.Name revision) with _ | err
      · refine ih _ hrest ?_
        simp only [putConfigMap_configMaps, record_configMaps]
        refine markersAtMost_upsert r _ _ h ?_
        intro hp
        obtain ⟨hmem, hname⟩ := findConfigMap_some _ _ _ h1
        rcases startsWith_nameFor cm.Name revision hrev hp with hs | hs
        · exact h source hmem (by rw [hname]; exact hs)
        · exact absurd hs (hnot cm (List.mem_cons_self _ _))
      · exact h

/-- The revision that the status configmap of a revision within the 64-bit range carries. -/
theorem markerRevision_statusConfigMap (r : Int) (reason : String)
    (h1 : -9223372036854775808 ≤ r) (h2 : r ≤ 9223372036854775807) :
    startsWith (statusConfigMap r reason).Name "revision-status-" = true ∧
    (statusConfigMap r reason).Data.lookup "revision" = some (formatInt r) ∧
    markerRevision (statusConfigMap r reason) = some r := by
  have hp : startsWith (statusConfigMap r reason).Name "revision-status-" = true := by
    unfold startsWith statusConfigMap nameFor
    simp only [String.data_append]
    exact isPrefixOf_append_self _ _
  have hl : (statusConfigMap r reason).Data.lookup "revision" = some (formatInt r) := by
    simp [statusConfigMap, List.lookup]
  refine ⟨hp, hl, ?_⟩
  unfold markerRevision markerRevisionText
  rw [if_pos hp, hl]
  simp only [atoi_formatInt r h1 h2]

/-- C20, as stated, fails. The existing marker `revision-status-0` carries the well-formed
decimal `-4294967290`, which is not above 1, and no tracked configmap is named
`revision-status`. `createNewRevision(1)` succeeds and writes its marker, and
`getLatestAvailableRevision` returns 6: the conversion `int32()` wraps the old marker. -/
theorem getLatestAvailableRevision_wrapped_marker :
    (∀ b ∈ configController.configMaps, b.Name ≠ "revision-status") ∧
    wellFormedDecimal "-4294967290" = true ∧
    atoi "-4294967290" = .ok (-4294967290) ∧
    (-4294967290 : Int) ≤ 1 ∧
    (createNewRevision configController Faults.none 1 "r" wrappedMarkerWorld).1 = none ∧
    findConfigMap (nameFor "revision-status" 1)
        (createNewRevision configController Faults.none 1 "r" wrappedMarkerWorld).2.configMaps =
      some { Name := "revision-status-1", Data := [("revision", "1"), ("reason", "r")],
             OwnerReferences := [] } ∧
    (getLatestAvailableRevision Faults.none
      (createNewRevision configController Faults.none 1 "r" wrappedMarkerWorld).2).1 =
      (6, none) := by
  refine ⟨by decide, by decide, by decide, by decide, by decide, by decide, by decide⟩

/-- C20, amended: for every revision `r` with `1 ≤ r ≤ 2^31-1`, every reason, and every store
in which no tracked configmap is named `revision-status` and every existing configmap with the
reserved prefix carries a revision text that parses to an `int32` not above `r`: after
`createNewRevision(r, reason)` succeeds, the configmap `nameFor("revision-status", r)` holds
the data `revision` = the decimal text of `r`, which `Atoi` reads back as `r`, and `reason` =
the given reason, and `getLatestAvailableRevision`, when its list call succeeds, returns
exactly `r` without error. -/
theorem createNewRevision_marker_round_trip (c : RevisionController) (f f2 : Faults) (r : Int)
    (reason : String) (w : World) (h1 : 1 ≤ r) (h2 : r ≤ 2147483647)
    (hnot : ∀ b ∈ c.configMaps, b.Name ≠ "revision-status")
    (hmk : markersAtMost r w.configMaps)
    (hok : (createNewRevision c f r reason w).1 = none)
    (hlist : f2.listConfigMaps = none) :
    findConfigMap (nameFor "revision-status" r) (createNewRevision c f r reason w).2.configMaps =
      some { Name := nameFor "revision-status" r,
             Data := [("revision", formatInt r), ("reason", reason)],
             OwnerReferences := [] } ∧
    atoi (formatInt r) = .ok r ∧
    (getLatestAvailableRevision f2 (createNewRevision c f r reason w).2).1 = (r, none) := by
  have hatoi : atoi (formatInt r) = .ok r := atoi_formatInt r (by omega) (by omega)
  have hfind : findConfigMap (nameFor "revision-status" r)
      (createNewRevision c f r reason w).2.configMaps = some (statusConfigMap r reason) ∧
      markersAtMost r (createNewRevision c f r reason w).2.configMaps := by
    rcases hm : f.writeConfigMap (nameFor "revision-status" r) with _ | err
    · rw [createNewRevision_of_marker_ok c f r reason w hm] at hok ⊢
      have hinv := createNewRevision_configMapLoop_markersAtMost f r r
        [nameFor "revision-status" r] c.configMaps
        ((w.record (.applyConfigMap (statusConfigMap r reason))).putConfigMap
          (statusConfigMap r reason)) (by omega) hnot
        (by
          simp only [putConfigMap_configMaps, record_configMaps]
          refine markersAtMost_upsert r _ _ hmk (fun _ => ?_)
          exact ⟨formatInt r, r,
            (markerRevision_statusConfigMap r reason (by omega) (by omega)).2.1, hatoi,
            ⟨by omega, h2⟩, le_refl r⟩)
      obtain ⟨hA, _⟩ := createNewRevision_configMapLoop_others f r
        [nameFor "revision-status" r] c.configMaps
        ((w.record (.applyConfigMap (statusConfigMap r reason))).putConfigMap
          (statusConfigMap r reason))
      have hmarker := hA (nameFor "revision-status" r)
        (fun b hb e => hnot b hb (nameFor_left_inj _ _ r e).symm)
      rcases hr : createNewRevision.configMapLoop f r [nameFor "revision-status" r]
        c.configMaps
        ((w.record (.applyConfigMap (statusConfigMap r reason))).putConfigMap
          (statusConfigMap r reason)) with ⟨res, w2⟩
      rw [hr] at hok hinv hmarker
      cases res with
      | some err => simp at hok
      | none =>
        simp only at hok hinv hmarker ⊢
        obtain ⟨hcms, _, _⟩ := createNewRevision_secretLoop_frame f r
          [nameFor "revision-status" r] c.secrets w2
        rw [hcms]
        refine ⟨?_, hinv⟩
        rw [hmarker, putConfigMap_configMaps, findConfigMap_upsert]
        exact if_pos rfl
    · have h3 : f.writeConfigMap (statusConfigMap r reason).Name = some err := hm
      simp [createNewRevision, ApplyConfigMap, h3] at hok
  obtain ⟨hfound, hbound⟩ := hfind
  refine ⟨hfound, hatoi, ?_⟩
  obtain ⟨res, hres, _, hall, hmem⟩ := getLatestAvailableRevision_loop_spec
    (createNewRevision c f r reason w).2.configMaps
    (fun cm hcm hp => by
      obtain ⟨text, n, ha, hb, hc, _⟩ := hbound cm hcm hp
      exact ⟨text, n, ha, hb, hc⟩) 0
  have hin : r ∈ markerRevisions (createNewRevision c f r reason w).2.configMaps := by
    unfold markerRevisions
    rw [List.mem_filterMap]
    exact ⟨statusConfigMap r reason, (findConfigMap_some _ _ _ hfound).1,
      (markerRevision_statusConfigMap r reason (by omega) (by omega)).2.2⟩
  have hle : r ≤ res := hall r hin
  have hge : res ≤ r := by
    rcases hmem with h0 | hm
    · omega
    · unfold markerRevisions at hm
      rw [List.mem_filterMap] at hm
      obtain ⟨cm, hcm, hrev⟩ := hm
      unfold markerRevision markerRevisionText at hrev
      by_cases hp : startsWith cm.Name "revision-status-" = true
      · obtain ⟨text, n, ha, hb, _, hn⟩ := hbound cm hcm hp
        rw [if_pos hp, ha] at hrev
        simp only [hb, Option.some.injEq] at hrev
        omega
      · rw [if_neg hp] at hrev
        simp at hrev
  have heq : res = r := le_antisymm hge hle
  subst heq
  simp [getLatestAvailableRevision, listConfigMaps, hlist, hres]

/-- C20, amended, at the example of the specification after its first synchronization:
`createNewRevision(2)` writes the marker `revision-status-2` and the recovery returns 2. -/
theorem createNewRevision_marker_round_trip_witness :
    findConfigMap (nameFor "revision-status" 2)
        (createNewRevision configController Faults.none 2 "changed" changedWorld).2.configMaps =
      some { Name := nameFor "revision-status" 2,
             Data := [("revision", formatInt 2), ("reason", "changed")],
             OwnerReferences := [] } ∧
    atoi (formatInt 2) = .ok 2 ∧
    (getLatestAvailableRevision Faults.none
      (createNewRevision configController Faults.none 2 "changed" changedWorld).2).1 =
      (2, none) :=
  createNewRevision_marker_round_trip configController Faults.none Faults.none 2 "changed"
    changedWorld (by decide) (by decide) (by decide)
    (by
      intro cm hcm hp
      simp only [changedWorld, List.mem_cons, List.mem_singleton, List.not_mem_nil,
        or_false] at hcm
      rcases hcm with rfl | rfl | rfl
      · exact absurd hp (by decide)
      · exact ⟨"1", 1, by decide, by decide, by decide, by decide⟩
      · exact absurd hp (by decide))
    (by decide) rfl

/-! ## A second creation of the same revision -/

/-- When no tracked configmap is named like a snapshot of the revision and the configmap loop of
`createNewRevision` ends without error: the write of the snapshot of every tracked configmap
with a source was accepted, and every configmap under another name than these snapshots is as
before. -/
theorem createNewRevision_configMapLoop_written (f : Faults) (revision : Int)
    (ownerRefs : List String) (tracked : List RevisionResource) (w : World)
    (hap : snapshotNamesApart tracked revision)
    (hok : (createNewRevision.configMapLoop f revision ownerRefs tracked w).1 = none) :
    (∀ b ∈ tracked, (findConfigMap b.Name w.configMaps).isSome = true →
      f.writeConfigMap (nameFor b.Name revision) = none) ∧
    (∀ n, (∀ b ∈ tracked, (findConfigMap b.Name w.configMaps).isSome = true →
        n ≠ nameFor b.Name revision) →
      findConfigMap n
        (createNewRevision.configMapLoop f revision ownerRefs tracked w).2.configMaps =
        findConfigMap n w.configMaps) := by
  induction tracked generalizing w with
  | nil => exact ⟨fun b hb => (by cases hb), fun _ _ => rfl⟩
  | cons cm rest ih =>
    have hrest : snapshotNamesApart rest revision :=
      fun a ha b hb => hap a (List.mem_cons_of_mem _ ha) b (List.mem_cons_of_mem _ hb)
    rw [createNewRevision_configMapLoop_cons] at hok ⊢
    rcases h1 : findConfigMap cm.Name w.configMaps with _ | source
    · rw [h1] at hok
      rcases h3 : cm.Optional with _ | _
      · simp [h3] at hok
      · simp only [h3, if_true] at hok ⊢
        obtain ⟨hW, hF⟩ := ih _ hrest hok
        refine ⟨fun b hb hs => ?_, fun n hn => ?_⟩
        · rcases List.mem_cons.mp hb with rfl | hb
          · rw [h1] at hs; cases hs
          · exact hW b hb (by simpa using hs)
        · simpa using hF n (fun b hb hs =>
            hn b (List.mem_cons_of_mem _ hb) (by simpa using hs))
    · rw [h1] at hok
      rcases h2 : f.writeConfigMap (nameFor cm.Name revision) with _ | err
      · simp only [h2] at hok ⊢
        obtain ⟨hW, hF⟩ := ih _ hrest hok
        have hkeep : ∀ b ∈ cm :: rest,
            findConfigMap b.Name
              (((w.record (.syncConfigMap cm.Name (nameFor cm.Name revision))).record
                (.applyConfigMap { Name := nameFor cm.Name revision, Data := source.Data,
                                   OwnerReferences := ownerRefs })).putConfigMap
                { Name := nameFor cm.Name revision, Data := source.Data,
                  OwnerReferences := ownerRefs }).configMaps =
              findConfigMap b.Name w.configMaps := by
          intro b hb
          have hne : ¬ nameFor cm.Name revision = b.Name :=
            fun e => hap b hb cm (List.mem_cons_self _ _) e.symm
          simp [findConfigMap_upsert, hne]
        refine ⟨fun b hb hs => ?_, fun n hn => ?_⟩
        · rcases List.mem_cons.mp hb with rfl | hb'
          · exact h2
          · exact hW b hb' (by rw [hkeep b hb]; exact hs)
        · rw [hF n (fun b hb hs => hn b (List.mem_cons_of_mem _ hb)
            (by rw [← hkeep b (List.mem_cons_of_mem _ hb)]; exact hs))]
          have hne : ¬ nameFor cm.Name revision = n :=
            fun e => hn cm (List.mem_cons_self _ _) (by simp [h1]) e.symm
          simp [findConfigMap_upsert, hne]
      · simp [h2] at hok

/-- When no tracked secret is named like a snapshot of the revision and the secret loop of
`createNewRevision` ends without error: the write of the snapshot of every tracked secret with
a source was accepted. -/
theorem createNewRevision_secretLoop_written (f : Faults) (revision : Int)
    (ownerRefs : List String) (tracked : List RevisionResource) (w : World)
    (hap : snapshotNamesApart tracked revision)
    (hok : (createNewRevision.secretLoop f revision ownerRefs tracked w).1 = none) :
    ∀ b ∈ tracked, (findSecret b.Name w.secrets).isSome = true →
      f.writeSecret (nameFor b.Name revision) = none := by
  induction tracked generalizing w with
  | nil => exact fun b hb => by cases hb
  | cons s rest ih =>
    have hrest : snapshotNamesApart rest revision :=
      fun a ha b hb => hap a (List.mem_cons_of_mem _ ha) b (List.mem_cons_of_mem _ hb)
    rw [createNewRevision_secretLoop_cons] at hok
    rcases h1 : findSecret s.Name w.secrets with _ | source
    · rw [h1] at hok
      rcases h3 : s.Optional with _ | _
      · simp [h3] at hok
      · simp only [h3, if_true] at hok
        have hW := ih _ hrest hok
        intro b hb hs
        rcases List.mem_cons.mp hb with rfl | hb
        · rw [h1] at hs; cases hs
        · exact hW b hb (by simpa using hs)
    · rw [h1] at hok
      rcases h2 : f.writeSecret (nameFor s.Name revision) with _ | err
      · simp only [h2] at hok
        have hW := ih _ hrest hok
        intro b hb hs
        rcases List.mem_cons.mp hb with rfl | hb'
        · exact h2
        · refine hW b hb' ?_
          have hne : ¬ nameFor s.Name revision = b.Name :=
            fun e => hap b hb s (List.mem_cons_self _ _) e.symm
          simpa [findSecret_upsert, hne] using hs
      · simp [h2] at hok

/-- The create-or-update of a configmap that the namespace already holds changes nothing. -/
theorem upsertConfigMap_of_find (x : ConfigMap) (l : List ConfigMap)
    (h : findConfigMap x.Name l = some x) : upsertConfigMap x l = l := by
  induction l with
  | nil => simp [findConfigMap] at h
  | cons y ys ih =>
    unfold findConfigMap at h ih
    rw [List.find?_cons] at h
    by_cases hy : y.Name = x.Name
    · simp only [hy, decide_True, Option.some.injEq] at h
      simp [upsertConfigMap, hy, h]
    · simp only [hy, decide_False] at h
      simp [upsertConfigMap, hy, ih h]

/-- The create-or-update of a secret that the namespace already holds changes nothing. -/
theorem upsertSecret_of_find (x : Secret) (l : List Secret)
    (h : findSecret x.Name l = some x) : upsertSecret x l = l := by
  induction l with
  | nil => simp [findSecret] at h
  | cons y ys ih =>
    unfold findSecret at h ih
    rw [List.find?_cons] at h
    by_cases hy : y.Name = x.Name
    · simp only [hy, decide_True, Option.some.injEq] at h
      simp [upsertSecret, hy, h]
    · simp only [hy, decide_False] at h
      simp [upsertSecret, hy, ih h]

/-- A create-or-update hides an earlier one under the same name. -/
theorem upsertConfigMap_upsert (a b : ConfigMap) (l : List ConfigMap) (h : a.Name = b.Name) :
    upsertConfigMap a (upsertConfigMap b l) = upsertConfigMap a l := by
  induction l with
  | nil => simp [upsertConfigMap, h]
  | cons y ys ih =>
    by_cases hy : y.Name = b.Name
    · have hya : y.Name = a.Name := hy.trans h.symm
      simp [upsertConfigMap, hy, hya, h]
    · have hya : ¬ y.Name = a.Name := fun e => hy (e.trans h)
      simp [upsertConfigMap, hy, hya, ih]

/-- The configmap loop of `createNewRevision` over a namespace that already holds every
snapshot it writes, started right after the write of the marker `m`: it ends without error
and leaves the configmaps `L` of before the marker write, or those of after it; it leaves `L`
when it started from `L` or when it writes a snapshot under the name of `m`. -/
theorem createNewRevision_configMapLoop_again (f : Faults) (revision : Int)
    (ownerRefs : List String) (tracked : List RevisionResource) (L : List ConfigMap)
    (m : ConfigMap) (v : World)
    (hsnap : ∀ b ∈ tracked, ∀ src, findConfigMap b.Name L = some src →
      findConfigMap (nameFor b.Name revision) L =
        some { Name := nameFor b.Name revision, Data := src.Data,
               OwnerReferences := ownerRefs })
    (hsrc : ∀ b ∈ tracked,
      findConfigMap b.Name (upsertConfigMap m L) = findConfigMap b.Name L)
    (hreq : ∀ b ∈ tracked, findConfigMap b.Name L = none → b.Optional = true)
    (hwr : ∀ b ∈ tracked, (findConfigMap b.Name L).isSome = true →
      f.writeConfigMap (nameFor b.Name revision) = none)
    (hv : v.configMaps = L ∨ v.configMaps = upsertConfigMap m L) :
    (createNewRevision.configMapLoop f revision ownerRefs tracked v).1 = none ∧
    ((createNewRevision.configMapLoop f revision ownerRefs tracked v).2.configMaps = L ∨
      (createNewRevision.configMapLoop f revision ownerRefs tracked v).2.configMaps =
        upsertConfigMap m L) ∧
    (v.configMaps = L →
      (createNewRevision.configMapLoop f revision ownerRefs tracked v).2.configMaps = L) ∧
    ((∃ b ∈ tracked, (findConfigMap b.Name L).isSome = true ∧
        nameFor b.Name revision = m.Name) →
      (createNewRevision.configMapLoop f revision ownerRefs tracked v).2.configMaps = L) := by
  induction tracked generalizing v with
  | nil =>
    refine ⟨rfl, hv, fun h => h, ?_⟩
    rintro ⟨b, hb, _⟩
    cases hb
  | cons cm rest ih =>
    have ih2 := fun v hv => ih v
      (fun b hb => hsnap b (List.mem_cons_of_mem _ hb))
      (fun b hb => hsrc b (List.mem_cons_of_mem _ hb))
      (fun b hb => hreq b (List.mem_cons_of_mem _ hb))
      (fun b hb => hwr b (List.mem_cons_of_mem _ hb)) hv
    have hfind : findConfigMap cm.Name v.configMaps = findConfigMap cm.Name L := by
      rcases hv with hv | hv
      · rw [hv]
      · rw [hv]; exact hsrc cm (List.mem_cons_self _ _)
    rw [createNewRevision_configMapLoop_cons, hfind]
    rcases h1 : findConfigMap cm.Name L with _ | source
    · have hopt := hreq cm (List.mem_cons_self _ _) h1
      simp only [hopt, if_true]
      obtain ⟨i1, i2, i3, i4⟩ :=
        ih2 (v.record (.syncConfigMap cm.Name (nameFor cm.Name revision))) hv
      refine ⟨i1, i2, i3, ?_⟩
      rintro ⟨b, hb, hs, hn⟩
      rcases List.mem_cons.mp hb with rfl | hb
      · rw [h1] at hs; cases hs
      · exact i4 ⟨b, hb, hs, hn⟩
    · have hw := hwr cm (List.mem_cons_self _ _) (by rw [h1]; rfl)
      have hs := hsnap cm (List.mem_cons_self _ _) source h1
      simp only [hw]
      by_cases hL : v.configMaps = L
      · obtain ⟨i1, i2, i3, _⟩ := ih2
          (((v.record (.syncConfigMap cm.Name (nameFor cm.Name revision))).record
            (.applyConfigMap { Name := nameFor cm.Name revision, Data := source.Data,
                               OwnerReferences := ownerRefs })).putConfigMap
            { Name := nameFor cm.Name revision, Data := source.Data,
              OwnerReferences := ownerRefs })
          (Or.inl (by
            simp only [putConfigMap_configMaps, record_configMaps, hL]
            exact upsertConfigMap_of_find _ _ hs))
        have hres := i3 (by
          simp only [putConfigMap_configMaps, record_configMaps, hL]
          exact upsertConfigMap_of_find _ _ hs)
        exact ⟨i1, Or.inl hres, fun _ => hres, fun _ => hres⟩
      · have hL1 : v.configMaps = upsertConfigMap m L := hv.resolve_left hL
        by_cases hn : nameFor cm.Name revision = m.Name
        · obtain ⟨i1, i2, i3, _⟩ := ih2
            (((v.record (.syncConfigMap cm.Name (nameFor cm.Name revision))).record
              (.applyConfigMap { Name := nameFor cm.Name revision, Data := source.Data,
                                 OwnerReferences := ownerRefs })).putConfigMap
              { Name := nameFor cm.Name revision, Data := source.Data,
                OwnerReferences := ownerRefs })
            (Or.inl (by
              simp only [putConfigMap_configMaps, record_configMaps, hL1]
              rw [upsertConfigMap_upsert _ _ _ hn]
              exact upsertConfigMap_of_find _ _ hs))
          have hres := i3 (by
            simp only [putConfigMap_configMaps, record_configMaps, hL1]
            rw [upsertConfigMap_upsert _ _ _ hn]
            exact upsertConfigMap_of_find _ _ hs)
          exact ⟨i1, Or.inl hres, fun _ => hres, fun _ => hres⟩
        · have hstay : (((v.record (.syncConfigMap cm.Name (nameFor cm.Name revision))).record
              (.applyConfigMap { Name := nameFor cm.Name revision, Data := source.Data,
                                 OwnerReferences := ownerRefs })).putConfigMap
              { Name := nameFor cm.Name revision, Data := source.Data,
                OwnerReferences := ownerRefs }).configMaps = upsertConfigMap m L := by
            simp only [putConfigMap_configMaps, record_configMaps, hL1]
            refine upsertConfigMap_of_find _ _ ?_
            rw [findConfigMap_upsert, if_neg (fun e => hn e.symm)]
            exact hs
          obtain ⟨i1, i2, _, i4⟩ := ih2 _ (Or.inr hstay)
          refine ⟨i1, i2, fun h => absurd h hL, ?_⟩
          rintro ⟨b, hb, hsb, hnb⟩
          rcases List.mem_cons.mp hb with rfl | hb
          · exact absurd hnb hn
          · exact i4 ⟨b, hb, hsb, hnb⟩

/-- The secret loop of `createNewRevision` over a namespace that already holds every snapshot
it writes: it ends without error and leaves the secrets as they are. -/
theorem createNewRevision_secretLoop_again (f : Faults) (revision : Int)
    (ownerRefs : List String) (tracked : List RevisionResource) (S : List Secret) (v : World)
    (hsnap : ∀ b ∈ tracked, ∀ src, findSecret b.Name S = some src →
      findSecret (nameFor b.Name revision) S =
        some { Name := nameFor b.Name revision, Data := src.Data,
               OwnerReferences := ownerRefs })
    (hreq : ∀ b ∈ tracked, findSecret b.Name S = none → b.Optional = true)
    (hwr : ∀ b ∈ tracked, (findSecret b.Name S).isSome = true →
      f.writeSecret (nameFor b.Name revision) = none)
    (hv : v.secrets = S) :
    (createNewRevision.secretLoop f revision ownerRefs tracked v).1 = none ∧
    (createNewRevision.secretLoop f revision ownerRefs tracked v).2.secrets = S := by
  induction tracked generalizing v with
  | nil => exact ⟨rfl, hv⟩
  | cons s rest ih =>
    have ih2 := fun v hv => ih v
      (fun b hb => hsnap b (List.mem_cons_of_mem _ hb))
      (fun b hb => hreq b (List.mem_cons_of_mem _ hb))
      (fun b hb => hwr b (List.mem_cons_of_mem _ hb)) hv
    rw [createNewRevision_secretLoop_cons, hv]
    rcases h1 : findSecret s.Name S with _ | source
    · have hopt := hreq s (List.mem_cons_self _ _) h1
      simp only [hopt, if_true]
      exact ih2 _ hv
    · have hw := hwr s (List.mem_cons_self _ _) (by rw [h1]; rfl)
      have hs := hsnap s (List.mem_cons_self _ _) source h1
      simp only [hw]
      refine ih2 _ ?_
      simp only [putSecret_secrets, record_secrets, hv]
      exact upsertSecret_of_find _ _ hs

/-- C15, as stated, fails. The controller tracks `a-1` and then `a`, and both have a source.
The first `createNewRevision(1)` succeeds: it copies the old `a-1` to `a-1-1` and then writes
the snapshot of `a` over `a-1`. The second run, with nothing changed in between, succeeds and
copies the new `a-1` to `a-1-1`: the snapshot `a-1-1` is not as the first run left it. -/
theorem createNewRevision_second_run_changes_snapshot :
    (createNewRevision overlapFirstController Faults.none 1 "r" overlapWorld).1 = none ∧
    (createNewRevision overlapFirstController Faults.none 1 "r"
      (createNewRevision overlapFirstController Faults.none 1 "r" overlapWorld).2).1 = none ∧
    findConfigMap "a-1-1"
        (createNewRevision overlapFirstController Faults.none 1 "r"
          overlapWorld).2.configMaps =
      some { Name := "a-1-1", Data := [("k", "old")],
             OwnerReferences := ["revision-status-1"] } ∧
    findConfigMap "a-1-1"
        (createNewRevision overlapFirstController Faults.none 1 "r"
          (createNewRevision overlapFirstController Faults.none 1 "r"
            overlapWorld).2).2.configMaps =
      some { Name := "a-1-1", Data := [("k", "va")],
             OwnerReferences := ["revision-status-1"] } := by
  refine ⟨by decide, by decide, by decide, by decide⟩

/-- C15, amended: when no tracked resource is named like the snapshot at `r` of a tracked
resource of its kind and `createNewRevision(r, reason)` succeeds, a second run of
`createNewRevision(r, reason)` over the configmaps and secrets that the first run left, with
the same calls accepted, also succeeds and leaves exactly the same configmaps and secrets:
the marker, every snapshot of revision `r` and everything else. -/
theorem createNewRevision_idempotent (c : RevisionController) (f : Faults) (r : Int)
    (reason : String) (w w2 : World)
    (hac : snapshotNamesApart c.configMaps r) (has : snapshotNamesApart c.secrets r)
    (hok : (createNewRevision c f r reason w).1 = none)
    (hc2 : w2.configMaps = (createNewRevision c f r reason w).2.configMaps)
    (hs2 : w2.secrets = (createNewRevision c f r reason w).2.secrets) :
    (createNewRevision c f r reason w2).1 = none ∧
    (createNewRevision c f r reason w2).2.configMaps =
      (createNewRevision c f r reason w).2.configMaps ∧
    (createNewRevision c f r reason w2).2.secrets =
      (createNewRevision c f r reason w).2.secrets := by
  rcases hm : f.writeConfigMap (nameFor "revision-status" r) with _ | err
  · rw [createNewRevision_of_marker_ok c f r reason w hm] at hok hc2 hs2 ⊢
    rw [createNewRevision_of_marker_ok c f r reason w2 hm]
    obtain ⟨hA, hB, hC⟩ := createNewRevision_configMapLoop_snapshots f r
      [nameFor "revision-status" r] c.configMaps
      ((w.record (.applyConfigMap (statusConfigMap r reason))).putConfigMap
        (statusConfigMap r reason)) hac
      (by
        rcases hq : createNewRevision.configMapLoop f r [nameFor "revision-status" r]
          c.configMaps ((w.record (.applyConfigMap (statusConfigMap r reason))).putConfigMap
            (statusConfigMap r reason)) with ⟨q, wq⟩
        rw [hq] at hok
        cases q with
        | some err => simp at hok
        | none => rfl)
    obtain ⟨hW, hF⟩ := createNewRevision_configMapLoop_written f r
      [nameFor "revision-status" r] c.configMaps
      ((w.record (.applyConfigMap (statusConfigMap r reason))).putConfigMap
        (statusConfigMap r reason)) hac
      (by
        rcases hq : createNewRevision.configMapLoop f r [nameFor "revision-status" r]
          c.configMaps ((w.record (.applyConfigMap (statusConfigMap r reason))).putConfigMap
            (statusConfigMap r reason)) with ⟨q, wq⟩
        rw [hq] at hok
        cases q with
        | some err => simp at hok
        | none => rfl)
    obtain ⟨hsecA, _, _⟩ := createNewRevision_configMapLoop_frame f r
      [nameFor "revision-status" r] c.configMaps
      ((w.record (.applyConfigMap (statusConfigMap r reason))).putConfigMap
        (statusConfigMap r reason))
    rcases hr : createNewRevision.configMapLoop f r [nameFor "revision-status" r]
      c.configMaps ((w.record (.applyConfigMap (statusConfigMap r reason))).putConfigMap
        (statusConfigMap r reason)) with ⟨res1, wA⟩
    rw [hr] at hok hc2 hs2 hA hC hF hsecA
    cases res1 with
    | some err => simp at hok
    | none =>
      simp only at hok hc2 hs2 hA hC hF hsecA ⊢
      obtain ⟨hcmB, _, _⟩ := createNewRevision_secretLoop_frame f r
        [nameFor "revision-status" r] c.secrets wA
      obtain ⟨hA2, hB2, hC2⟩ := createNewRevision_secretLoop_snapshots f r
        [nameFor "revision-status" r] c.secrets wA has hok
      have hW2 := createNewRevision_secretLoop_written f r
        [nameFor "revision-status" r] c.secrets wA has hok
      rw [hcmB] at hc2 ⊢
      -- the configmaps of the first run, seen from the second
      have hF1 : ∀ b ∈ c.configMaps, findConfigMap b.Name wA.configMaps =
          findConfigMap b.Name
            ((w.record (.applyConfigMap (statusConfigMap r reason))).putConfigMap
              (statusConfigMap r reason)).configMaps :=
        fun b hb => hA b.Name (fun b2 hb2 => hac b hb b2 hb2)
      have hmarker : findConfigMap (statusConfigMap r reason).Name
          ((w.record (.applyConfigMap (statusConfigMap r reason))).putConfigMap
            (statusConfigMap r reason)).configMaps = some (statusConfigMap r reason) := by
        rw [putConfigMap_configMaps, findConfigMap_upsert]
        exact if_pos rfl
      have hagain := createNewRevision_configMapLoop_again f r
        [nameFor "revision-status" r] c.configMaps wA.configMaps (statusConfigMap r reason)
        ((w2.record (.applyConfigMap (statusConfigMap r reason))).putConfigMap
          (statusConfigMap r reason))
        (fun b hb src hsrc => hC b hb src (by rw [← hF1 b hb]; exact hsrc))
        (fun b hb => by
          rw [findConfigMap_upsert]
          split
          · rename_i hn
            rw [hF1 b hb, ← hn]
            exact hmarker.symm
          · rfl)
        (fun b hb hnone => by
          rcases ho : b.Optional with _ | _
          · have := hB b hb ho
            rw [← hF1 b hb, hnone] at this
            cases this
          · rfl)
        (fun b hb hs => hW b hb (by rw [← hF1 b hb]; exact hs))
        (Or.inr (by rw [putConfigMap_configMaps, record_configMaps, hc2]))
      obtain ⟨hsecV, _, _⟩ := createNewRevision_configMapLoop_frame f r
        [nameFor "revision-status" r] c.configMaps
        ((w2.record (.applyConfigMap (statusConfigMap r reason))).putConfigMap
          (statusConfigMap r reason))
      rcases hr2 : createNewRevision.configMapLoop f r [nameFor "revision-status" r]
        c.configMaps ((w2.record (.applyConfigMap (statusConfigMap r reason))).putConfigMap
          (statusConfigMap r reason)) with ⟨res2, vA⟩
      rw [hr2] at hagain hsecV
      obtain ⟨g1, g2, _, g4⟩ := hagain
      simp only at g1 g2 g4 hsecV
      subst g1
      simp only
      have hvA : vA.configMaps = wA.configMaps := by
        by_cases hex : ∃ b ∈ c.configMaps, (findConfigMap b.Name wA.configMaps).isSome = true ∧
            nameFor b.Name r = (statusConfigMap r reason).Name
        · exact g4 hex
        · rcases g2 with g2 | g2
          · exact g2
          · rw [g2]
            refine upsertConfigMap_of_find _ _ ?_
            rw [hF (statusConfigMap r reason).Name (fun b hb hs e =>
              hex ⟨b, hb, by rw [hF1 b hb]; exact hs, e.symm⟩)]
            exact hmarker
      have hsecAgain := createNewRevision_secretLoop_again f r
        [nameFor "revision-status" r] c.secrets
        (createNewRevision.secretLoop f r [nameFor "revision-status" r] c.secrets wA).2.secrets
        vA
        (fun b hb src hsrc => hC2 b hb src (by
          rw [← hA2 b.Name (fun b2 hb2 => has b hb b2 hb2)]; exact hsrc))
        (fun b hb hnone => by
          rcases ho : b.Optional with _ | _
          · have := hB2 b hb ho
            rw [← hA2 b.Name (fun b2 hb2 => has b hb b2 hb2), hnone] at this
            cases this
          · rfl)
        (fun b hb hs => hW2 b hb (by
          rw [← hA2 b.Name (fun b2 hb2 => has b hb b2 hb2)]; exact hs))
        (by rw [hsecV]; simpa using hs2)
      obtain ⟨hcmV, _, _⟩ := createNewRevision_secretLoop_frame f r
        [nameFor "revision-status" r] c.secrets vA
      exact ⟨hsecAgain.1, by rw [hcmV, hvA], hsecAgain.2⟩
  · have h3 : f.writeConfigMap (statusConfigMap r reason).Name = some err := hm
    simp [createNewRevision, ApplyConfigMap, h3] at hok

/-- C15, amended, at the example of the specification: a second `createNewRevision(1)` over
the source `config` succeeds and leaves the configmaps and secrets of the first. -/
theorem createNewRevision_idempotent_witness :
    (createNewRevision configController Faults.none 1 "r"
      (createNewRevision configController Faults.none 1 "r" exampleWorld).2).1 = none ∧
    (createNewRevision configController Faults.none 1 "r"
      (createNewRevision configController Faults.none 1 "r" exampleWorld).2).2.configMaps =
      (createNewRevision configController Faults.none 1 "r" exampleWorld).2.configMaps ∧
    (createNewRevision configController Faults.none 1 "r"
      (createNewRevision configController Faults.none 1 "r" exampleWorld).2).2.secrets =
      (createNewRevision configController Faults.none 1 "r" exampleWorld).2.secrets :=
  createNewRevision_idempotent configController Faults.none 1 "r" exampleWorld
    (createNewRevision configController Faults.none 1 "r" exampleWorld).2
    (by decide) (by decide) (by decide) rfl rfl

/-! ## Optional resources -/

/-- The entry of a resource in the reason names the resource. -/
theorem entry_inj (kind a b : String)
    (h : kind ++ a ++ " has changed" = kind ++ b ++ " has changed") : a = b := by
  have hd := congrArg String.data h
  simp only [String.data_append] at hd
  exact String.ext (List.append_cancel_left (List.append_cancel_right hd))

/-- The entry of a secret is not the entry of a configmap. -/
theorem entry_kind_ne (a b : String) :
    "secret/" ++ a ++ " has changed" ≠ "configmap/" ++ b ++ " has changed" := by
  intro h
  have hd := congrArg String.data h
  simp only [String.data_append] at hd
  have hh := congrArg List.head? hd
  simp at hh

/-- The entry of a tracked configmap is among the drift entries exactly when the data of its
snapshot differ from the data of its source. -/
theorem mem_driftEntries_configMap (c : RevisionController) (revision : Int) (w : World)
    (cm : RevisionResource) (hcm : cm ∈ c.configMaps) :
    ("configmap/" ++ cm.Name ++ " has changed") ∈ driftEntries c revision w ↔
      DeepEqual (configMapData (nameFor cm.Name revision) w) (configMapData cm.Name w) =
        false := by
  unfold driftEntries driftedSecrets driftedConfigMaps
  simp only [List.mem_append, List.mem_map, List.mem_filter, Bool.not_eq_true']
  constructor
  · rintro (⟨s, _, he⟩ | ⟨b, ⟨_, hd⟩, he⟩)
    · exact absurd he (entry_kind_ne _ _)
    · rw [← entry_inj _ _ _ he]
      exact hd
  · intro hd
    exact Or.inr ⟨cm, ⟨hcm, hd⟩, rfl⟩

/-- The entry of a tracked secret is among the drift entries exactly when the data of its
snapshot differ from the data of its source. -/
theorem mem_driftEntries_secret (c : RevisionController) (revision : Int) (w : World)
    (s : RevisionResource) (hs : s ∈ c.secrets) :
    ("secret/" ++ s.Name ++ " has changed") ∈ driftEntries c revision w ↔
      DeepEqual (secretData (nameFor s.Name revision) w) (secretData s.Name w) = false := by
  unfold driftEntries driftedSecrets driftedConfigMaps
  simp only [List.mem_append, List.mem_map, List.mem_filter, Bool.not_eq_true']
  constructor
  · rintro (⟨b, ⟨_, hd⟩, he⟩ | ⟨b, _, he⟩)
    · rw [← entry_inj _ _ _ he]
      exact hd
    · exact absurd he.symm (entry_kind_ne _ _)
  · intro hd
    exact Or.inl ⟨s, ⟨hs, hd⟩, rfl⟩

/-- When no required resource is missing, `isLatestRevisionCurrent` returns true with the empty
reason when there is no drift entry, and false with the join of the drift entries
otherwise. -/
theorem isLatestRevisionCurrent_entries (c : RevisionController) (revision : Int) (w : World)
    (hreq : noRequiredMissing c revision w) :
    (isLatestRevisionCurrent c revision w).1 =
      (decide (driftEntries c revision w = []), join (driftEntries c revision w) ",") := by
  by_cases hd : driftEntries c revision w = []
  · rw [isLatestRevisionCurrent_no_drift c revision w hreq hd, hd]
    rfl
  · have e1 := isLatestRevisionCurrent_configMapLoop_entries revision c.configMaps [] w hreq.1
    obtain ⟨l1, hf1, _⟩ :=
      isLatestRevisionCurrent_configMapLoop_frame revision c.configMaps [] w
    unfold isLatestRevisionCurrent
    rcases hr : isLatestRevisionCurrent.configMapLoop revision c.configMaps [] w with ⟨r, w1⟩
    rw [hr] at e1 hf1
    simp only [List.nil_append] at e1 hf1
    subst e1
    have e2 := isLatestRevisionCurrent_secretLoop_entries revision c.secrets [] w1
      (by rw [hf1]; exact hreq.2)
    simp only
    rcases hr2 : isLatestRevisionCurrent.secretLoop revision c.secrets [] w1 with ⟨r2, w2⟩
    rw [hr2] at e2
    simp only [List.nil_append] at e2
    subst e2
    have hdata : ∀ n, secretData n w1 = secretData n w := by
      intro n; rw [hf1]; rfl
    simp only [hdata]
    have hentries : (c.secrets.filter (fun s =>
          !DeepEqual (secretData (nameFor s.Name revision) w) (secretData s.Name w))).map
          (fun s => "secret/" ++ s.Name ++ " has changed") ++
        (c.configMaps.filter (fun cm =>
          !DeepEqual (configMapData (nameFor cm.Name revision) w)
            (configMapData cm.Name w))).map
          (fun cm => "configmap/" ++ cm.Name ++ " has changed") =
        driftEntries c revision w := rfl
    rw [hentries]
    split
    · simp [hd]
    · rename_i hlen
      exfalso
      apply hd
      rw [← hentries]
      simp only [gt_iff_lt, Bool.or_eq_true, decide_eq_true_eq, not_or, not_lt,
        Nat.le_zero_eq, List.length_eq_zero] at hlen
      rw [hlen.1, hlen.2]
      rfl

/-- An early return of the configmap loop of `isLatestRevisionCurrent` names the source or the
snapshot of a non-optional tracked configmap, and that configmap is absent. -/
theorem isLatestRevisionCurrent_configMapLoop_error_required (revision : Int)
    (tracked : List RevisionResource) (changes : List String) (w : World) (text : String)
    (h : (isLatestRevisionCurrent.configMapLoop revision tracked changes w).1 = .error text) :
    ∃ cm ∈ tracked, cm.Optional = false ∧ ∃ name,
      (name = cm.Name ∨ name = nameFor cm.Name revision) ∧
      findConfigMap name w.configMaps = none ∧
      text = (GoError.notFound "configmaps" name).Error := by
  induction tracked generalizing changes w with
  | nil => simp [isLatestRevisionCurrent.configMapLoop] at h
  | cons cm rest ih =>
    rw [isLatestRevisionCurrent_configMapLoop_cons] at h
    split at h
    · rename_i h1
      simp only [Except.error.injEq] at h
      simp only [Bool.and_eq_true, Option.isNone_iff_eq_none, Bool.not_eq_true'] at h1
      exact ⟨cm, List.mem_cons_self _ _, h1.2, cm.Name, Or.inl rfl, h1.1, h.symm⟩
    · split at h
      · rename_i h2
        simp only [Except.error.injEq] at h
        simp only [Bool.and_eq_true, Option.isNone_iff_eq_none, Bool.not_eq_true'] at h2
        exact ⟨cm, List.mem_cons_self _ _, h2.2, nameFor cm.Name revision, Or.inr rfl, h2.1,
          h.symm⟩
      · obtain ⟨b, hb, hrest⟩ := ih _ _ h
        exact ⟨b, List.mem_cons_of_mem _ hb, by simpa using hrest⟩

/-- An early return of the secret loop of `isLatestRevisionCurrent` names the source or the
snapshot of a non-optional tracked secret, and that secret is absent. -/
theorem isLatestRevisionCurrent_secretLoop_error_required (revision : Int)
    (tracked : List RevisionResource) (changes : List String) (w : World) (text : String)
    (h : (isLatestRevisionCurrent.secretLoop revision tracked changes w).1 = .error text) :
    ∃ s ∈ tracked, s.Optional = false ∧ ∃ name,
      (name = s.Name ∨ name = nameFor s.Name revision) ∧
      findSecret name w.secrets = none ∧
      text = (GoError.notFound "secrets" name).Error := by
  induction tracked generalizing changes w with
  | nil => simp [isLatestRevisionCurrent.secretLoop] at h
  | cons s rest ih =>
    rw [isLatestRevisionCurrent_secretLoop_cons] at h
    split at h
    · rename_i h1
      simp only [Except.error.injEq] at h
      simp only [Bool.and_eq_true, Option.isNone_iff_eq_none, Bool.not_eq_true'] at h1
      exact ⟨s, List.mem_cons_self _ _, h1.2, s.Name, Or.inl rfl, h1.1, h.symm⟩
    · split at h
      · rename_i h2
        simp only [Except.error.injEq] at h
        simp only [Bool.and_eq_true, Option.isNone_iff_eq_none, Bool.not_eq_true'] at h2
        exact ⟨s, List.mem_cons_self _ _, h2.2, nameFor s.Name revision, Or.inr rfl, h2.1,
          h.symm⟩
      · obtain ⟨b, hb, hrest⟩ := ih _ _ h
        exact ⟨b, List.mem_cons_of_mem _ hb, by simpa using hrest⟩

/-- When a required resource is missing, `isLatestRevisionCurrent` returns false with the text
of a not-found error that names the source or the snapshot of a non-optional tracked resource,
and that source or snapshot is absent. -/
theorem isLatestRevisionCurrent_not_found (c : RevisionController) (revision : Int)
    (w : World) (h : ¬ noRequiredMissing c revision w) :
    (∃ cm ∈ c.configMaps, cm.Optional = false ∧ ∃ name,
      (name = cm.Name ∨ name = nameFor cm.Name revision) ∧
      findConfigMap name w.configMaps = none ∧
      (isLatestRevisionCurrent c revision w).1 =
        (false, (GoError.notFound "configmaps" name).Error)) ∨
    (∃ s ∈ c.secrets, s.Optional = false ∧ ∃ name,
      (name = s.Name ∨ name = nameFor s.Name revision) ∧
      findSecret name w.secrets = none ∧
      (isLatestRevisionCurrent c revision w).1 =
        (false, (GoError.notFound "secrets" name).Error)) := by
  obtain ⟨l1, hf1, _⟩ := isLatestRevisionCurrent_configMapLoop_frame revision c.configMaps [] w
  unfold isLatestRevisionCurrent
  rcases hr : isLatestRevisionCurrent.configMapLoop revision c.configMaps [] w with ⟨r, w1⟩
  rw [hr] at hf1
  simp only at hf1
  cases r with
  | error text =>
    obtain ⟨cm, hcm, hopt, name, hname, hnone, ht⟩ :=
      isLatestRevisionCurrent_configMapLoop_error_required revision c.configMaps [] w text
        (by rw [hr])
    exact Or.inl ⟨cm, hcm, hopt, name, hname, hnone, by rw [ht]⟩
  | ok configChanges =>
    have hA : ∀ cm ∈ c.configMaps, cm.Optional = false →
        (findConfigMap cm.Name w.configMaps).isSome = true ∧
          (findConfigMap (nameFor cm.Name revision) w.configMaps).isSome = true := by
      intro cm hcm hopt
      by_contra hmiss
      have hbad : findConfigMap cm.Name w.configMaps = none ∨
          findConfigMap (nameFor cm.Name revision) w.configMaps = none := by
        by_contra hb
        simp only [not_or, ← ne_eq, Option.ne_none_iff_isSome] at hb
        exact hmiss hb
      obtain ⟨name, hn⟩ := isLatestRevisionCurrent_configMapLoop_missing revision
        c.configMaps [] w ⟨cm, hcm, hopt, hbad⟩
      rw [hr] at hn
      cases hn
    have hB : ∃ s ∈ c.secrets, s.Optional = false ∧
        (findSecret s.Name w.secrets = none ∨
          findSecret (nameFor s.Name revision) w.secrets = none) := by
      by_contra hno
      apply h
      refine ⟨hA, ?_⟩
      intro s hs hopt
      by_contra hmiss
      apply hno
      refine ⟨s, hs, hopt, ?_⟩
      by_contra hb
      simp only [not_or, ← ne_eq, Option.ne_none_iff_isSome] at hb
      exact hmiss hb
    have hsec : w1.secrets = w.secrets := by rw [hf1]
    obtain ⟨name0, hn0⟩ := isLatestRevisionCurrent_secretLoop_missing revision c.secrets []
      w1 (by rw [hsec]; exact hB)
    simp only
    rcases hr2 : isLatestRevisionCurrent.secretLoop revision c.secrets [] w1 with ⟨r2, w2⟩
    rw [hr2] at hn0
    cases r2 with
    | ok secretChanges => cases hn0
    | error text =>
      obtain ⟨s, hs, hopt, name, hname, hnone, ht⟩ :=
        isLatestRevisionCurrent_secretLoop_error_required revision c.secrets [] w1 text
          (by rw [hr2])
      rw [hsec] at hnone
      exact Or.inr ⟨s, hs, hopt, name, hname, hnone, by rw [ht]⟩

/-- C5, as stated, fails. The optional configmap `extra` is tracked before the non-optional
configmap `config`; the data of `extra` differ from the data of its snapshot `extra-1`, and
`config` has no source. `isLatestRevisionCurrent` returns early with the not-found text of
`config`: `extra` is not reported as changed although its data differ. -/
theorem isLatestRevisionCurrent_optional_change_dropped :
    ({ Name := "extra", Optional := true } : RevisionResource) ∈
      optionalFirstController.configMaps ∧
    DeepEqual (configMapData (nameFor "extra" 1) optionalDriftWorld)
      (configMapData "extra" optionalDriftWorld) = false ∧
    (isLatestRevisionCurrent optionalFirstController 1 optionalDriftWorld).1 =
      (false, "configmaps \"config\" not found") := by
  refine ⟨by decide, by decide, by decide⟩

/-- C5, amended: in every state in which no non-optional tracked resource lacks its source or
its snapshot at the revision, `isLatestRevisionCurrent` returns the join of the drift entries
(true when there is none), and it decides every optional tracked configmap or secret as if an
absent source and an absent snapshot carried empty data: the entry of the resource is among
the entries if and only if the data of the snapshot `nameFor(name, revision)` (empty when
absent) differ from the data of the source (empty when absent), that is, when some key has
different values in the two; so a resource whose two sides are absent or empty is not reported.
In every other state the result is the not-found text of a source or snapshot of a
non-optional tracked resource that is absent, never of an optional one. -/
theorem isLatestRevisionCurrent_optional (c : RevisionController) (revision : Int)
    (w : World) :
    (noRequiredMissing c revision w →
      (isLatestRevisionCurrent c revision w).1 =
        (decide (driftEntries c revision w = []), join (driftEntries c revision w) ",") ∧
      (∀ cm ∈ c.configMaps, cm.Optional = true →
        (("configmap/" ++ cm.Name ++ " has changed") ∈ driftEntries c revision w ↔
          DeepEqual (configMapData (nameFor cm.Name revision) w) (configMapData cm.Name w) =
            false) ∧
        (("configmap/" ++ cm.Name ++ " has changed") ∈ driftEntries c revision w ↔
          ∃ k, (configMapData (nameFor cm.Name revision) w).lookup k ≠
            (configMapData cm.Name w).lookup k) ∧
        (configMapData (nameFor cm.Name revision) w = [] → configMapData cm.Name w = [] →
          ("configmap/" ++ cm.Name ++ " has changed") ∉ driftEntries c revision w)) ∧
      (∀ s ∈ c.secrets, s.Optional = true →
        (("secret/" ++ s.Name ++ " has changed") ∈ driftEntries c revision w ↔
          DeepEqual (secretData (nameFor s.Name revision) w) (secretData s.Name w) =
            false) ∧
        (("secret/" ++ s.Name ++ " has changed") ∈ driftEntries c revision w ↔
          ∃ k, (secretData (nameFor s.Name revision) w).lookup k ≠
            (secretData s.Name w).lookup k) ∧
        (secretData (nameFor s.Name revision) w = [] → secretData s.Name w = [] →
          ("secret/" ++ s.Name ++ " has changed") ∉ driftEntries c revision w))) ∧
    (¬ noRequiredMissing c revision w →
      (∃ cm ∈ c.configMaps, cm.Optional = false ∧ ∃ name,
        (name = cm.Name ∨ name = nameFor cm.Name revision) ∧
        findConfigMap name w.configMaps = none ∧
        (isLatestRevisionCurrent c revision w).1 =
          (false, (GoError.notFound "configmaps" name).Error)) ∨
      (∃ s ∈ c.secrets, s.Optional = false ∧ ∃ name,
        (name = s.Name ∨ name = nameFor s.Name revision) ∧
        findSecret name w.secrets = none ∧
        (isLatestRevisionCurrent c revision w).1 =
          (false, (GoError.notFound "secrets" name).Error))) := by
  refine ⟨fun hreq => ⟨isLatestRevisionCurrent_entries c revision w hreq, ?_, ?_⟩,
    isLatestRevisionCurrent_not_found c revision w⟩
  · intro cm hcm _
    have hmem := mem_driftEntries_configMap c revision w cm hcm
    refine ⟨hmem, ?_, ?_⟩
    · rw [hmem, ← Bool.not_eq_true, DeepEqual_iff]
      exact not_forall
    · intro h1 h2
      rw [hmem, h1, h2, DeepEqual_refl]
      simp
  · intro s hs _
    have hmem := mem_driftEntries_secret c revision w s hs
    refine ⟨hmem, ?_, ?_⟩
    · rw [hmem, ← Bool.not_eq_true, DeepEqual_iff]
      exact not_forall
    · intro h1 h2
      rw [hmem, h1, h2, DeepEqual_refl]
      simp

/-- C5, amended, at a namespace in which the optional configmap `extra` differs from its
snapshot and the optional secret `token` has no source and an empty snapshot: `extra` is the
one resource reported. Where the non-optional `config` has no source, the result is its
not-found text. -/
theorem isLatestRevisionCurrent_optional_witness :
    (isLatestRevisionCurrent optionalFirstController 1 optionalWorld).1 =
      (false, "configmap/extra has changed") ∧
    ("secret/token has changed") ∉ driftEntries optionalFirstController 1 optionalWorld ∧
    ((∃ cm ∈ optionalFirstController.configMaps, cm.Optional = false ∧ ∃ name,
        (name = cm.Name ∨ name = nameFor cm.Name 1) ∧
        findConfigMap name optionalDriftWorld.configMaps = none ∧
        (isLatestRevisionCurrent optionalFirstController 1 optionalDriftWorld).1 =
          (false, (GoError.notFound "configmaps" name).Error)) ∨
      (∃ s ∈ optionalFirstController.secrets, s.Optional = false ∧ ∃ name,
        (name = s.Name ∨ name = nameFor s.Name 1) ∧
        findSecret name optionalDriftWorld.secrets = none ∧
        (isLatestRevisionCurrent optionalFirstController 1 optionalDriftWorld).1 =
          (false, (GoError.notFound "secrets" name).Error))) := by
  have h := (isLatestRevisionCurrent_optional optionalFirstController 1 optionalWorld).1
    (by decide)
  have h2 := (isLatestRevisionCurrent_optional optionalFirstController 1
    optionalDriftWorld).2 (by decide)
  refine ⟨?_, ?_, h2⟩
  · rw [h.1]
    decide
  · exact (h.2.2 { Name := "token", Optional := true } (by decide) rfl).2.2
      (by decide) (by decide)

end revisioncontroller

namespace library

/-- The loop counts on from its start index. -/
theorem CleanIDPConfigByName_loop_start (l : List IdentityProvider) (idpName : String)
    (k : Nat) :
    CleanIDPConfigByName.loop l idpName k = k + CleanIDPConfigByName.loop l idpName 0 := by
  induction l generalizing k with
  | nil => simp [CleanIDPConfigByName.loop]
  | cons idp rest ih =>
    unfold CleanIDPConfigByName.loop
    by_cases h : idp.Name = idpName
    · simp [h]
    · simp only [h, if_false]
      rw [ih (k + 1), ih (0 + 1)]
      omega

/-- The loop ends within the list, and at its end exactly when no provider has the name. -/
theorem CleanIDPConfigByName_loop_bound (l : List IdentityProvider) (idpName : String) :
    CleanIDPConfigByName.loop l idpName 0 ≤ l.length ∧
    (CleanIDPConfigByName.loop l idpName 0 = l.length ↔ ∀ p ∈ l, p.Name ≠ idpName) := by
  induction l with
  | nil => simp [CleanIDPConfigByName.loop]
  | cons idp rest ih =>
    unfold CleanIDPConfigByName.loop
    by_cases h : idp.Name = idpName
    · simp [h]
    · simp only [h, if_false]
      rw [CleanIDPConfigByName_loop_start rest idpName (0 + 1)]
      obtain ⟨h1, h2⟩ := ih
      refine ⟨by simp only [List.length_cons]; omega, ?_⟩
      simp only [List.length_cons, List.mem_cons, forall_eq_or_imp]
      constructor
      · intro he
        exact ⟨h, h2.mp (by omega)⟩
      · intro hall
        have := h2.mpr hall.2
        omega

/-- The providers before the index where the loop ends, followed by the providers after it,
are the list without its first provider of the name. -/
theorem CleanIDPConfigByName_loop_remove (l : List IdentityProvider) (idpName : String)
    (h : CleanIDPConfigByName.loop l idpName 0 ≠ l.length) :
    l.take (CleanIDPConfigByName.loop l idpName 0) ++
      l.drop (CleanIDPConfigByName.loop l idpName 0 + 1) = removeFirstNamed idpName l := by
  induction l with
  | nil => simp [CleanIDPConfigByName.loop] at h
  | cons idp rest ih =>
    unfold CleanIDPConfigByName.loop at h ⊢
    unfold removeFirstNamed
    by_cases hn : idp.Name = idpName
    · simp [hn]
    · simp only [hn, if_false] at h ⊢
      rw [CleanIDPConfigByName_loop_start rest idpName (0 + 1)] at h ⊢
      have hne : CleanIDPConfigByName.loop rest idpName 0 ≠ rest.length := by
        intro e
        apply h
        simp only [List.length_cons]
        omega
      have e1 : 0 + 1 + CleanIDPConfigByName.loop rest idpName 0 =
          CleanIDPConfigByName.loop rest idpName 0 + 1 := by omega
      rw [e1, List.take_succ_cons, List.drop_succ_cons, List.cons_append, ih hne]

/-- The list without its first provider of the name, by the place of that provider. -/
theorem removeFirstNamed_spec (l : List IdentityProvider) (idpName : String)
    (h : ∃ p ∈ l, p.Name = idpName) :
    ∃ pre p post, l = pre ++ p :: post ∧ p.Name = idpName ∧
      (∀ q ∈ pre, q.Name ≠ idpName) ∧ removeFirstNamed idpName l = pre ++ post := by
  induction l with
  | nil => obtain ⟨p, hp, _⟩ := h; cases hp
  | cons idp rest ih =>
    by_cases hn : idp.Name = idpName
    · exact ⟨[], idp, rest, rfl, hn, by simp, by simp [removeFirstNamed, hn]⟩
    · obtain ⟨p, hp, hpn⟩ := h
      rcases List.mem_cons.mp hp with rfl | hp
      · exact absurd hpn hn
      · obtain ⟨pre, q, post, e, hq, hpre, hr⟩ := ih ⟨p, hp, hpn⟩
        refine ⟨idp :: pre, q, post, by rw [e]; rfl, hq, ?_, ?_⟩
        · intro x hx
          rcases List.mem_cons.mp hx with rfl | hx
          · exact hn
          · exact hpre x hx
        · simp [removeFirstNamed, hn, hr]

/-- What `CleanIDPConfigByName` does once `Get` has given the object. -/
theorem CleanIDPConfigByName_of_get (configClient : OAuthInterface) (idpName : String)
    (config : OAuth) (hget : configClient.Get "cluster" = .ok config) :
    CleanIDPConfigByName configClient idpName =
      if CleanIDPConfigByName.loop config.Spec.IdentityProviders idpName 0 =
          config.Spec.IdentityProviders.length then { updates := [], fatal := none }
      else
        { updates := [config.withProviders
            (removeFirstNamed idpName config.Spec.IdentityProviders)],
          fatal := (configClient.Update (config.withProviders
            (removeFirstNamed idpName config.Spec.IdentityProviders))).map
            (fun err => "cleanup: failed to update oauth/cluster: " ++ err) } := by
  unfold CleanIDPConfigByName
  rw [hget]
  simp only
  split
  · rfl
  · rename_i hne
    have hrem := CleanIDPConfigByName_loop_remove config.Spec.IdentityProviders idpName hne
    have hle := (CleanIDPConfigByName_loop_bound config.Spec.IdentityProviders idpName).1
    have hprov : (if config.Spec.IdentityProviders.length >
          CleanIDPConfigByName.loop config.Spec.IdentityProviders idpName 0 + 1 then
          config.Spec.IdentityProviders.take
              (CleanIDPConfigByName.loop config.Spec.IdentityProviders idpName 0) ++
            config.Spec.IdentityProviders.drop
              (CleanIDPConfigByName.loop config.Spec.IdentityProviders idpName 0 + 1)
        else config.Spec.IdentityProviders.take
          (CleanIDPConfigByName.loop config.Spec.IdentityProviders idpName 0)) =
        removeFirstNamed idpName config.Spec.IdentityProviders := by
      split
      · exact hrem
      · rename_i hlen
        rw [← hrem, List.drop_of_length_le (by omega), List.append_nil]
    rw [hprov]
    unfold OAuth.withProviders
    cases configClient.Update _ <;> rfl

/-- C21: for every object `oauth/cluster` that `Get` gives and every name `idpName`: if some
identity provider is named `idpName`, `CleanIDPConfigByName` issues exactly one update, of the
object with the list from which the first provider of that name is removed, every other
provider kept in its order and the length reduced by one; if no provider has that name, as in
the empty list, it issues no update and does not fail the test. -/
theorem CleanIDPConfigByName_tears_one_out (configClient : OAuthInterface) (idpName : String)
    (config : OAuth) (hget : configClient.Get "cluster" = .ok config) :
    ((∃ p ∈ config.Spec.IdentityProviders, p.Name = idpName) →
      (CleanIDPConfigByName configClient idpName).updates =
        [config.withProviders (removeFirstNamed idpName config.Spec.IdentityProviders)] ∧
      (removeFirstNamed idpName config.Spec.IdentityProviders).length + 1 =
        config.Spec.IdentityProviders.length ∧
      ∃ pre p post, config.Spec.IdentityProviders = pre ++ p :: post ∧ p.Name = idpName ∧
        (∀ q ∈ pre, q.Name ≠ idpName) ∧
        removeFirstNamed idpName config.Spec.IdentityProviders = pre ++ post) ∧
    ((∀ p ∈ config.Spec.IdentityProviders, p.Name ≠ idpName) →
      CleanIDPConfigByName configClient idpName = { updates := [], fatal := none }) := by
  have hrun := CleanIDPConfigByName_of_get configClient idpName config hget
  obtain ⟨_, hiff⟩ := CleanIDPConfigByName_loop_bound config.Spec.IdentityProviders idpName
  constructor
  · intro hex
    have hne : CleanIDPConfigByName.loop config.Spec.IdentityProviders idpName 0 ≠
        config.Spec.IdentityProviders.length := by
      intro e
      obtain ⟨p, hp, hpn⟩ := hex
      exact hiff.mp e p hp hpn
    rw [hrun, if_neg hne]
    obtain ⟨pre, p, post, e, hp, hpre, hr⟩ :=
      removeFirstNamed_spec config.Spec.IdentityProviders idpName hex
    refine ⟨rfl, ?_, pre, p, post, e, hp, hpre, hr⟩
    rw [hr, e]
    simp only [List.length_append, List.length_cons]
    omega
  · intro hall
    rw [hrun, if_pos (hiff.mpr hall)]

/-- C21 at a list with two providers named `htpasswd`: the first of them is removed, and a
name that no provider has leaves the object without update; so does the empty list. -/
theorem CleanIDPConfigByName_tears_one_out_witness :
    (CleanIDPConfigByName exampleClient "htpasswd").updates =
      [exampleOAuth.withProviders
        [{ Name := "ldap", IdentityProviderConfig := "first" },
         { Name := "keycloak", IdentityProviderConfig := "third" },
         { Name := "htpasswd", IdentityProviderConfig := "fourth" }]] ∧
    CleanIDPConfigByName exampleClient "github" = { updates := [], fatal := none } ∧
    CleanIDPConfigByName emptyClient "htpasswd" = { updates := [], fatal := none } := by
  have h := CleanIDPConfigByName_tears_one_out exampleClient "htpasswd" exampleOAuth rfl
  have h2 := CleanIDPConfigByName_tears_one_out exampleClient "github" exampleOAuth rfl
  have h3 := CleanIDPConfigByName_tears_one_out emptyClient "htpasswd"
    (exampleOAuth.withProviders []) rfl
  refine ⟨?_, h2.2 (by decide), h3.2 (by decide)⟩
  have h1 := (h.1 ⟨{ Name := "htpasswd", IdentityProviderConfig := "second" },
    by decide, rfl⟩).1
  rw [h1]
  rfl

end library
